import Mathlib

/-!
# Handle table of the Magenta kernel (`kernel/lib/magenta/magenta.cpp`)

A shallow embedding of the handle arena, the base-value encoder and the three
handle life-cycle operations `MakeHandle`, `DupHandle` and `DeleteHandle`, of
the out-of-memory job selector `oom_lowmem`, of the rights and resource checks
`magenta_rights_check` and `validate_ranged_resource`, of the system calls of
`kernel/lib/syscalls/syscalls_ddk.cpp` that create handles or pin a VMO, and of
`ContextTableState::includes_bdf` of the Intel IOMMU driver, followed by the
properties established about them.

Machine integers are natural numbers reduced modulo the width of the C++ type
wherever the source arithmetic could wrap.  Pointers into the handle arena are
slot indices.  Calls into collaborators (state tracker, dispatcher hooks,
`printf`) are recorded as a list of events in program order.
-/

namespace Magenta

/-! ## Constants and masks -/

/-- Truncation to `uint32_t`. -/
def u32 (x : Nat) : Nat := x % 2 ^ 32

/-- Truncation to `size_t` (64 bit). -/
def usize (x : Nat) : Nat := x % 2 ^ 64

/-- Bitwise complement on `uint32_t`. -/
def not32 (x : Nat) : Nat := (2 ^ 32 - 1) ^^^ u32 x

/-- The number of possible handles in the arena. -/
def kMaxHandleCount : Nat := 256 * 1024

/-- Warning level for the number of outstanding handles. -/
def kHighHandleCount : Nat := (kMaxHandleCount * 7) / 8

/-- Mask of the arena index inside a base value. -/
def kHandleIndexMask : Nat := u32 (kMaxHandleCount - 1)

/-- Mask of the generation number inside a base value. -/
def kHandleGenerationMask : Nat := not32 kHandleIndexMask &&& not32 (3 <<< 30)

/-- Halving loop behind `log2_uint_floor`. -/
def log2Loop : Nat → Nat → Nat
  | 0, _ => 0
  | fuel + 1, val => if val < 2 then 0 else log2Loop fuel (val / 2) + 1

/-- Modelled from the spec: `log2_uint_floor` of `pow2.h` (not part of the
sources at hand), the position of the highest set bit of an unsigned int, zero
for zero. -/
def log2_uint_floor (val : Nat) : Nat := log2Loop 32 (u32 val)

/-- Position of the generation number inside a base value. -/
def kHandleGenerationShift : Nat := log2_uint_floor kMaxHandleCount

/-- The object type tag `MX_OBJ_TYPE_IOMAP` of `mx_obj_type_t`. -/
def MX_OBJ_TYPE_IOMAP : Nat := 10

/-! ## Data model -/

/-- Modelled from the spec: the `Handle` record (its header is not part of the
sources at hand).  A handle binds a dispatcher, a rights mask and a base
value. -/
structure Handle where
  dispatcher : Nat
  rights : Nat
  base_value : Nat
deriving DecidableEq

/-- Modelled from the spec: the memory of one arena slot.  It either holds a
constructed `Handle`, or it is unformed memory that is all zero except for the
32-bit word at its start (zero as well when the slot was never used). -/
inductive Slot where
  | raw (word0 : Nat)
  | object (h : Handle)
deriving DecidableEq

/-- The 32-bit word at the start of a slot, as read through
`*reinterpret_cast<uint32_t*>(addr)`.  Only unformed slots are read this way. -/
def Slot.word0 : Slot → Nat
  | Slot.raw v => v
  | Slot.object _ => 0

/-- What `handle->base_value()` reads from a slot: the field of the constructed
handle, or zero from the cleared memory of an unformed slot. -/
def Slot.base_value : Slot → Nat
  | Slot.raw _ => 0
  | Slot.object h => h.base_value

/-- Whether a constructed handle is stored in the slot. -/
def Slot.isObject : Slot → Bool
  | Slot.raw _ => false
  | Slot.object _ => true

/-- The part of a dispatcher seen by the handle table: its handle count
(a `uint32_t` guarded by the handle mutex), whether `get_state_tracker()` is
non-null, and its `get_type()`. -/
structure Dispatcher where
  handle_count : Nat
  has_state_tracker : Bool
  type : Nat
deriving DecidableEq

/-- Calls that leave the handle table, in program order. -/
inductive Event where
  | alloc_warning (oh : Nat)
  | dup_warning (oh : Nat)
  | high_handle_count (count : Nat)
  | UpdateLastHandleSignal (dispatcher : Nat) (handle_count : Option Nat)
  | Cancel (dispatcher : Nat) (handle : Nat)
  | Close (dispatcher : Nat)
  | on_zero_handles (dispatcher : Nat)
deriving DecidableEq

/-- The global state guarded by `handle_mutex`, together with the dispatchers.
`capacity`, `allocated` and `mem` stand for `handle_arena`: its fixed number of
slots, which slots are handed out, and the contents of its data region. -/
structure State where
  capacity : Nat
  allocated : Nat → Bool
  mem : Nat → Slot
  outstanding_handles : Nat
  dispatchers : Nat → Dispatcher

/-- Point update of a total map. -/
def upd {α : Type} (f : Nat → α) (i : Nat) (a : α) : Nat → α :=
  fun j => if j = i then a else f j

/-- The state set up by `magenta_init`: an arena of `kMaxHandleCount` zeroed
slots, no outstanding handle, and every dispatcher without handles. -/
def magenta_init (tracker : Nat → Bool) (type : Nat → Nat) : State where
  capacity := kMaxHandleCount
  allocated := fun _ => false
  mem := fun _ => Slot.raw 0
  outstanding_handles := 0
  dispatchers := fun d => ⟨0, tracker d, type d⟩

/-! ## The arena -/

/-- Modelled from the spec: the result of the arena allocator (`mxtl::Arena` is
not part of the sources at hand).  `Alloc` hands out some slot of the arena that
is not handed out yet, and signals exhaustion only when there is none. -/
def AllocOk (s : State) : Option Nat → Prop
  | some addr => addr < s.capacity ∧ s.allocated addr = false
  | none => ∀ i, i < s.capacity → s.allocated i = true

instance (s : State) (r : Option Nat) : Decidable (AllocOk s r) := by
  cases r <;> unfold AllocOk <;> infer_instance

/-- Modelled from the spec: `handle_arena.Alloc()` marks the slot it returns as
handed out. -/
def arenaAlloc (s : State) (addr : Nat) : State :=
  { s with allocated := upd s.allocated addr true }

/-- Modelled from the spec: `handle_arena.Free(addr)` takes the slot back and
leaves its memory alone. -/
def arenaFree (s : State) (addr : Nat) : State :=
  { s with allocated := upd s.allocated addr false }

/-- Modelled from the spec: `HandleInRange`, i.e. `handle_arena.in_range`, holds
for the addresses inside the arena's backing region. -/
def HandleInRange (s : State) (addr : Nat) : Bool := decide (addr < s.capacity)

/-! ## Base values -/

/-- The new base value for the free slot `addr`, from the value stashed in it. -/
def GetNewHandleBaseValue (s : State) (addr : Nat) : Nat :=
  let handle_index := u32 addr
  let v := (s.mem addr).word0
  let old_gen :=
    if v = 0 then 0
    else (v &&& kHandleGenerationMask) >>> kHandleGenerationShift
  (u32 ((old_gen + 1) <<< kHandleGenerationShift) &&& kHandleGenerationMask) ||| handle_index

/-- The two `DEBUG_ASSERT`s of `GetNewHandleBaseValue`: the index fits the index
mask, and a stashed value carries the index of its slot. -/
def GetNewHandleBaseValue_asserts (s : State) (addr : Nat) : Bool :=
  let handle_index := u32 addr
  let v := (s.mem addr).word0
  decide (handle_index &&& not32 kHandleIndexMask = 0) &&
    (decide (v = 0) || decide (v &&& kHandleIndexMask = handle_index))

/-- Destroys, but does not free, the handle: the handle is destructed, the
slot is zeroed by `memset`, and the base value is stashed in the 32-bit word
at the start of the slot. -/
def TearDownHandle (s : State) (handle : Nat) : State :=
  let base_value := (s.mem handle).base_value
  { s with mem := upd s.mem handle (Slot.raw base_value) }

/-- The warning printed by `high_handle_count`. -/
def high_handle_count (count : Nat) : List Event := [Event.high_handle_count count]

/-! ## Life-cycle operations -/

/-- Embedding of `MakeHandle`; `alloc` is what `handle_arena.Alloc()` returns.
The result is the new state, the new handle (`none` is `nullptr`) and the
events.  The marker passed to the state tracker is `none` for `nullptr`. -/
def MakeHandle (s : State) (alloc : Option Nat) (dispatcher : Nat) (rights : Nat) :
    State × Option Nat × List Event :=
  match alloc with
  | none => (s, none, [Event.alloc_warning s.outstanding_handles])
  | some addr =>
    let s1 := arenaAlloc s addr
    let outstanding := usize (s1.outstanding_handles + 1)
    let warn := if outstanding > kHighHandleCount then high_handle_count outstanding else []
    let d := s1.dispatchers dispatcher
    let count := u32 (d.handle_count + 1)
    let handle_count := if count ≠ 2 then none else some dispatcher
    let base_value := GetNewHandleBaseValue s1 addr
    let signal :=
      if d.has_state_tracker then [Event.UpdateLastHandleSignal dispatcher handle_count]
      else []
    ({ s1 with
        mem := upd s1.mem addr (Slot.object ⟨dispatcher, rights, base_value⟩)
        outstanding_handles := outstanding
        dispatchers := upd s1.dispatchers dispatcher { d with handle_count := count } },
      some addr, warn ++ signal)

/-- Embedding of `DupHandle`; `alloc` is what `handle_arena.Alloc()` returns and
`source` is the slot of a constructed handle (for any other slot the call is
outside its contract and is taken to do nothing). -/
def DupHandle (s : State) (alloc : Option Nat) (source : Nat) (rights : Nat)
    (is_replace : Bool) : State × Option Nat × List Event :=
  match s.mem source with
  | Slot.raw _ => (s, none, [])
  | Slot.object src =>
    let dispatcher := src.dispatcher
    match alloc with
    | none => (s, none, [Event.dup_warning s.outstanding_handles])
    | some addr =>
      let s1 := arenaAlloc s addr
      let outstanding := usize (s1.outstanding_handles + 1)
      let warn := if outstanding > kHighHandleCount then high_handle_count outstanding else []
      let d := s1.dispatchers dispatcher
      let count := u32 (d.handle_count + 1)
      let handle_count := if count ≠ 2 then none else some dispatcher
      let base_value := GetNewHandleBaseValue s1 addr
      let signal :=
        if !is_replace && d.has_state_tracker then
          [Event.UpdateLastHandleSignal dispatcher handle_count]
        else []
      ({ s1 with
          mem := upd s1.mem addr (Slot.object ⟨dispatcher, rights, base_value⟩)
          outstanding_handles := outstanding
          dispatchers := upd s1.dispatchers dispatcher { d with handle_count := count } },
        some addr, warn ++ signal)

/-- Embedding of `DeleteHandle`; `handle` is the slot of a constructed handle
(for any other slot the call is outside its contract and is taken to do
nothing). -/
def DeleteHandle (s : State) (handle : Nat) : State × List Event :=
  match s.mem handle with
  | Slot.raw _ => (s, [])
  | Slot.object h =>
    let dispatcher := h.dispatcher
    let d := s.dispatchers dispatcher
    let state_tracker := d.has_state_tracker
    let close :=
      if state_tracker then [Event.Cancel dispatcher handle]
      else if d.type = MX_OBJ_TYPE_IOMAP then [Event.Close dispatcher]
      else []
    let s1 := TearDownHandle s handle
    let outstanding := usize (s1.outstanding_handles + (2 ^ 64 - 1))
    let count := u32 (d.handle_count + (2 ^ 32 - 1))
    let zero_handles := decide (count = 0)
    let handle_count :=
      if count = 0 then some dispatcher
      else if count ≠ 1 then none
      else some dispatcher
    let s2 := arenaFree
      { s1 with
        outstanding_handles := outstanding
        dispatchers := upd s1.dispatchers dispatcher { d with handle_count := count } }
      handle
    if zero_handles then (s2, close ++ [Event.on_zero_handles dispatcher])
    else if state_tracker then
      (s2, close ++ [Event.UpdateLastHandleSignal dispatcher handle_count])
    else (s2, close)

/-- Embedding of `MapU32ToHandle`: the slot the value resolves to, or `none`
for `nullptr`. -/
def MapU32ToHandle (s : State) (value : Nat) : Option Nat :=
  let index := value &&& kHandleIndexMask
  if !HandleInRange s index then none
  else if (s.mem index).base_value = value then some index else none

/-! ## Sequences of operations -/

/-- One call into the handle table, with the slot the arena returned to it. -/
inductive Op where
  | make (alloc : Option Nat) (dispatcher : Nat) (rights : Nat)
  | dup (alloc : Option Nat) (source : Nat) (rights : Nat) (is_replace : Bool)
  | delete (handle : Nat)
deriving DecidableEq

/-- The state after one call. -/
def step (s : State) : Op → State
  | Op.make alloc d r => (MakeHandle s alloc d r).1
  | Op.dup alloc src r rep => (DupHandle s alloc src r rep).1
  | Op.delete h => (DeleteHandle s h).1

/-- The events of one call. -/
def stepEvents (s : State) : Op → List Event
  | Op.make alloc d r => (MakeHandle s alloc d r).2.2
  | Op.dup alloc src r rep => (DupHandle s alloc src r rep).2.2
  | Op.delete h => (DeleteHandle s h).2

/-- A call respects its contract: the arena answered as an arena does, the
source of a duplication is a handle in the arena, and the handle to delete is
one that was handed out and is still constructed. -/
def Op.ok (s : State) : Op → Prop
  | Op.make alloc _ _ => AllocOk s alloc
  | Op.dup alloc src _ _ =>
      AllocOk s alloc ∧ src < s.capacity ∧ s.allocated src = true ∧ (s.mem src).isObject = true
  | Op.delete h => h < s.capacity ∧ s.allocated h = true ∧ (s.mem h).isObject = true

instance (s : State) (op : Op) : Decidable (Op.ok s op) := by
  cases op <;> unfold Op.ok <;> infer_instance

/-- The state after a sequence of calls. -/
def run (s : State) : List Op → State
  | [] => s
  | op :: ops => run (step s op) ops

/-- Every call of the sequence respects its contract in the state it runs in. -/
def Valid (s : State) : List Op → Prop
  | [] => True
  | op :: ops => Op.ok s op ∧ Valid (step s op) ops

/-- Validity of a sequence of calls can be checked. -/
def Valid.dec : (s : State) → (ops : List Op) → Decidable (Valid s ops)
  | _, [] => isTrue trivial
  | s, op :: ops =>
    match (inferInstance : Decidable (Op.ok s op)), Valid.dec (step s op) ops with
    | isTrue h1, isTrue h2 => isTrue ⟨h1, h2⟩
    | isFalse h1, _ => isFalse (fun h => h1 h.1)
    | _, isFalse h2 => isFalse (fun h => h2 h.2)

instance (s : State) (ops : List Op) : Decidable (Valid s ops) := Valid.dec s ops

/-- States the handle table can be in: those reached from `magenta_init` by
calls that respect their contracts. -/
def Reachable (s : State) : Prop :=
  ∃ tracker type ops, Valid (magenta_init tracker type) ops ∧
    s = run (magenta_init tracker type) ops

/-! ## Observations used in the statements -/

/-- The slot index encoded in a base value. -/
def indexOf (v : Nat) : Nat := v &&& kHandleIndexMask

/-- The generation number encoded in a base value. -/
def generationOf (v : Nat) : Nat := (v &&& kHandleGenerationMask) >>> kHandleGenerationShift

/-- A live handle with the given contents is stored in slot `i`. -/
def LiveAt (s : State) (i : Nat) (h : Handle) : Prop :=
  s.allocated i = true ∧ s.mem i = Slot.object h

instance (s : State) (i : Nat) (h : Handle) : Decidable (LiveAt s i h) := by
  unfold LiveAt; infer_instance

/-- The slot the arena handed to a call, if any. -/
def Op.alloc : Op → Option Nat
  | Op.make alloc _ _ => alloc
  | Op.dup alloc _ _ _ => alloc
  | Op.delete _ => none

/-- The dispatcher a call acts on, if any: the one passed to `MakeHandle`, or
the one of the handle passed to `DupHandle` or `DeleteHandle`. -/
def Op.dispatcher (s : State) : Op → Option Nat
  | Op.make _ d _ => some d
  | Op.dup _ src _ _ =>
    match s.mem src with
    | Slot.object h => some h.dispatcher
    | Slot.raw _ => none
  | Op.delete hd =>
    match s.mem hd with
    | Slot.object h => some h.dispatcher
    | Slot.raw _ => none

/-- How many calls of the sequence were handed slot `i` by the arena. -/
def allocCount (i : Nat) : List Op → Nat
  | [] => 0
  | op :: ops => (if op.alloc = some i then 1 else 0) + allocCount i ops

/-- Number of indices below `n` that satisfy `p`. -/
def countBelow (p : Nat → Bool) : Nat → Nat
  | 0 => 0
  | n + 1 => countBelow p n + (if p n then 1 else 0)

/-- Slot `i` holds a live handle of dispatcher `d`. -/
def holds (s : State) (d i : Nat) : Bool :=
  s.allocated i &&
    match s.mem i with
    | Slot.object h => decide (h.dispatcher = d)
    | Slot.raw _ => false

/-- The number of live handles of dispatcher `d`, i.e. of handles created or
duplicated against it and not deleted yet. -/
def liveCount (s : State) (d : Nat) : Nat := countBelow (holds s d) s.capacity

/-- The event is a call of `on_zero_handles`. -/
def Event.isOnZeroHandles : Event → Bool
  | Event.on_zero_handles _ => true
  | _ => false

/-- The event is a call of `UpdateLastHandleSignal`, whatever its argument. -/
def Event.isSignal : Event → Bool
  | Event.UpdateLastHandleSignal _ _ => true
  | _ => false

/-- The event is a call of `UpdateLastHandleSignal` with a non-null pointer to
the handle count, which is how a transition is notified. -/
def Event.isTransition : Event → Bool
  | Event.UpdateLastHandleSignal _ (some _) => true
  | _ => false

/-- Whether `MapU32ToHandle value` returns a live handle: a slot that is handed
out and holds a constructed handle. -/
def returnsLive (s : State) (value : Nat) : Bool :=
  match MapU32ToHandle s value with
  | some j => s.allocated j && (s.mem j).isObject
  | none => false

/-- The base value last issued for a slot: the one of the handle stored in it,
or the one stashed in its unformed memory. -/
def lastIssued : Slot → Nat
  | Slot.raw v => v
  | Slot.object h => h.base_value

/-- A freshly set up table in which every dispatcher has a state tracker, used
in the examples. -/
def demoInit : State := magenta_init (fun _ => true) (fun _ => 0)

/-- Delete the handle in slot `i` and create one there again, `n` times. -/
def churn (i d : Nat) : Nat → List Op
  | 0 => []
  | n + 1 => Op.delete i :: Op.make (some i) d 0 :: churn i d n

/-- Create handles of dispatcher `d` in the `n` slots from `start` on, in
order. -/
def fillOps (d start : Nat) : Nat → List Op
  | 0 => []
  | n + 1 => Op.make (some start) d 0 :: fillOps d (start + 1) n

/-- The event is the warning printed by `high_handle_count`. -/
def Event.isHighWarning : Event → Bool
  | Event.high_handle_count _ => true
  | _ => false

/-! ## Status codes -/

/-- Success status `MX_OK`.  The status codes are those of the public header
`magenta/errors.h`, which is not part of the sources at hand; the properties
below only use that the error codes are negative and differ from `MX_OK`. -/
def MX_OK : Int := 0

/-- Status `MX_ERR_NO_MEMORY` of `magenta/errors.h`. -/
def MX_ERR_NO_MEMORY : Int := -4

/-- Status `MX_ERR_INVALID_ARGS` of `magenta/errors.h`. -/
def MX_ERR_INVALID_ARGS : Int := -10

/-- Status `MX_ERR_ACCESS_DENIED` of `magenta/errors.h`. -/
def MX_ERR_ACCESS_DENIED : Int := -30

/-- Status `MX_ERR_STOP` of `magenta/errors.h`, which ends an enumeration. -/
def MX_ERR_STOP : Int := -60

/-! ## The out-of-memory job selector -/

/-- The fields of `mx_info_process_t` read by the selector. -/
structure mx_info_process_t where
  started : Bool
  exited : Bool
  debugger_attached : Bool
deriving DecidableEq

/-- One job or process handed to a `JobEnumerator`. -/
inductive Descendant where
  | job (koid : Nat)
  | process (koid : Nat) (info : mx_info_process_t)
deriving DecidableEq

/-- Modelled from the spec: a job as the selector sees it (`JobDispatcher` is
not part of the sources at hand): its koid and the jobs and processes that
`EnumerateChildren` with `recurse = true` visits below it, in visiting order,
each process with the info `GetInfo` reports at that moment. -/
structure Job where
  koid : Nat
  descendants : List Descendant
deriving DecidableEq

/-- The tag printed for a process. -/
inductive ProcTag where
  | tag_new
  | tag_run
  | tag_dead
  | tag_dbg
deriving DecidableEq

/-- The tag printed for a job: `*KILL*`, `(skip)` or `(next)`. -/
inductive JobTag where
  | tag_kill
  | tag_skip
  | tag_next
deriving DecidableEq

/-- What `oom_lowmem` prints and calls, in program order. -/
inductive OomEvent where
  | called (shortfall_bytes : Nat)
  | print_job (koid : Nat)
  | print_proc (koid : Nat) (tag : ProcTag)
  | EnumerateChildren (koid : Nat) (printing : Bool)
  | job_line (tag : JobTag) (koid : Nat)
  | summary (running total jobs : Nat)
  | Kill (koid : Nat)
deriving DecidableEq

/-- The class `OmmJobEnumerator`; `printing` says that its print argument is
not null. -/
structure OmmJobEnumerator where
  printing : Bool
  num_jobs_ : Nat
  num_processes_ : Nat
  num_running_processes_ : Nat
deriving DecidableEq

/-- Embedding of `OmmJobEnumerator::reset_counts`. -/
def OmmJobEnumerator.reset_counts (e : OmmJobEnumerator) : OmmJobEnumerator :=
  { e with num_jobs_ := 0, num_processes_ := 0, num_running_processes_ := 0 }

/-- Embedding of `OmmJobEnumerator::OnJob`: the enumerator afterwards, what was
printed, and the value returned. -/
def OmmJobEnumerator.OnJob (e : OmmJobEnumerator) (koid : Nat) :
    OmmJobEnumerator × List OomEvent × Bool :=
  let out := if e.printing then [OomEvent.print_job koid] else []
  ({ e with num_jobs_ := usize (e.num_jobs_ + 1) }, out, true)

/-- Embedding of `OmmJobEnumerator::OnProcess`: the enumerator afterwards, what
was printed, and the value returned. -/
def OmmJobEnumerator.OnProcess (e : OmmJobEnumerator) (koid : Nat)
    (info : mx_info_process_t) : OmmJobEnumerator × List OomEvent × Bool :=
  let running :=
    if info.started && !info.exited && !info.debugger_attached then
      usize (e.num_running_processes_ + 1)
    else e.num_running_processes_
  let tag0 := ProcTag.tag_new
  let tag1 := if info.started then ProcTag.tag_run else tag0
  let tag2 := if info.exited then ProcTag.tag_dead else tag1
  let tag3 := if info.debugger_attached then ProcTag.tag_dbg else tag2
  let out := if e.printing then [OomEvent.print_proc koid tag3] else []
  ({ e with
      num_running_processes_ := running
      num_processes_ := usize (e.num_processes_ + 1) },
    out, true)

/-- Modelled from the spec: `JobDispatcher::EnumerateChildren` with
`recurse = true` (not part of the sources at hand): it hands every descendant
to the enumerator, in order, and stops as soon as the enumerator returns
false. -/
def EnumerateChildren (e : OmmJobEnumerator) :
    List Descendant → OmmJobEnumerator × List OomEvent × Bool
  | [] => (e, [], true)
  | d :: ds =>
    let r :=
      match d with
      | Descendant.job koid => e.OnJob koid
      | Descendant.process koid info => e.OnProcess koid info
    if r.2.2 then
      let r2 := EnumerateChildren r.1 ds
      (r2.1, r.2.1 ++ r2.2.1, r2.2.2)
    else (r.1, r.2.1, false)

/-- The local variables of `oom_lowmem` that its callback captures, and what
was printed and called so far. -/
structure OomState where
  job_counter : OmmJobEnumerator
  job_printer : OmmJobEnumerator
  killed : Bool
  next : Int
  log : List OomEvent

/-- The callback `oom_lowmem` passes to `ForEachJobByImportance`: the state
afterwards and the status returned. -/
def oom_callback (st : OomState) (job : Job) : OomState × Int :=
  let counted :=
    if !st.killed then
      let r := EnumerateChildren st.job_counter.reset_counts job.descendants
      (r.1, OomEvent.EnumerateChildren job.koid false :: r.2.1,
        decide (r.1.num_running_processes_ > 0))
    else (st.job_counter, [], false)
  let job_counter := counted.1
  let kill := counted.2.2
  let tag :=
    if kill then JobTag.tag_kill
    else if !st.killed then JobTag.tag_skip
    else JobTag.tag_next
  let log := st.log ++ counted.2.1 ++ [OomEvent.job_line tag job.koid]
  if kill then
    let r := EnumerateChildren st.job_printer.reset_counts job.descendants
    ({ job_counter := job_counter
       job_printer := r.1
       killed := true
       next := st.next
       log := log ++ (OomEvent.EnumerateChildren job.koid true :: r.2.1) ++
         [OomEvent.summary r.1.num_running_processes_ r.1.num_processes_ r.1.num_jobs_,
          OomEvent.Kill job.koid] },
      MX_OK)
  else if st.killed then
    let next := st.next - 1
    ({ job_counter := job_counter
       job_printer := st.job_printer
       killed := st.killed
       next := next
       log := log },
      if next = 0 then MX_ERR_STOP else MX_OK)
  else
    ({ job_counter := job_counter
       job_printer := st.job_printer
       killed := st.killed
       next := st.next
       log := log },
      MX_OK)

/-- Modelled from the spec: `JobDispatcher::ForEachJobByImportance` (not part
of the sources at hand): it calls the callback on the jobs in importance order,
given here as a list, and stops at the first status other than `MX_OK`. -/
def ForEachJobByImportance (callback : OomState → Job → OomState × Int) :
    OomState → List Job → OomState
  | st, [] => st
  | st, job :: jobs =>
    let r := callback st job
    if r.2 = MX_OK then ForEachJobByImportance callback r.1 jobs else r.1

/-- Embedding of `oom_lowmem`; `jobs` is the order in which
`ForEachJobByImportance` delivers the jobs.  The dump of the memory usage of
the processes before the walk is diagnostics and left out. -/
def oom_lowmem (shortfall_bytes : Nat) (jobs : List Job) : OomState :=
  ForEachJobByImportance oom_callback
    { job_counter := ⟨false, 0, 0, 0⟩
      job_printer := ⟨true, 0, 0, 0⟩
      killed := false
      next := 3
      log := [OomEvent.called shortfall_bytes] }
    jobs

/-- The koids of the jobs on which `Kill` was called, in order. -/
def kills : List OomEvent → List Nat
  | [] => []
  | OomEvent.Kill koid :: es => koid :: kills es
  | _ :: es => kills es

/-- The descendant is a running process: started, not exited, not attached to
a debugger. -/
def Descendant.isRunning : Descendant → Bool
  | Descendant.job _ => false
  | Descendant.process _ info => info.started && !info.exited && !info.debugger_attached

/-- The number of running descendant processes of a job. -/
def runningDescendants (job : Job) : Nat := job.descendants.countP Descendant.isRunning

/-- The job has at least one running descendant process. -/
def hasRunning (job : Job) : Bool := decide (0 < runningDescendants job)

/-! ## System calls that create handles (`kernel/lib/syscalls/syscalls_ddk.cpp`) -/

/-- Type tag `MX_IOMMU_TYPE_DUMMY` of the public header
`magenta/syscalls/iommu.h`, which is not part of the sources at hand. -/
def MX_IOMMU_TYPE_DUMMY : Nat := 0

/-- Limit `MX_IOMMU_MAX_DESC_LEN` of the public header
`magenta/syscalls/iommu.h`, which is not part of the sources at hand. -/
def MX_IOMMU_MAX_DESC_LEN : Nat := 4096

/-- What a system call does to the handle table, to the VM object and to the
calling process, in program order. -/
inductive SysEvent where
  | table (e : Event)
  | CommitRangeContiguous (offset len align_log2 : Nat)
  | MapHandleToValue (handle : Option Nat)
  | copy_to_user (value : Int)
  | AddHandle (handle : Option Nat)
deriving DecidableEq

/-- The status a system call returns, the handle table it leaves behind, and
what it did. -/
structure SysResult where
  status : Int
  state : State
  trace : List SysEvent

/-- Modelled from the spec: the destructor of a `HandleOwner` that still owns
its handle (`handle_owner.h` is not part of the sources at hand) deletes the
handle; one that holds `nullptr` does nothing. -/
def HandleOwner_drop (s : State) (handle : Option Nat) : State × List SysEvent :=
  match handle with
  | none => (s, [])
  | some h => ((DeleteHandle s h).1, (DeleteHandle s h).2.map SysEvent.table)

/-- Embedding of `sys_interrupt_create`.  The arguments after the state are the
status of `validate_resource_irq`, the result of
`InterruptEventDispatcher::Create` with the dispatcher and rights it produced,
what `handle_arena.Alloc()` returns inside `MakeHandle`, and the value
`MapHandleToValue` computes. -/
def sys_interrupt_create (s : State) (validate_status create_result : Int)
    (dispatcher rights : Nat) (alloc : Option Nat) (map_value : Option Nat → Int) :
    SysResult :=
  if validate_status < 0 then ⟨validate_status, s, []⟩
  else if create_result ≠ MX_OK then ⟨create_result, s, []⟩
  else
    let r := MakeHandle s alloc dispatcher rights
    let handle := r.2.1
    let hv := map_value handle
    ⟨hv, r.1,
      r.2.2.map SysEvent.table ++ [SysEvent.MapHandleToValue handle, SysEvent.AddHandle handle]⟩

/-- Embedding of `sys_vmo_create_contiguous`.  `PAGE_SIZE_SHIFT` and
`ROUNDUP_PAGE_SIZE` are the architecture constant and macro of that name; the
further arguments are the status of `validate_resource`, of
`VmObjectPaged::Create`, the status and committed size of
`CommitRangeContiguous`, the result of `VmObjectDispatcher::Create` with the
dispatcher and rights it produced, what `handle_arena.Alloc()` returns inside
`MakeHandle`, the value `MapHandleToValue` computes and the status of
`copy_to_user`. -/
def sys_vmo_create_contiguous (s : State) (PAGE_SIZE_SHIFT : Nat)
    (ROUNDUP_PAGE_SIZE : Nat → Nat) (size alignment_log2 : Nat)
    (validate_status vmo_status commit_status : Int) (committed : Nat)
    (create_result : Int) (dispatcher rights : Nat) (alloc : Option Nat)
    (map_value : Option Nat → Int) (copy_status : Int) : SysResult :=
  if size = 0 then ⟨MX_ERR_INVALID_ARGS, s, []⟩
  else
    let alignment_log2 := if alignment_log2 = 0 then PAGE_SIZE_SHIFT else alignment_log2
    if alignment_log2 < PAGE_SIZE_SHIFT ∨ alignment_log2 ≥ 8 * 8 then
      ⟨MX_ERR_INVALID_ARGS, s, []⟩
    else if validate_status < 0 then ⟨validate_status, s, []⟩
    else
      let size := ROUNDUP_PAGE_SIZE size
      if vmo_status ≠ MX_OK then ⟨vmo_status, s, []⟩
      else
        let align_log2_arg := alignment_log2 % 2 ^ 8
        let commit := [SysEvent.CommitRangeContiguous 0 size align_log2_arg]
        if commit_status < 0 ∨ committed < size then ⟨MX_ERR_NO_MEMORY, s, commit⟩
        else if create_result ≠ MX_OK then ⟨create_result, s, commit⟩
        else
          let r := MakeHandle s alloc dispatcher rights
          let handle := r.2.1
          let made := commit ++ r.2.2.map SysEvent.table
          if handle = none then ⟨MX_ERR_NO_MEMORY, r.1, made⟩
          else
            let hv := map_value handle
            let copied := made ++ [SysEvent.MapHandleToValue handle, SysEvent.copy_to_user hv]
            if copy_status ≠ MX_OK then
              let dropped := HandleOwner_drop r.1 handle
              ⟨MX_ERR_INVALID_ARGS, dropped.1, copied ++ dropped.2⟩
            else ⟨MX_OK, r.1, copied ++ [SysEvent.AddHandle handle]⟩

/-- Embedding of `sys_vmo_create_physical`.  The arguments after the state are
the status of `validate_resource_mmio`, the result of
`VmObjectPhysical::Create`, the result of `VmObjectDispatcher::Create` with the
dispatcher and rights it produced, what `handle_arena.Alloc()` returns inside
`MakeHandle`, the value `MapHandleToValue` computes and the status of
`copy_to_user`. -/
def sys_vmo_create_physical (s : State) (validate_status vmo_result create_result : Int)
    (dispatcher rights : Nat) (alloc : Option Nat) (map_value : Option Nat → Int)
    (copy_status : Int) : SysResult :=
  if validate_status < 0 then ⟨validate_status, s, []⟩
  else if vmo_result ≠ MX_OK then ⟨vmo_result, s, []⟩
  else if create_result ≠ MX_OK then ⟨create_result, s, []⟩
  else
    let r := MakeHandle s alloc dispatcher rights
    let handle := r.2.1
    let made := r.2.2.map SysEvent.table
    if handle = none then ⟨MX_ERR_NO_MEMORY, r.1, made⟩
    else
      let hv := map_value handle
      let copied := made ++ [SysEvent.MapHandleToValue handle, SysEvent.copy_to_user hv]
      if copy_status ≠ MX_OK then
        let dropped := HandleOwner_drop r.1 handle
        ⟨MX_ERR_INVALID_ARGS, dropped.1, copied ++ dropped.2⟩
      else ⟨MX_OK, r.1, copied ++ [SysEvent.AddHandle handle]⟩

/-- Embedding of `sys_iommu_create`.  `main_iommu` is the function's static
dispatcher with its static rights (`none` for `nullptr`), returned next to the
result.  The further arguments are the status of `validate_resource`, the
`type` and `desc_len` arguments, whether the allocation of the descriptor copy
succeeded, the status of `copy_array_from_user`, the status of
`IommuDispatcher::Create` with the dispatcher and rights it produced, what
`handle_arena.Alloc()` returns inside `MakeHandle`, the value
`MapHandleToValue` computes and the status of `copy_to_user`. -/
def sys_iommu_create (s : State) (main_iommu : Option (Nat × Nat)) (validate_status : Int)
    (type desc_len : Nat) (ac_check : Bool) (copy_from_status create_status : Int)
    (dispatcher rights : Nat) (alloc : Option Nat) (map_value : Option Nat → Int)
    (copy_status : Int) : SysResult × Option (Nat × Nat) :=
  if validate_status < 0 then (⟨validate_status, s, []⟩, main_iommu)
  else
    match (if type = MX_IOMMU_TYPE_DUMMY then main_iommu else none) with
    | some stashed =>
      let r := MakeHandle s alloc stashed.1 stashed.2
      let handle := r.2.1
      let hv := map_value handle
      let copied :=
        r.2.2.map SysEvent.table ++ [SysEvent.MapHandleToValue handle, SysEvent.copy_to_user hv]
      if copy_status ≠ MX_OK then
        let dropped := HandleOwner_drop r.1 handle
        (⟨MX_ERR_INVALID_ARGS, dropped.1, copied ++ dropped.2⟩, main_iommu)
      else (⟨MX_OK, r.1, copied ++ [SysEvent.AddHandle handle]⟩, main_iommu)
    | none =>
      if desc_len > MX_IOMMU_MAX_DESC_LEN then (⟨MX_ERR_INVALID_ARGS, s, []⟩, main_iommu)
      else if !ac_check then (⟨MX_ERR_NO_MEMORY, s, []⟩, main_iommu)
      else if copy_from_status ≠ MX_OK then (⟨copy_from_status, s, []⟩, main_iommu)
      else if create_status ≠ MX_OK then (⟨create_status, s, []⟩, main_iommu)
      else
        let main_iommu := some (dispatcher, rights)
        let r := MakeHandle s alloc dispatcher rights
        let handle := r.2.1
        let hv := map_value handle
        let copied :=
          r.2.2.map SysEvent.table ++
            [SysEvent.MapHandleToValue handle, SysEvent.copy_to_user hv]
        if copy_status ≠ MX_OK then
          let dropped := HandleOwner_drop r.1 handle
          (⟨MX_ERR_INVALID_ARGS, dropped.1, copied ++ dropped.2⟩, main_iommu)
        else (⟨MX_OK, r.1, copied ++ [SysEvent.AddHandle handle]⟩, main_iommu)

/-- Embedding of `sys_bti_create`.  The arguments after the state are the
status of `GetDispatcherWithRights`, the status of
`BusTransactionInitiatorDispatcher::Create` with the dispatcher and rights it
produced, what `handle_arena.Alloc()` returns inside `MakeHandle`, the value
`MapHandleToValue` computes and the status of `copy_to_user`. -/
def sys_bti_create (s : State) (get_status create_status : Int) (dispatcher rights : Nat)
    (alloc : Option Nat) (map_value : Option Nat → Int) (copy_status : Int) : SysResult :=
  if get_status ≠ MX_OK then ⟨get_status, s, []⟩
  else if create_status ≠ MX_OK then ⟨create_status, s, []⟩
  else
    let r := MakeHandle s alloc dispatcher rights
    let handle := r.2.1
    let hv := map_value handle
    let copied :=
      r.2.2.map SysEvent.table ++ [SysEvent.MapHandleToValue handle, SysEvent.copy_to_user hv]
    if copy_status ≠ MX_OK then
      let dropped := HandleOwner_drop r.1 handle
      ⟨copy_status, dropped.1, copied ++ dropped.2⟩
    else ⟨MX_OK, r.1, copied ++ [SysEvent.AddHandle handle]⟩

/-- The handles passed to `AddHandle`, in order (`none` is a null handle). -/
def addedHandles : List SysEvent → List (Option Nat)
  | [] => []
  | SysEvent.AddHandle h :: es => h :: addedHandles es
  | _ :: es => addedHandles es

/-! ## Further observations on the handle table -/

/-- The event is a call of the state tracker's `Cancel`. -/
def Event.isCancel : Event → Bool
  | Event.Cancel _ _ => true
  | _ => false

/-- The event is a call of the dispatcher's `Close`. -/
def Event.isClose : Event → Bool
  | Event.Close _ => true
  | _ => false

/-- Embedding of `internal::OutstandingHandles`. -/
def OutstandingHandles (s : State) : Nat := s.outstanding_handles

/-- The number of live handles: slots of the arena that are handed out and hold
a constructed handle. -/
def liveHandles (s : State) : Nat :=
  countBelow (fun i => s.allocated i && (s.mem i).isObject) s.capacity

/-- Embedding of `magenta_rights_check`; the trace output on failure is left
out. -/
def magenta_rights_check (handle : Handle) (desired : Nat) : Bool :=
  let actual := handle.rights
  if actual &&& desired = desired then true else false

/-! ## Resource validation -/

/-- What the handle table of the calling process yields for a resource handle:
the kind of the resource and its range. -/
structure ResourceDispatcher where
  kind : Nat
  low : Nat
  high : Nat
deriving DecidableEq

/-- Embedding of `validate_resource`.  `MX_RSRC_KIND_ROOT` is the constant of
that name (its header is not part of the sources at hand), `status` is what
`GetDispatcher` returns and `resource` what it yields on success. -/
def validate_resource (MX_RSRC_KIND_ROOT : Nat) (status : Int) (resource : ResourceDispatcher)
    (kind : Nat) : Int :=
  if status ≠ MX_OK then status
  else
    let rkind := resource.kind
    if rkind = MX_RSRC_KIND_ROOT ∨ rkind = kind then MX_OK
    else MX_ERR_ACCESS_DENIED

/-- Embedding of `validate_ranged_resource`.  `MX_RSRC_KIND_ROOT` is the
constant of that name (its header is not part of the sources at hand), `status`
is what `GetDispatcher` returns and `resource` what it yields on success. -/
def validate_ranged_resource (MX_RSRC_KIND_ROOT : Nat) (status : Int)
    (resource : ResourceDispatcher) (kind low high : Nat) : Int :=
  if status ≠ MX_OK then status
  else
    let rsrc_kind := resource.kind
    if rsrc_kind = MX_RSRC_KIND_ROOT then MX_OK
    else if rsrc_kind = kind then
      let rsrc_low := resource.low
      let rsrc_high := resource.high
      if low ≥ rsrc_low ∧ high ≤ rsrc_high then MX_OK
      else MX_ERR_ACCESS_DENIED
    else MX_ERR_ACCESS_DENIED

/-! ## Intel IOMMU context tables (`kernel/dev/iommu/intel/context_table_state.h`) -/

/-- The fields of `ContextTableState` that `includes_bdf` reads. -/
structure ContextTableState where
  bus_ : Nat
  extended_ : Bool
  upper_ : Bool
deriving DecidableEq

/-- Embedding of `ContextTableState::includes_bdf`. -/
def ContextTableState.includes_bdf (t : ContextTableState) (bus dev_func : Nat) : Bool :=
  if bus ≠ t.bus_ then false
  else if !t.extended_ then true
  else decide (dev_func ≥ 0x80) == t.upper_

/-! ## Pinning a VMO for a bus transaction initiator -/

/-- The rights and flag constants `sys_bti_pin` uses; their headers are not
part of the sources at hand, so they are arguments. -/
structure PinFlags where
  MX_RIGHT_READ : Nat
  MX_RIGHT_WRITE : Nat
  MX_RIGHT_EXECUTE : Nat
  MX_RIGHT_MAP : Nat
  MX_VM_FLAG_PERM_READ : Nat
  MX_VM_FLAG_PERM_WRITE : Nat
  MX_VM_FLAG_PERM_EXECUTE : Nat
  IOMMU_FLAG_PERM_READ : Nat
  IOMMU_FLAG_PERM_WRITE : Nat
  IOMMU_FLAG_PERM_EXECUTE : Nat

/-- The calls `sys_bti_pin` makes, in program order. -/
inductive PinEvent where
  | GetDispatcherWithRights
  | GetDispatcherAndRights
  | Pin (offset size perms extents_len : Nat)
  | Unpin (actual_len : Nat)
  | copy_array_to_user (actual_len : Nat)
  | copy_to_user (value : Nat)
deriving DecidableEq

/-- The status `sys_bti_pin` returns and the calls it made. -/
structure PinResult where
  status : Int
  trace : List PinEvent
deriving DecidableEq

/-- Embedding of `sys_bti_pin`.  `c` holds the flag constants and
`IS_PAGE_ALIGNED` is the macro of that name; after the arguments of the call
come the status of the lookup of the BTI, the status and rights of the lookup
of the VMO, whether the allocation of the extents array succeeded, the status
and length `Pin` returns, and the statuses of the two copies to user memory. -/
def sys_bti_pin (c : PinFlags) (IS_PAGE_ALIGNED : Nat → Bool)
    (offset size perms extents_len : Nat) (bti_status vmo_status : Int) (vmo_rights : Nat)
    (ac_check : Bool) (pin_status : Int) (actual_len : Nat)
    (copy_extents_status copy_len_status : Int) : PinResult :=
  if !IS_PAGE_ALIGNED offset then ⟨MX_ERR_INVALID_ARGS, []⟩
  else if bti_status ≠ MX_OK then ⟨bti_status, [PinEvent.GetDispatcherWithRights]⟩
  else
    let looked := [PinEvent.GetDispatcherWithRights, PinEvent.GetDispatcherAndRights]
    if vmo_status ≠ MX_OK then ⟨vmo_status, looked⟩
    else if vmo_rights &&& c.MX_RIGHT_MAP = 0 then ⟨MX_ERR_ACCESS_DENIED, looked⟩
    else
      let iommu_perms := 0
      if perms &&& c.MX_VM_FLAG_PERM_READ ≠ 0 ∧ vmo_rights &&& c.MX_RIGHT_READ = 0 then
        ⟨MX_ERR_ACCESS_DENIED, looked⟩
      else
        let iommu_perms :=
          if perms &&& c.MX_VM_FLAG_PERM_READ ≠ 0 then iommu_perms ||| c.IOMMU_FLAG_PERM_READ
          else iommu_perms
        let perms :=
          if perms &&& c.MX_VM_FLAG_PERM_READ ≠ 0 then perms &&& not32 c.MX_VM_FLAG_PERM_READ
          else perms
        if perms &&& c.MX_VM_FLAG_PERM_WRITE ≠ 0 ∧ vmo_rights &&& c.MX_RIGHT_WRITE = 0 then
          ⟨MX_ERR_ACCESS_DENIED, looked⟩
        else
          let iommu_perms :=
            if perms &&& c.MX_VM_FLAG_PERM_WRITE ≠ 0 then
              iommu_perms ||| c.IOMMU_FLAG_PERM_WRITE
            else iommu_perms
          let perms :=
            if perms &&& c.MX_VM_FLAG_PERM_WRITE ≠ 0 then
              perms &&& not32 c.MX_VM_FLAG_PERM_WRITE
            else perms
          if perms &&& c.MX_VM_FLAG_PERM_EXECUTE ≠ 0 ∧
              vmo_rights &&& c.MX_RIGHT_EXECUTE = 0 then
            ⟨MX_ERR_ACCESS_DENIED, looked⟩
          else
            let iommu_perms :=
              if perms &&& c.MX_VM_FLAG_PERM_EXECUTE ≠ 0 then
                iommu_perms ||| c.IOMMU_FLAG_PERM_EXECUTE
              else iommu_perms
            let perms :=
              if perms &&& c.MX_VM_FLAG_PERM_EXECUTE ≠ 0 then
                perms &&& not32 c.MX_VM_FLAG_PERM_EXECUTE
              else perms
            if perms ≠ 0 then ⟨MX_ERR_INVALID_ARGS, looked⟩
            else if !ac_check then ⟨MX_ERR_NO_MEMORY, looked⟩
            else
              let pinned := looked ++ [PinEvent.Pin offset size iommu_perms extents_len]
              if pin_status ≠ MX_OK then ⟨pin_status, pinned⟩
              else
                let copied := pinned ++ [PinEvent.copy_array_to_user actual_len]
                if copy_extents_status ≠ MX_OK then
                  ⟨copy_extents_status, copied ++ [PinEvent.Unpin actual_len]⟩
                else
                  let told := copied ++ [PinEvent.copy_to_user (u32 actual_len)]
                  if copy_len_status ≠ MX_OK then
                    ⟨copy_len_status, told ++ [PinEvent.Unpin actual_len]⟩
                  else ⟨MX_OK, told⟩

/-- The permissions handed to `Pin`, in the order of the calls. -/
def pinnedPerms : List PinEvent → List Nat
  | [] => []
  | PinEvent.Pin _ _ perms _ :: es => perms :: pinnedPerms es
  | _ :: es => pinnedPerms es

/-- The flag constants as the Magenta headers define them, used in the
examples. -/
def demoFlags : PinFlags :=
  { MX_RIGHT_READ := 4
    MX_RIGHT_WRITE := 8
    MX_RIGHT_EXECUTE := 16
    MX_RIGHT_MAP := 32
    MX_VM_FLAG_PERM_READ := 1
    MX_VM_FLAG_PERM_WRITE := 2
    MX_VM_FLAG_PERM_EXECUTE := 4
    IOMMU_FLAG_PERM_READ := 1
    IOMMU_FLAG_PERM_WRITE := 2
    IOMMU_FLAG_PERM_EXECUTE := 4 }

/-- The alignment arguments handed to `CommitRangeContiguous`, in the order of
the calls. -/
def commitAlignments : List SysEvent → List Nat
  | [] => []
  | SysEvent.CommitRangeContiguous _ _ a :: es => a :: commitAlignments es
  | _ :: es => commitAlignments es

/-! ## Arithmetic of the encoding -/

theorem kHandleIndexMask_eq : kHandleIndexMask = 2 ^ 18 - 1 := by decide

theorem kHandleGenerationMask_eq : kHandleGenerationMask = (2 ^ 12 - 1) <<< 18 := by decide

theorem kHandleGenerationShift_eq : kHandleGenerationShift = 18 := by decide

theorem indexOf_eq_mod (v : Nat) : indexOf v = v % 262144 := by
  unfold indexOf
  rw [kHandleIndexMask_eq, Nat.and_pow_two_sub_one_eq_mod]

theorem and_generationMask (x : Nat) :
    x &&& kHandleGenerationMask = 262144 * (x / 262144 % 4096) := by
  rw [kHandleGenerationMask_eq]
  have e : 262144 * (x / 262144 % 4096) = ((x >>> 18) % 2 ^ 12) <<< 18 := by
    rw [Nat.shiftLeft_eq, Nat.shiftRight_eq_div_pow]; norm_num [Nat.mul_comm]
  rw [e]
  apply Nat.eq_of_testBit_eq
  intro j
  simp only [Nat.testBit_and, Nat.testBit_shiftLeft, Nat.testBit_two_pow_sub_one,
    Nat.testBit_mod_two_pow, Nat.testBit_shiftRight]
  by_cases hj : 18 ≤ j
  · have e2 : 18 + (j - 18) = j := by omega
    simp [hj, e2, Bool.and_comm]
  · simp [hj]

theorem generationOf_eq (v : Nat) : generationOf v = v / 262144 % 4096 := by
  unfold generationOf
  rw [and_generationMask, kHandleGenerationShift_eq, Nat.shiftRight_eq_div_pow]
  norm_num

/-- Arithmetic form of the base value computed for slot `addr`. -/
theorem GetNewHandleBaseValue_eq (s : State) (addr : Nat) (h : addr < 262144) :
    GetNewHandleBaseValue s addr =
      262144 * ((generationOf (s.mem addr).word0 + 1) % 4096) + addr := by
  have hgen : (if (s.mem addr).word0 = 0 then 0
      else ((s.mem addr).word0 &&& kHandleGenerationMask) >>> kHandleGenerationShift)
      = generationOf (s.mem addr).word0 := by
    split
    · next h0 => rw [h0]; decide
    · rfl
  unfold GetNewHandleBaseValue
  simp only [hgen]
  have hg : generationOf (s.mem addr).word0 < 4096 := by
    rw [generationOf_eq]; omega
  generalize generationOf (s.mem addr).word0 = g at hg ⊢
  have hu : u32 addr = addr := by unfold u32; omega
  have hs : u32 ((g + 1) <<< kHandleGenerationShift) = (g + 1) * 262144 := by
    rw [kHandleGenerationShift_eq, Nat.shiftLeft_eq]; unfold u32; omega
  rw [hu, hs, and_generationMask]
  have hd : (g + 1) * 262144 / 262144 = g + 1 := by omega
  rw [hd]
  have := Nat.mul_add_lt_is_or (show addr < 2 ^ 18 by omega) ((g + 1) % 4096)
  norm_num at this
  omega

/-! ## Effect of the operations on the state -/

theorem upd_same {α : Type} (f : Nat → α) (i : Nat) (a : α) : upd f i a i = a := by
  simp [upd]

theorem upd_other {α : Type} (f : Nat → α) (i j : Nat) (a : α) (h : j ≠ i) :
    upd f i a j = f j := by
  simp [upd, h]

/-- The state a successful `MakeHandle` leaves behind. -/
theorem MakeHandle_state (s : State) (addr d r : Nat) :
    (MakeHandle s (some addr) d r).1 =
      { capacity := s.capacity
        allocated := upd s.allocated addr true
        mem := upd s.mem addr (Slot.object ⟨d, r, GetNewHandleBaseValue s addr⟩)
        outstanding_handles := usize (s.outstanding_handles + 1)
        dispatchers := upd s.dispatchers d
          { s.dispatchers d with handle_count := u32 ((s.dispatchers d).handle_count + 1) } } :=
  rfl

/-- A duplication changes the state like a creation for the source's dispatcher. -/
theorem DupHandle_state (s : State) (alloc : Option Nat) (src r : Nat) (rep : Bool)
    (h : Handle) (hsrc : s.mem src = Slot.object h) :
    (DupHandle s alloc src r rep).1 = (MakeHandle s alloc h.dispatcher r).1 := by
  unfold DupHandle
  rw [hsrc]
  cases alloc <;> rfl

theorem DupHandle_raw (s : State) (alloc : Option Nat) (src r : Nat) (rep : Bool)
    (v : Nat) (hsrc : s.mem src = Slot.raw v) :
    DupHandle s alloc src r rep = (s, none, []) := by
  unfold DupHandle
  rw [hsrc]

/-- The state `DeleteHandle` leaves behind. -/
theorem DeleteHandle_state (s : State) (hd : Nat) (h : Handle)
    (hmem : s.mem hd = Slot.object h) :
    (DeleteHandle s hd).1 =
      { capacity := s.capacity
        allocated := upd s.allocated hd false
        mem := upd s.mem hd (Slot.raw h.base_value)
        outstanding_handles := usize (s.outstanding_handles + (2 ^ 64 - 1))
        dispatchers := upd s.dispatchers h.dispatcher
          { s.dispatchers h.dispatcher with
            handle_count := u32 ((s.dispatchers h.dispatcher).handle_count + (2 ^ 32 - 1)) } } := by
  unfold DeleteHandle
  rw [hmem]
  simp only [TearDownHandle, arenaFree, hmem, Slot.base_value]
  split_ifs <;> rfl

theorem DeleteHandle_raw (s : State) (hd v : Nat) (hmem : s.mem hd = Slot.raw v) :
    DeleteHandle s hd = (s, []) := by
  unfold DeleteHandle
  rw [hmem]

/-- Every call either leaves the state alone, or changes it like a successful
`MakeHandle` in the slot the arena handed out, or deletes a constructed handle. -/
theorem step_cases (s : State) (op : Op) :
    step s op = s ∨
    (∃ addr d r, op.alloc = some addr ∧ op.dispatcher s = some d ∧
      step s op = (MakeHandle s (some addr) d r).1) ∨
    (∃ hd h, op = Op.delete hd ∧ s.mem hd = Slot.object h ∧
      step s op = (DeleteHandle s hd).1) := by
  cases op with
  | make alloc d r =>
    cases alloc with
    | none => left; rfl
    | some addr => right; left; exact ⟨addr, d, r, rfl, rfl, rfl⟩
  | dup alloc src r rep =>
    cases hsrc : s.mem src with
    | raw v => left; simp [step, DupHandle_raw s alloc src r rep v hsrc]
    | object h =>
      cases alloc with
      | none => left; simp only [step]; rw [DupHandle_state s none src r rep h hsrc]; rfl
      | some addr =>
        right; left
        refine ⟨addr, h.dispatcher, r, rfl, ?_, ?_⟩
        · simp [Op.dispatcher, hsrc]
        · simp only [step]; rw [DupHandle_state s (some addr) src r rep h hsrc]
  | delete hd =>
    cases hmem : s.mem hd with
    | raw v => left; simp [step, DeleteHandle_raw s hd v hmem]
    | object h => right; right; exact ⟨hd, h, rfl, hmem, rfl⟩

/-- A call that was not handed slot `i` leaves the unformed memory of slot `i`
as it is. -/
theorem step_raw_frame (s : State) (op : Op) (i v : Nat)
    (hraw : s.mem i = Slot.raw v) (hop : op.alloc ≠ some i) :
    (step s op).mem i = Slot.raw v := by
  rcases step_cases s op with h | ⟨addr, d, r, ha, _, h⟩ | ⟨hd, hh, _, hm, h⟩
  · rw [h]; exact hraw
  · rw [h, MakeHandle_state]
    have : i ≠ addr := by
      intro e; apply hop; rw [ha, e]
    simp only [upd_other _ _ _ _ this]
    exact hraw
  · rw [h, DeleteHandle_state s hd hh hm]
    have : i ≠ hd := by
      intro e; rw [e, hm] at hraw; cases hraw
    simp only [upd_other _ _ _ _ this]
    exact hraw

theorem run_raw_frame (ops : List Op) (s : State) (i v : Nat)
    (hraw : s.mem i = Slot.raw v) (hops : ∀ op ∈ ops, op.alloc ≠ some i) :
    (run s ops).mem i = Slot.raw v := by
  induction ops generalizing s with
  | nil => exact hraw
  | cons op ops ih =>
    simp only [run]
    apply ih
    · exact step_raw_frame s op i v hraw (hops op (List.mem_cons_self _ _))
    · intro o ho; exact hops o (List.mem_cons_of_mem _ ho)

theorem run_append (ops1 ops2 : List Op) (s : State) :
    run s (ops1 ++ ops2) = run (run s ops1) ops2 := by
  induction ops1 generalizing s with
  | nil => rfl
  | cons op ops ih => simp only [List.cons_append, run]; exact ih _

theorem valid_append (ops1 ops2 : List Op) (s : State) :
    Valid s (ops1 ++ ops2) ↔ Valid s ops1 ∧ Valid (run s ops1) ops2 := by
  induction ops1 generalizing s with
  | nil => simp [Valid, run]
  | cons op ops ih =>
    show Op.ok s op ∧ Valid (step s op) (ops ++ ops2) ↔ _
    rw [ih]
    simp only [Valid, run, and_assoc]

/-! ## Counting live handles -/

theorem countBelow_le (p : Nat → Bool) (n : Nat) : countBelow p n ≤ n := by
  induction n with
  | zero => simp [countBelow]
  | succ n ih => simp only [countBelow]; split <;> omega

theorem countBelow_congr (p q : Nat → Bool) (n : Nat) (h : ∀ i, i < n → q i = p i) :
    countBelow q n = countBelow p n := by
  induction n with
  | zero => rfl
  | succ n ih =>
    simp only [countBelow]
    rw [ih (fun i hi => h i (by omega)), h n (by omega)]

theorem countBelow_eq_zero (p : Nat → Bool) (n : Nat) (h : ∀ i, i < n → p i = false) :
    countBelow p n = 0 := by
  induction n with
  | zero => rfl
  | succ n ih =>
    simp only [countBelow]
    rw [ih (fun i hi => h i (by omega)), h n (by omega)]
    simp

/-- Switching one index below `n` from false to true raises the count by one. -/
theorem countBelow_flip (p q : Nat → Bool) (n a : Nat) (ha : a < n)
    (hp : p a = false) (hq : q a = true) (hrest : ∀ i, i ≠ a → q i = p i) :
    countBelow q n = countBelow p n + 1 := by
  induction n with
  | zero => omega
  | succ n ih =>
    simp only [countBelow]
    by_cases han : a = n
    · subst han
      rw [countBelow_congr p q a (fun i hi => hrest i (by omega)), hp, hq]
      simp
    · rw [ih (by omega), hrest n (fun e => han e.symm)]
      omega

/-! ## The invariant of the handle table -/

/-- What holds in every state of the handle table. -/
structure Inv (s : State) : Prop where
  cap : s.capacity = kMaxHandleCount
  live : ∀ i, s.allocated i = (s.mem i).isObject
  range : ∀ i, s.allocated i = true → i < s.capacity
  idx : ∀ i h, s.mem i = Slot.object h → indexOf h.base_value = i
  stash : ∀ i v, s.mem i = Slot.raw v → v = 0 ∨ indexOf v = i
  count : ∀ d, (s.dispatchers d).handle_count = liveCount s d
  outstanding : s.outstanding_handles = countBelow s.allocated s.capacity

theorem inv_init (tracker : Nat → Bool) (type : Nat → Nat) :
    Inv (magenta_init tracker type) where
  cap := rfl
  live := fun _ => rfl
  range := fun i h => by simp [magenta_init] at h
  idx := fun i h hm => by simp [magenta_init] at hm
  stash := fun i v hm => by
    left
    simp only [magenta_init, Slot.raw.injEq] at hm
    exact hm.symm
  count := fun d =>
    (countBelow_eq_zero _ _ (fun _ _ => rfl)).symm
  outstanding := (countBelow_eq_zero _ _ (fun _ _ => rfl)).symm

theorem kMaxHandleCount_eq : kMaxHandleCount = 262144 := by decide

/-- The invariant passes to a state that differs by one new handle. -/
theorem inv_make_aux (s t : State) (addr d r : Nat) (hs : Inv s)
    (hlt : addr < s.capacity) (hfree : s.allocated addr = false)
    (hcap : t.capacity = s.capacity)
    (hal : t.allocated = upd s.allocated addr true)
    (hmem : t.mem = upd s.mem addr (Slot.object ⟨d, r, GetNewHandleBaseValue s addr⟩))
    (hout : t.outstanding_handles = usize (s.outstanding_handles + 1))
    (hdisp : t.dispatchers = upd s.dispatchers d
      { s.dispatchers d with handle_count := u32 ((s.dispatchers d).handle_count + 1) }) :
    Inv t := by
  have hc := hs.cap
  rw [kMaxHandleCount_eq] at hc
  refine ⟨hcap.trans hs.cap, ?_, ?_, ?_, ?_, ?_, ?_⟩
  · intro i
    rw [hal, hmem]
    by_cases hi : i = addr
    · subst hi; simp [upd_same, Slot.isObject]
    · simp only [upd_other _ _ _ _ hi]; exact hs.live i
  · intro i hi
    rw [hcap]
    rw [hal] at hi
    by_cases hia : i = addr
    · subst hia; exact hlt
    · simp only [upd_other _ _ _ _ hia] at hi; exact hs.range i hi
  · intro i h hm
    rw [hmem] at hm
    by_cases hia : i = addr
    · subst hia
      simp only [upd_same, Slot.object.injEq] at hm
      subst hm
      show indexOf (GetNewHandleBaseValue s i) = i
      rw [GetNewHandleBaseValue_eq s i (by omega), indexOf_eq_mod]
      omega
    · simp only [upd_other _ _ _ _ hia] at hm; exact hs.idx i h hm
  · intro i v hm
    rw [hmem] at hm
    by_cases hia : i = addr
    · subst hia
      simp only [upd_same] at hm
      cases hm
    · simp only [upd_other _ _ _ _ hia] at hm; exact hs.stash i v hm
  · intro d2
    have hold : holds s d2 addr = false := by simp [holds, hfree]
    have hle := countBelow_le (holds s d2) s.capacity
    have hcount := hs.count d2
    unfold liveCount at hcount ⊢
    rw [hdisp, hcap]
    by_cases hd : d2 = d
    · subst hd
      simp only [upd_same]
      have hflip := countBelow_flip (holds s d2) (holds t d2) s.capacity addr hlt hold
        (by simp [holds, hal, hmem, upd_same])
        (fun i hi => by simp [holds, hal, hmem, upd_other _ _ _ _ hi])
      unfold u32
      omega
    · simp only [upd_other _ _ _ _ hd]
      rw [hcount]
      symm
      apply countBelow_congr
      intro i _
      by_cases hia : i = addr
      · subst hia
        rw [hold]
        simp [holds, hal, hmem, upd_same, Ne.symm hd]
      · simp [holds, hal, hmem, upd_other _ _ _ _ hia]
  · rw [hout, hcap, hal]
    have hflip := countBelow_flip s.allocated (upd s.allocated addr true) s.capacity addr hlt
      hfree (upd_same _ _ _) (fun i hi => upd_other _ _ _ _ hi)
    have hle := countBelow_le s.allocated s.capacity
    have ho := hs.outstanding
    unfold usize
    omega

/-- A successful creation in a free slot of the arena keeps the invariant. -/
theorem inv_make (s : State) (addr d r : Nat) (hs : Inv s)
    (hlt : addr < s.capacity) (hfree : s.allocated addr = false) :
    Inv (MakeHandle s (some addr) d r).1 :=
  inv_make_aux s _ addr d r hs hlt hfree rfl rfl rfl rfl rfl

/-- The invariant passes to a state that differs by one deleted handle. -/
theorem inv_delete_aux (s t : State) (hd : Nat) (h : Handle) (hs : Inv s)
    (hlt : hd < s.capacity) (halloc : s.allocated hd = true)
    (hobj : s.mem hd = Slot.object h)
    (hcap : t.capacity = s.capacity)
    (hal : t.allocated = upd s.allocated hd false)
    (hmem : t.mem = upd s.mem hd (Slot.raw h.base_value))
    (hout : t.outstanding_handles = usize (s.outstanding_handles + (2 ^ 64 - 1)))
    (hdisp : t.dispatchers = upd s.dispatchers h.dispatcher
      { s.dispatchers h.dispatcher with
        handle_count := u32 ((s.dispatchers h.dispatcher).handle_count + (2 ^ 32 - 1)) }) :
    Inv t := by
  have hc := hs.cap
  rw [kMaxHandleCount_eq] at hc
  refine ⟨hcap.trans hs.cap, ?_, ?_, ?_, ?_, ?_, ?_⟩
  · intro i
    rw [hal, hmem]
    by_cases hi : i = hd
    · subst hi; simp [upd_same, Slot.isObject]
    · simp only [upd_other _ _ _ _ hi]; exact hs.live i
  · intro i hi
    rw [hcap]
    rw [hal] at hi
    by_cases hia : i = hd
    · subst hia; exact hlt
    · simp only [upd_other _ _ _ _ hia] at hi; exact hs.range i hi
  · intro i h2 hm
    rw [hmem] at hm
    by_cases hia : i = hd
    · subst hia
      simp only [upd_same] at hm
      cases hm
    · simp only [upd_other _ _ _ _ hia] at hm; exact hs.idx i h2 hm
  · intro i v hm
    rw [hmem] at hm
    by_cases hia : i = hd
    · subst hia
      simp only [upd_same, Slot.raw.injEq] at hm
      subst hm
      right
      exact hs.idx i h hobj
    · simp only [upd_other _ _ _ _ hia] at hm; exact hs.stash i v hm
  · intro d2
    have hle := countBelow_le (holds s d2) s.capacity
    have hcount := hs.count d2
    unfold liveCount at hcount ⊢
    rw [hdisp, hcap]
    by_cases hdd : d2 = h.dispatcher
    · subst hdd
      simp only [upd_same]
      have hflip := countBelow_flip (holds t h.dispatcher) (holds s h.dispatcher)
        s.capacity hd hlt (by simp [holds, hal, hmem, upd_same])
        (by simp [holds, halloc, hobj])
        (fun i hi => by simp [holds, hal, hmem, upd_other _ _ _ _ hi])
      unfold u32
      omega
    · simp only [upd_other _ _ _ _ hdd]
      rw [hcount]
      symm
      apply countBelow_congr
      intro i _
      by_cases hia : i = hd
      · subst hia
        simp [holds, hal, hmem, upd_same, hobj, Ne.symm hdd]
      · simp [holds, hal, hmem, upd_other _ _ _ _ hia]
  · rw [hout, hcap, hal]
    have hflip := countBelow_flip (upd s.allocated hd false) s.allocated s.capacity hd hlt
      (upd_same _ _ _) halloc (fun i hi => (upd_other _ _ _ _ hi).symm)
    have hle := countBelow_le s.allocated s.capacity
    have ho := hs.outstanding
    unfold usize
    omega

/-- Deleting a live handle keeps the invariant. -/
theorem inv_delete (s : State) (hd : Nat) (h : Handle) (hs : Inv s)
    (hlt : hd < s.capacity) (halloc : s.allocated hd = true)
    (hmem : s.mem hd = Slot.object h) :
    Inv (DeleteHandle s hd).1 := by
  rw [DeleteHandle_state s hd h hmem]
  exact inv_delete_aux s _ hd h hs hlt halloc hmem rfl rfl rfl rfl rfl

/-- Every call that respects its contract keeps the invariant. -/
theorem inv_step (s : State) (op : Op) (hs : Inv s) (hok : Op.ok s op) :
    Inv (step s op) := by
  cases op with
  | make alloc d r =>
    cases alloc with
    | none => exact hs
    | some addr => exact inv_make s addr d r hs hok.1 hok.2
  | dup alloc src r rep =>
    obtain ⟨hal, _, _, hobj⟩ := hok
    cases hsrc : s.mem src with
    | raw v => rw [hsrc] at hobj; cases hobj
    | object h =>
      show Inv (DupHandle s alloc src r rep).1
      rw [DupHandle_state s alloc src r rep h hsrc]
      cases alloc with
      | none => exact hs
      | some addr => exact inv_make s addr h.dispatcher r hs hal.1 hal.2
  | delete hd =>
    obtain ⟨hlt, halloc, hobj⟩ := hok
    cases hmem : s.mem hd with
    | raw v => rw [hmem] at hobj; cases hobj
    | object h => exact inv_delete s hd h hs hlt halloc hmem

theorem inv_run (ops : List Op) (s : State) (hs : Inv s) (hv : Valid s ops) :
    Inv (run s ops) := by
  induction ops generalizing s with
  | nil => exact hs
  | cons op ops ih => exact ih (step s op) (inv_step s op hs hv.1) hv.2

theorem inv_of_reachable (s : State) (hs : Reachable s) : Inv s := by
  obtain ⟨tracker, type, ops, hv, rfl⟩ := hs
  exact inv_run ops _ (inv_init tracker type) hv

theorem reachable_run (s : State) (ops : List Op) (hs : Reachable s) (hv : Valid s ops) :
    Reachable (run s ops) := by
  obtain ⟨tracker, type, ops0, hv0, rfl⟩ := hs
  exact ⟨tracker, type, ops0 ++ ops, (valid_append _ _ _).2 ⟨hv0, hv⟩,
    (run_append _ _ _).symm⟩

/-! ## Generations across reuse of a slot -/

/-- Every call that respects its contract is the identity on the state, a
creation in a free slot, or the deletion of a live handle. -/
theorem step_cases_ok (s : State) (op : Op) (hok : Op.ok s op) :
    (op.alloc = none ∧ step s op = s) ∨
    (∃ addr d r, op.alloc = some addr ∧ addr < s.capacity ∧ s.allocated addr = false ∧
      step s op = (MakeHandle s (some addr) d r).1) ∨
    (∃ hd h, op.alloc = none ∧ hd < s.capacity ∧ s.allocated hd = true ∧
      s.mem hd = Slot.object h ∧ step s op = (DeleteHandle s hd).1) := by
  cases op with
  | make alloc d r =>
    cases alloc with
    | none => left; exact ⟨rfl, rfl⟩
    | some addr => right; left; exact ⟨addr, d, r, rfl, hok.1, hok.2, rfl⟩
  | dup alloc src r rep =>
    obtain ⟨hal, _, _, hobj⟩ := hok
    cases hsrc : s.mem src with
    | raw v => rw [hsrc] at hobj; cases hobj
    | object h =>
      cases alloc with
      | none =>
        left
        refine ⟨rfl, ?_⟩
        simp only [step]; rw [DupHandle_state s none src r rep h hsrc]; rfl
      | some addr =>
        right; left
        refine ⟨addr, h.dispatcher, r, rfl, hal.1, hal.2, ?_⟩
        simp only [step]; rw [DupHandle_state s (some addr) src r rep h hsrc]
  | delete hd =>
    obtain ⟨hlt, halloc, hobj⟩ := hok
    cases hmem : s.mem hd with
    | raw v => rw [hmem] at hobj; cases hobj
    | object h => right; right; exact ⟨hd, h, rfl, hlt, halloc, hmem, rfl⟩

theorem generationOf_lt (v : Nat) : generationOf v < 4096 := by
  rw [generationOf_eq]; omega

/-- The base value computed for a slot carries the slot's index and the
generation after the one stashed in the slot. -/
theorem GetNewHandleBaseValue_fields (s : State) (addr : Nat) (h : addr < 262144) :
    indexOf (GetNewHandleBaseValue s addr) = addr ∧
    generationOf (GetNewHandleBaseValue s addr)
      = (generationOf (s.mem addr).word0 + 1) % 4096 := by
  have := generationOf_lt (s.mem addr).word0
  rw [GetNewHandleBaseValue_eq s addr h]
  simp only [generationOf_eq, indexOf_eq_mod] at this ⊢
  constructor <;> omega

/-- One call moves the generation of slot `i` on by one exactly when the arena
hands slot `i` to it, and a slot only becomes live by such a call. -/
theorem generation_step (s : State) (op : Op) (i : Nat) (hs : Inv s) (hok : Op.ok s op) :
    generationOf (lastIssued ((step s op).mem i))
      = (generationOf (lastIssued (s.mem i)) + (if op.alloc = some i then 1 else 0)) % 4096 ∧
    (((step s op).mem i).isObject = true →
      (s.mem i).isObject = true ∨ op.alloc = some i) := by
  have hg := generationOf_lt (lastIssued (s.mem i))
  have hcap := hs.cap
  rw [kMaxHandleCount_eq] at hcap
  rcases step_cases_ok s op hok with ⟨ha, h⟩ | ⟨addr, d, r, ha, hlt, hfree, h⟩ |
      ⟨hd, hh, ha, hlt, halloc, hm, h⟩
  · rw [h, ha]
    simp only [reduceCtorEq, if_false, Nat.add_zero]
    exact ⟨(Nat.mod_eq_of_lt hg).symm, fun hx => Or.inl hx⟩
  · rw [h, ha, MakeHandle_state]
    by_cases hia : i = addr
    · subst hia
      have hraw : (s.mem i).isObject = false := by rw [← hs.live i]; exact hfree
      cases hmi : s.mem i with
      | object h0 => rw [hmi] at hraw; cases hraw
      | raw w =>
        have hf := (GetNewHandleBaseValue_fields s i (by omega)).2
        rw [hmi] at hf
        simp only [upd_same, lastIssued, if_true]
        exact ⟨hf, fun _ => Or.inr trivial⟩
    · have hne : some addr ≠ some i := fun e => hia (Option.some.inj e).symm
      simp only [upd_other _ _ _ _ hia, hne, if_false, Nat.add_zero]
      exact ⟨(Nat.mod_eq_of_lt hg).symm, fun hx => Or.inl hx⟩
  · rw [h, ha, DeleteHandle_state s hd hh hm]
    simp only [reduceCtorEq, if_false, Nat.add_zero]
    by_cases hia : i = hd
    · subst hia
      simp only [upd_same]
      rw [hm] at hg ⊢
      exact ⟨(Nat.mod_eq_of_lt hg).symm, fun hx => by simp [Slot.isObject] at hx⟩
    · simp only [upd_other _ _ _ _ hia]
      exact ⟨(Nat.mod_eq_of_lt hg).symm, fun hx => Or.inl hx⟩

/-- Over a sequence of calls the generation of slot `i` moves on by the number
of times the arena handed out slot `i`. -/
theorem generation_run (ops : List Op) (s : State) (i : Nat) (hs : Inv s)
    (hv : Valid s ops) :
    generationOf (lastIssued ((run s ops).mem i))
      = (generationOf (lastIssued (s.mem i)) + allocCount i ops) % 4096 ∧
    (((run s ops).mem i).isObject = true →
      (s.mem i).isObject = true ∨ 1 ≤ allocCount i ops) := by
  induction ops generalizing s with
  | nil =>
    have hg := generationOf_lt (lastIssued (s.mem i))
    exact ⟨(Nat.mod_eq_of_lt hg).symm, fun hx => Or.inl hx⟩
  | cons op ops ih =>
    obtain ⟨h1, h2⟩ := generation_step s op i hs hv.1
    obtain ⟨h3, h4⟩ := ih (step s op) (inv_step s op hs hv.1) hv.2
    simp only [run, allocCount]
    constructor
    · rw [h3, h1]; omega
    · intro hx
      rcases h4 hx with h5 | h5
      · rcases h2 h5 with h6 | h6
        · exact Or.inl h6
        · right; simp [h6]
      · right; omega

/-- Deleting and recreating the handle of slot `i` over and over is within the
contract of the calls and moves the generation on by one each time. -/
theorem churn_spec (i d : Nat) (n : Nat) (s : State) (h : Handle) (hs : Inv s)
    (halloc : s.allocated i = true) (hobj : s.mem i = Slot.object h)
    (hv : h.base_value < 2 ^ 30) :
    Valid s (churn i d n) ∧ (run s (churn i d n)).allocated i = true ∧
    (run s (churn i d n)).capacity = s.capacity ∧
    ∃ hnew, (run s (churn i d n)).mem i = Slot.object hnew ∧
      hnew.base_value = 262144 * ((generationOf h.base_value + n) % 4096) + i := by
  induction n generalizing s h with
  | zero =>
    refine ⟨trivial, halloc, rfl, h, hobj, ?_⟩
    have hi := hs.idx i h hobj
    rw [indexOf_eq_mod] at hi
    rw [generationOf_eq]; omega
  | succ n ih =>
    have hcap := hs.cap
    rw [kMaxHandleCount_eq] at hcap
    have hlt := hs.range i halloc
    have hs1 := inv_delete s i h hs hlt halloc hobj
    have hst1 := DeleteHandle_state s i h hobj
    have hfree : (DeleteHandle s i).1.allocated i = false := by
      rw [hst1]; simp [upd_same]
    have hlt1 : i < (DeleteHandle s i).1.capacity := by rw [hst1]; exact hlt
    have hw : ((DeleteHandle s i).1.mem i).word0 = h.base_value := by
      rw [hst1]; simp [upd_same, Slot.word0]
    have hs2 := inv_make (DeleteHandle s i).1 i d 0 hs1 hlt1 hfree
    have hst2 := MakeHandle_state (DeleteHandle s i).1 i d 0
    have hnew := GetNewHandleBaseValue_eq (DeleteHandle s i).1 i (by omega)
    rw [hw] at hnew
    have hg := generationOf_lt h.base_value
    have hgen : generationOf (262144 * ((generationOf h.base_value + 1) % 4096) + i)
        = (generationOf h.base_value + 1) % 4096 := by
      rw [generationOf_eq _]; omega
    obtain ⟨v1, v2, v3, h2, v4, v5⟩ := ih (MakeHandle (DeleteHandle s i).1 (some i) d 0).1
      ⟨d, 0, 262144 * ((generationOf h.base_value + 1) % 4096) + i⟩ hs2
      (by rw [hst2]; simp [upd_same])
      (by rw [hst2]; simp only [upd_same]; rw [hnew])
      (by show 262144 * ((generationOf h.base_value + 1) % 4096) + i < 2 ^ 30; omega)
    refine ⟨⟨⟨hlt, halloc, by rw [hobj]; rfl⟩, ⟨hlt1, hfree⟩, v1⟩, v2, ?_, h2, v4, ?_⟩
    · exact v3.trans (by rw [hst2, hst1])
    · rw [v5, hgen]
      omega
/-! ## Anti-reuse of base values -/

/-- C1: when a live handle whose base value has slot index `i` and generation
`g` is deleted, then, after any calls that are not handed slot `i`, the next
`MakeHandle` or `DupHandle` that is handed slot `i` builds a handle there whose
base value has index `i` and generation `(g + 1) mod 2^12`.  The state the
deletion starts from is arbitrary, so this holds whether or not the deletion
brings the handle count of the dispatcher to zero. -/
theorem C1_next_generation (s : State) (i : Nat) (h : Handle) (ops : List Op)
    (hlive : s.mem i = Slot.object h) (hidx : indexOf h.base_value = i)
    (hops : ∀ op ∈ ops, op.alloc ≠ some i) :
    (∀ d r, ∃ hnew,
      (MakeHandle (run (DeleteHandle s i).1 ops) (some i) d r).1.mem i = Slot.object hnew ∧
      indexOf hnew.base_value = i ∧
      generationOf hnew.base_value = (generationOf h.base_value + 1) % 2 ^ 12) ∧
    (∀ src hsrc r rep, (run (DeleteHandle s i).1 ops).mem src = Slot.object hsrc →
      ∃ hnew,
        (DupHandle (run (DeleteHandle s i).1 ops) (some i) src r rep).1.mem i
          = Slot.object hnew ∧
        indexOf hnew.base_value = i ∧
        generationOf hnew.base_value = (generationOf h.base_value + 1) % 2 ^ 12) := by
  have hi : i < 262144 := by
    rw [← hidx, indexOf_eq_mod]; omega
  have hraw0 : (DeleteHandle s i).1.mem i = Slot.raw h.base_value := by
    rw [DeleteHandle_state s i h hlive]; simp [upd_same]
  have hraw := run_raw_frame ops _ i _ hraw0 hops
  have hf := GetNewHandleBaseValue_fields (run (DeleteHandle s i).1 ops) i hi
  rw [hraw] at hf
  have key : ∀ d r, ∃ hnew,
      (MakeHandle (run (DeleteHandle s i).1 ops) (some i) d r).1.mem i = Slot.object hnew ∧
      indexOf hnew.base_value = i ∧
      generationOf hnew.base_value = (generationOf h.base_value + 1) % 2 ^ 12 := by
    intro d r
    refine ⟨⟨d, r, GetNewHandleBaseValue (run (DeleteHandle s i).1 ops) i⟩, ?_, hf.1, hf.2⟩
    rw [MakeHandle_state]
    simp [upd_same]
  refine ⟨key, ?_⟩
  intro src hsrc r rep hobj
  rw [DupHandle_state _ (some i) src r rep hsrc hobj]
  exact key hsrc.dispatcher r

/-- C1 at a concrete table: the handle of slot 5 (generation 1) is deleted,
another slot is used in between, and slot 5 is handed out again. -/
theorem C1_next_generation_witness :
    (run demoInit [Op.make (some 5) 7 3]).mem 5 = Slot.object ⟨7, 3, 262149⟩ ∧
    indexOf 262149 = 5 ∧
    (∀ op ∈ [Op.make (some 6) 8 1], op.alloc ≠ some 5) ∧
    (∃ hnew,
      (MakeHandle (run (DeleteHandle (run demoInit [Op.make (some 5) 7 3]) 5).1
        [Op.make (some 6) 8 1]) (some 5) 9 1).1.mem 5 = Slot.object hnew ∧
      indexOf hnew.base_value = 5 ∧
      generationOf hnew.base_value = (generationOf 262149 + 1) % 2 ^ 12) :=
  ⟨by decide, by decide, by decide,
    (C1_next_generation (run demoInit [Op.make (some 5) 7 3]) 5 ⟨7, 3, 262149⟩
      [Op.make (some 6) 8 1] (by decide) (by decide) (by decide)).1 9 1⟩

/-! ## Base values fit in 30 bits -/

/-- A value below `2^30` is made of its generation and its index. -/
theorem base_value_split (v : Nat) (h : v < 2 ^ 30) :
    v = 262144 * generationOf v + indexOf v := by
  rw [generationOf_eq, indexOf_eq_mod]
  omega

theorem lastIssued_object (d r x : Nat) : lastIssued (Slot.object ⟨d, r, x⟩) = x := rfl

theorem lastIssued_raw (x : Nat) : lastIssued (Slot.raw x) = x := rfl

/-- What a call that respects its contract leaves in slot `j`: the base value
issued before, or a new one made of a generation and the index. -/
theorem issued_step (s : State) (op : Op) (hs : Inv s) (hok : Op.ok s op) (j : Nat) :
    lastIssued ((step s op).mem j) = lastIssued (s.mem j) ∨
    ∃ g, lastIssued ((step s op).mem j) = 262144 * (g % 4096) + j ∧ j < 262144 := by
  have hcap := hs.cap
  rw [kMaxHandleCount_eq] at hcap
  rcases step_cases_ok s op hok with ⟨_, e⟩ | ⟨addr, d, r, _, hlt, _, e⟩ |
      ⟨hd, hh, _, _, _, hm, e⟩
  · left
    rw [e]
  · have hmem : (step s op).mem j
        = upd s.mem addr (Slot.object ⟨d, r, GetNewHandleBaseValue s addr⟩) j := by
      rw [e, MakeHandle_state]
    by_cases hj : j = addr
    · subst hj
      right
      have hnew := GetNewHandleBaseValue_eq s j (by omega)
      have hobj := hmem.trans (upd_same s.mem j (Slot.object ⟨d, r, GetNewHandleBaseValue s j⟩))
      have hval := (congrArg lastIssued hobj).trans
        (lastIssued_object d r (GetNewHandleBaseValue s j))
      have hj2 : j < 262144 := by omega
      exact ⟨generationOf (s.mem j).word0 + 1, hval.trans hnew, hj2⟩
    · left
      rw [hmem, upd_other _ _ _ _ hj]
  · have hmem : (step s op).mem j = upd s.mem hd (Slot.raw hh.base_value) j := by
      rw [e, DeleteHandle_state s hd hh hm]
    left
    by_cases hj : j = hd
    · subst hj
      have hraw := hmem.trans (upd_same s.mem j (Slot.raw hh.base_value))
      exact ((congrArg lastIssued hraw).trans (lastIssued_raw hh.base_value)).trans
        ((congrArg lastIssued hm).trans (lastIssued_object hh.dispatcher hh.rights
          hh.base_value)).symm
    · rw [hmem, upd_other _ _ _ _ hj]

/-- A call that respects its contract keeps every base value issued so far, live
or stashed, below `2^30`. -/
theorem issued_lt_step (s : State) (op : Op) (hs : Inv s) (hok : Op.ok s op)
    (hb : ∀ i, lastIssued (s.mem i) < 2 ^ 30) :
    ∀ i, lastIssued ((step s op).mem i) < 2 ^ 30 := by
  intro j
  have hold := hb j
  rcases issued_step s op hs hok j with h | ⟨g, h, hj⟩
  · omega
  · omega

theorem issued_lt_run (ops : List Op) (s : State) (hs : Inv s) (hv : Valid s ops)
    (hb : ∀ i, lastIssued (s.mem i) < 2 ^ 30) :
    ∀ i, lastIssued ((run s ops).mem i) < 2 ^ 30 := by
  induction ops generalizing s with
  | nil => exact hb
  | cons op ops ih =>
    exact ih (step s op) (inv_step s op hs hv.1) hv.2 (issued_lt_step s op hs hv.1 hb)

/-- In every state reached from the zeroed arena every base value, live or
stashed, is below `2^30`. -/
theorem issued_lt_of_reachable (s : State) (hs : Reachable s) :
    ∀ i, lastIssued (s.mem i) < 2 ^ 30 := by
  obtain ⟨tracker, type, ops, hv, rfl⟩ := hs
  apply issued_lt_run ops _ (inv_init tracker type) hv
  intro i
  have h0 : lastIssued ((magenta_init tracker type).mem i) = 0 := rfl
  omega

/-! ## Index of a stashed value -/

theorem allocCount_zero (i : Nat) (ops : List Op) (h : allocCount i ops = 0) :
    ∀ op ∈ ops, op.alloc ≠ some i := by
  induction ops with
  | nil => intro op hop; cases hop
  | cons o os ih =>
    have e : (if o.alloc = some i then 1 else 0) + allocCount i os = 0 := h
    intro op hop
    rcases List.mem_cons.mp hop with rfl | hmem
    · intro ha
      rw [if_pos ha] at e
      omega
    · exact ih (by omega) op hmem

/-- A call that respects its contract leaves in slot `i` a constructed handle or
a value with index `i`, when it was so before or when the arena hands slot `i`
to the call. -/
theorem step_stash_index (s : State) (op : Op) (i : Nat) (hs : Inv s) (hok : Op.ok s op)
    (h : (∀ v, s.mem i = Slot.raw v → indexOf v = i) ∨ op.alloc = some i) :
    ∀ v, (step s op).mem i = Slot.raw v → indexOf v = i := by
  rcases step_cases_ok s op hok with ⟨ha, e⟩ | ⟨addr, d, r, ha, _, _, e⟩ |
      ⟨hd, hh, ha, _, _, hm, e⟩
  · rw [e]
    rcases h with h | h
    · exact h
    · rw [ha] at h; cases h
  · rw [e, MakeHandle_state]
    by_cases hi : i = addr
    · subst hi
      simp only [upd_same]
      intro v hv
      cases hv
    · simp only [upd_other _ _ _ _ hi]
      rcases h with h | h
      · exact h
      · rw [ha] at h
        exact absurd (Option.some.inj h).symm hi
  · rw [e, DeleteHandle_state s hd hh hm]
    by_cases hi : i = hd
    · subst hi
      simp only [upd_same]
      intro v hv
      have hv2 : hh.base_value = v := Slot.raw.inj hv
      rw [← hv2]
      exact hs.idx i hh hm
    · simp only [upd_other _ _ _ _ hi]
      rcases h with h | h
      · exact h
      · rw [ha] at h; cases h

theorem run_stash_index (ops : List Op) (s : State) (i : Nat) (hs : Inv s) (hv : Valid s ops)
    (h : (∀ v, s.mem i = Slot.raw v → indexOf v = i) ∨ 0 < allocCount i ops) :
    ∀ v, (run s ops).mem i = Slot.raw v → indexOf v = i := by
  induction ops generalizing s with
  | nil =>
    rcases h with h | h
    · exact h
    · exact absurd h (Nat.lt_irrefl 0)
  | cons op ops ih =>
    have e : allocCount i (op :: ops)
        = (if op.alloc = some i then 1 else 0) + allocCount i ops := rfl
    apply ih (step s op) (inv_step s op hs hv.1) hv.2
    by_cases hop : op.alloc = some i
    · exact Or.inl (step_stash_index s op i hs hv.1 (Or.inr hop))
    · rcases h with h | h
      · exact Or.inl (step_stash_index s op i hs hv.1 (Or.inl h))
      · right
        rw [e, if_neg hop] at h
        omega

/-- Slot 0 of a fresh table is used once and then deleted and recreated `n`
times: when `n` is a multiple of the number of generations, the first base
value of the slot is live again. -/
theorem churn_wraps (n : Nat) (hn : (generationOf 262144 + n) % 4096 = 1) :
    Valid demoInit (Op.make (some 0) 0 0 :: churn 0 0 n) ∧
    LiveAt (run demoInit [Op.make (some 0) 0 0]) 0 ⟨0, 0, 262144⟩ ∧
    MapU32ToHandle (run (run demoInit [Op.make (some 0) 0 0]) (churn 0 0 n)) 262144
      = some 0 ∧
    returnsLive (run (run demoInit [Op.make (some 0) 0 0]) (churn 0 0 n)) 262144
      = true := by
  have hv1 : Valid demoInit [Op.make (some 0) 0 0] := by decide
  have hinv := inv_run _ _ (inv_init (fun _ => true) (fun _ => 0)) hv1
  have hlive : LiveAt (run demoInit [Op.make (some 0) 0 0]) 0 ⟨0, 0, 262144⟩ := by
    decide
  obtain ⟨c1, c2, c3, hnew, c4, c5⟩ := churn_spec 0 0 n
    (run demoInit [Op.make (some 0) 0 0]) ⟨0, 0, 262144⟩ hinv hlive.1 hlive.2 (by decide)
  have hb : hnew.base_value = 262144 := by
    rw [c5]
    show 262144 * ((generationOf 262144 + n) % 4096) + 0 = 262144
    rw [hn]
  have hc : (run (run demoInit [Op.make (some 0) 0 0]) (churn 0 0 n)).capacity
      = kMaxHandleCount := c3
  have hmap : MapU32ToHandle (run (run demoInit [Op.make (some 0) 0 0]) (churn 0 0 n))
      262144 = some 0 := by
    unfold MapU32ToHandle HandleInRange
    have e : 262144 &&& kHandleIndexMask = 0 := by decide
    simp only [e, c4, hc, Slot.base_value, hb]
    decide
  refine ⟨⟨hv1.1, c1⟩, hlive, hmap, ?_⟩
  unfold returnsLive
  rw [hmap]
  simp only [c2, c4, Slot.isObject, Bool.and_self]

/-- C2 fails as stated: the handle of slot 0 with base value `262144`
(generation 1) is deleted, the slot is then handed out 4096 times, and the
handle living there in the end has base value `262144` again, so
`MapU32ToHandle 262144` returns a live handle. -/
theorem C2_wraparound_counterexample :
    Valid demoInit (Op.make (some 0) 0 0 :: churn 0 0 4096) ∧
    LiveAt (run demoInit [Op.make (some 0) 0 0]) 0 ⟨0, 0, 262144⟩ ∧
    MapU32ToHandle (run (run demoInit [Op.make (some 0) 0 0]) (churn 0 0 4096)) 262144
      = some 0 ∧
    returnsLive (run (run demoInit [Op.make (some 0) 0 0]) (churn 0 0 4096)) 262144
      = true :=
  churn_wraps 4096 (by decide)

/-- C2, amended: once a live handle with base value `v` in slot `i` has been
deleted, `MapU32ToHandle v` returns no live handle after any further calls
during which the arena hands out slot `i` fewer than 4096 times; and when the
arena has handed out slot `i` exactly 4096 times since, the base value last
issued for slot `i` is `v` again, so `MapU32ToHandle v` returns a live handle
whenever the slot holds one. -/
theorem C2_no_resolve_before_wraparound (s : State) (i : Nat) (h : Handle) (ops : List Op)
    (hs : Reachable s) (hlive : LiveAt s i h)
    (hv : Valid (DeleteHandle s i).1 ops) :
    (allocCount i ops < 4096 →
      returnsLive (run (DeleteHandle s i).1 ops) h.base_value = false) ∧
    (allocCount i ops = 4096 →
      lastIssued ((run (DeleteHandle s i).1 ops).mem i) = h.base_value ∧
      returnsLive (run (DeleteHandle s i).1 ops) h.base_value
        = ((run (DeleteHandle s i).1 ops).mem i).isObject) := by
  have hinv := inv_of_reachable s hs
  have hlt := hinv.range i hlive.1
  have hinv1 := inv_delete s i h hinv hlt hlive.1 hlive.2
  have hinv2 := inv_run ops _ hinv1 hv
  have hraw0 : (DeleteHandle s i).1.mem i = Slot.raw h.base_value := by
    rw [DeleteHandle_state s i h hlive.2]; simp [upd_same]
  obtain ⟨g1, g2⟩ := generation_run ops _ i hinv1 hv
  rw [hraw0] at g1 g2
  simp only [lastIssued, Slot.isObject, Bool.false_eq_true, false_or] at g1 g2
  have hidx := hinv.idx i h hlive.2
  have hidx0 := hidx
  unfold indexOf at hidx
  have hgl := generationOf_lt h.base_value
  constructor
  · intro hcount
    unfold returnsLive MapU32ToHandle
    simp only [hidx]
    split
    · next j hres =>
      split at hres
      · cases hres
      · split at hres
        · next hb =>
          have hji : i = j := Option.some.inj hres
          subst hji
          cases hm : (run (DeleteHandle s i).1 ops).mem i with
          | raw w => simp [Slot.isObject]
          | object h2 =>
            exfalso
            rw [hm] at g1 g2 hb
            simp only [lastIssued, Slot.isObject, Slot.base_value] at g1 g2 hb
            rw [hb] at g1
            have := g2 trivial
            omega
        · cases hres
    · rfl
  · intro hcount
    have hok : Op.ok s (Op.delete i) := ⟨hlt, hlive.1, by rw [hlive.2]; rfl⟩
    have hreach1 : Reachable (DeleteHandle s i).1 :=
      reachable_run s [Op.delete i] hs ⟨hok, trivial⟩
    have hreach2 := reachable_run _ ops hreach1 hv
    have hb2 := issued_lt_of_reachable _ hreach2 i
    have hb0 := issued_lt_of_reachable s hs i
    have hl0 : lastIssued (s.mem i) = h.base_value := congrArg lastIssued hlive.2
    have hmark := run_stash_index ops (DeleteHandle s i).1 i hinv1 hv (Or.inl (by
      intro v hv0
      rw [hraw0] at hv0
      rw [← Slot.raw.inj hv0]
      exact hidx0))
    have hidx2 : indexOf (lastIssued ((run (DeleteHandle s i).1 ops).mem i)) = i := by
      cases hm : (run (DeleteHandle s i).1 ops).mem i with
      | raw w => exact hmark w hm
      | object h2 => exact hinv2.idx i h2 hm
    have hs1 := base_value_split _ hb2
    have hs0 := base_value_split h.base_value (by omega)
    have g1r := (generation_run ops _ i hinv1 hv).1
    rw [hraw0, lastIssued_raw] at g1r
    have hlast : lastIssued ((run (DeleteHandle s i).1 ops).mem i) = h.base_value := by
      rw [hidx2, g1r] at hs1
      rw [hidx0] at hs0
      omega
    refine ⟨hlast, ?_⟩
    have hcap2 := hinv2.cap
    have hcap := hinv.cap
    have hrange : HandleInRange (run (DeleteHandle s i).1 ops) i = true := by
      unfold HandleInRange
      rw [hcap2, ← hcap]
      exact decide_eq_true hlt
    have hal := hinv2.live i
    cases hm : (run (DeleteHandle s i).1 ops).mem i with
    | raw w =>
      rw [hm] at hal
      unfold returnsLive MapU32ToHandle
      simp only [hidx, hrange, hm, Slot.base_value, Slot.isObject]
      split_ifs <;> simp [hal, Slot.isObject]
    | object h2 =>
      rw [hm] at hal hlast
      have hbv : h2.base_value = h.base_value := hlast
      unfold returnsLive MapU32ToHandle
      simp only [hidx, hrange, hm, Slot.base_value, Slot.isObject, hbv]
      simp [hal, Slot.isObject, hm]

/-- C2, amended, at a concrete table: the handle of slot 5 is deleted and the
slot is handed out twice more. -/
theorem C2_no_resolve_before_wraparound_witness :
    Reachable (run demoInit [Op.make (some 5) 7 3]) ∧
    LiveAt (run demoInit [Op.make (some 5) 7 3]) 5 ⟨7, 3, 262149⟩ ∧
    Valid (DeleteHandle (run demoInit [Op.make (some 5) 7 3]) 5).1
      [Op.make (some 5) 8 1, Op.delete 5, Op.make (some 5) 9 1] ∧
    allocCount 5 [Op.make (some 5) 8 1, Op.delete 5, Op.make (some 5) 9 1] < 4096 ∧
    returnsLive (run (DeleteHandle (run demoInit [Op.make (some 5) 7 3]) 5).1
      [Op.make (some 5) 8 1, Op.delete 5, Op.make (some 5) 9 1]) 262149 = false :=
  ⟨⟨fun _ => true, fun _ => 0, [Op.make (some 5) 7 3], by decide, rfl⟩, by decide, by decide,
    by decide,
    (C2_no_resolve_before_wraparound (run demoInit [Op.make (some 5) 7 3]) 5 ⟨7, 3, 262149⟩
      [Op.make (some 5) 8 1, Op.delete 5, Op.make (some 5) 9 1]
      ⟨fun _ => true, fun _ => 0, [Op.make (some 5) 7 3], by decide, rfl⟩
      (by decide) (by decide)).1 (by decide)⟩

/-! ## Uniqueness and lookup -/

/-- C3: in every state reached from the empty handle table by `MakeHandle`,
`DupHandle` and `DeleteHandle`, two live handles in different slots never have
the same base value. -/
theorem C3_unique_base_values (s : State) (i j : Nat) (hi hj : Handle)
    (hs : Reachable s) (h1 : LiveAt s i hi) (h2 : LiveAt s j hj) (hne : i ≠ j) :
    hi.base_value ≠ hj.base_value := by
  have hinv := inv_of_reachable s hs
  intro e
  apply hne
  rw [← hinv.idx i hi h1.2, ← hinv.idx j hj h2.2, e]

/-- C3 at a concrete table with two live handles of the same dispatcher. -/
theorem C3_unique_base_values_witness :
    Reachable (run demoInit [Op.make (some 5) 7 3, Op.dup (some 6) 5 1 false]) ∧
    LiveAt (run demoInit [Op.make (some 5) 7 3, Op.dup (some 6) 5 1 false]) 5
      ⟨7, 3, 262149⟩ ∧
    LiveAt (run demoInit [Op.make (some 5) 7 3, Op.dup (some 6) 5 1 false]) 6
      ⟨7, 1, 262150⟩ ∧
    5 ≠ 6 ∧ (262149 : Nat) ≠ 262150 :=
  ⟨⟨fun _ => true, fun _ => 0, [Op.make (some 5) 7 3, Op.dup (some 6) 5 1 false],
      by decide, rfl⟩,
    by decide, by decide, by decide,
    C3_unique_base_values (run demoInit [Op.make (some 5) 7 3, Op.dup (some 6) 5 1 false])
      5 6 ⟨7, 3, 262149⟩ ⟨7, 1, 262150⟩
      ⟨fun _ => true, fun _ => 0, [Op.make (some 5) 7 3, Op.dup (some 6) 5 1 false],
        by decide, rfl⟩
      (by decide) (by decide) (by decide)⟩

/-- The claim C4 fails on the code: slot 0 has been used once and is free again,
so no handle is stored in it, and `MapU32ToHandle 0` still returns slot 0 and
not `nullptr`, because the cleared memory of the free slot reports the base
value 0. -/
theorem C4_free_slot_counterexample :
    Valid demoInit [Op.make (some 0) 0 0, Op.delete 0] ∧
    (run demoInit [Op.make (some 0) 0 0, Op.delete 0]).allocated 0 = false ∧
    (run demoInit [Op.make (some 0) 0 0, Op.delete 0]).mem 0 = Slot.raw 262144 ∧
    MapU32ToHandle (run demoInit [Op.make (some 0) 0 0, Op.delete 0]) 0 = some 0 ∧
    returnsLive (run demoInit [Op.make (some 0) 0 0, Op.delete 0]) 0 = false := by
  decide

/-- C4, amended: `MapU32ToHandle value` returns the slot with index
`value & kHandleIndexMask` when that slot is in the range of the arena and its
memory reports `value` as base value, and `nullptr` otherwise, without testing
that a handle is stored there.  In every reachable state the slot returned
holds a live handle with base value `value`, except that the value 0 also
resolves to slot 0 while that slot is free; and the base value of a live handle
resolves to the slot of that very handle. -/
theorem C4_lookup (s : State) (hs : Reachable s) :
    (∀ value, MapU32ToHandle s value =
      if HandleInRange s (value &&& kHandleIndexMask) = true ∧
          (s.mem (value &&& kHandleIndexMask)).base_value = value
      then some (value &&& kHandleIndexMask) else none) ∧
    (∀ value j, MapU32ToHandle s value = some j ↔
      ((∃ h, LiveAt s j h ∧ h.base_value = value) ∨
        (value = 0 ∧ j = 0 ∧ s.allocated 0 = false))) ∧
    (∀ i h, LiveAt s i h → MapU32ToHandle s h.base_value = some i) := by
  have hinv := inv_of_reachable s hs
  have hcap := hinv.cap
  rw [kMaxHandleCount_eq] at hcap
  have hform : ∀ value, MapU32ToHandle s value =
      if HandleInRange s (value &&& kHandleIndexMask) = true ∧
          (s.mem (value &&& kHandleIndexMask)).base_value = value
      then some (value &&& kHandleIndexMask) else none := by
    intro value
    unfold MapU32ToHandle
    by_cases hr : HandleInRange s (value &&& kHandleIndexMask) = true
    · simp [hr]
    · simp [hr]
  have hlive : ∀ i h, LiveAt s i h → MapU32ToHandle s h.base_value = some i := by
    intro i h hl
    have hidx := hinv.idx i h hl.2
    unfold indexOf at hidx
    have hlt := hinv.range i hl.1
    unfold MapU32ToHandle HandleInRange
    simp [hidx, hlt, hl.2, Slot.base_value]
  refine ⟨hform, ?_, hlive⟩
  intro value j
  constructor
  · intro hres
    rw [hform] at hres
    split at hres
    · next hc =>
      have hj : value &&& kHandleIndexMask = j := Option.some.inj hres
      rw [hj] at hc
      have hal := hinv.live j
      cases hm : s.mem j with
      | raw w =>
        right
        rw [hm] at hc hal
        have hv0 : value = 0 := hc.2.symm
        have hj0 : j = 0 := by rw [← hj, hv0]; rfl
        subst hj0
        exact ⟨hv0, rfl, hal⟩
      | object h =>
        left
        rw [hm] at hc hal
        exact ⟨h, ⟨hal, hm⟩, hc.2⟩
    · cases hres
  · intro hcase
    rcases hcase with ⟨h, hl, hbv⟩ | ⟨hv0, hj0, hfree⟩
    · rw [← hbv]
      exact hlive j h hl
    · subst hv0
      subst hj0
      have hal := hinv.live 0
      rw [hfree] at hal
      rw [hform]
      have hidx0 : (0 : Nat) &&& kHandleIndexMask = 0 := by decide
      rw [hidx0]
      have hr : HandleInRange s 0 = true := by
        unfold HandleInRange
        exact decide_eq_true (by omega)
      cases hm : s.mem 0 with
      | raw w => simp [hr, Slot.base_value]
      | object h => rw [hm] at hal; cases hal

/-- C4, amended, at a concrete table: the base value of the handle in slot 5
resolves to slot 5. -/
theorem C4_lookup_witness :
    Reachable (run demoInit [Op.make (some 5) 7 3]) ∧
    LiveAt (run demoInit [Op.make (some 5) 7 3]) 5 ⟨7, 3, 262149⟩ ∧
    MapU32ToHandle (run demoInit [Op.make (some 5) 7 3]) 262149 = some 5 :=
  ⟨⟨fun _ => true, fun _ => 0, [Op.make (some 5) 7 3], by decide, rfl⟩, by decide,
    (C4_lookup (run demoInit [Op.make (some 5) 7 3])
      ⟨fun _ => true, fun _ => 0, [Op.make (some 5) 7 3], by decide, rfl⟩).2.2
      5 ⟨7, 3, 262149⟩ (by decide)⟩

theorem generation_bit_ge (b : Nat) (hb : kHandleGenerationMask.testBit b = true) :
    18 ≤ b := by
  rw [kHandleGenerationMask_eq, Nat.testBit_shiftLeft] at hb
  simp only [Bool.and_eq_true, decide_eq_true_eq] at hb
  exact hb.1

theorem flip_high_bit_mod (v b : Nat) (hb : 18 ≤ b) :
    (v ^^^ (1 <<< b)) % 2 ^ 18 = v % 2 ^ 18 := by
  apply Nat.eq_of_testBit_eq
  intro j
  simp only [Nat.testBit_mod_two_pow, Nat.testBit_xor, Nat.one_shiftLeft, Nat.testBit_two_pow]
  by_cases hj : j < 18
  · have : ¬ (b = j) := by omega
    simp [hj, this]
  · simp [hj]

theorem flip_bit_ne (v b : Nat) : v ^^^ (1 <<< b) ≠ v := by
  intro e
  have h := congrArg (fun x => Nat.testBit x b) e
  simp [Nat.testBit_xor, Nat.one_shiftLeft, Nat.testBit_two_pow] at h

/-- C5: in every reachable state, for a live handle with base value `v` and a
bit position `b` of the generation field, `MapU32ToHandle` applied to `v` with
bit `b` flipped returns `nullptr`, hence no live handle. -/
theorem C5_forged_generation_bit (s : State) (i : Nat) (h : Handle) (b : Nat)
    (hs : Reachable s) (hlive : LiveAt s i h)
    (hb : kHandleGenerationMask.testBit b = true) :
    MapU32ToHandle s (h.base_value ^^^ (1 <<< b)) = none ∧
    returnsLive s (h.base_value ^^^ (1 <<< b)) = false := by
  have hinv := inv_of_reachable s hs
  have hidx := hinv.idx i h hlive.2
  have hge := generation_bit_ge b hb
  have hidx2 : (h.base_value ^^^ (1 <<< b)) &&& kHandleIndexMask = i := by
    rw [← hidx, indexOf_eq_mod]
    rw [kHandleIndexMask_eq, Nat.and_pow_two_sub_one_eq_mod, flip_high_bit_mod _ _ hge]
    norm_num
  have hne := flip_bit_ne h.base_value b
  have hnone : MapU32ToHandle s (h.base_value ^^^ (1 <<< b)) = none := by
    unfold MapU32ToHandle
    simp only [hidx2, hlive.2, Slot.base_value]
    split
    · rfl
    · rw [if_neg (Ne.symm hne)]
  refine ⟨hnone, ?_⟩
  unfold returnsLive
  rw [hnone]

/-- C5 at a concrete table: bit 20 of the base value of the handle in slot 5 is
flipped. -/
theorem C5_forged_generation_bit_witness :
    Reachable (run demoInit [Op.make (some 5) 7 3]) ∧
    LiveAt (run demoInit [Op.make (some 5) 7 3]) 5 ⟨7, 3, 262149⟩ ∧
    kHandleGenerationMask.testBit 20 = true ∧
    MapU32ToHandle (run demoInit [Op.make (some 5) 7 3]) (262149 ^^^ (1 <<< 20)) = none ∧
    returnsLive (run demoInit [Op.make (some 5) 7 3]) (262149 ^^^ (1 <<< 20)) = false :=
  ⟨⟨fun _ => true, fun _ => 0, [Op.make (some 5) 7 3], by decide, rfl⟩, by decide, by decide,
    C5_forged_generation_bit (run demoInit [Op.make (some 5) 7 3]) 5 ⟨7, 3, 262149⟩ 20
      ⟨fun _ => true, fun _ => 0, [Op.make (some 5) 7 3], by decide, rfl⟩
      (by decide) (by decide)⟩

/-! ## Handle counts -/

/-- A call changes the handle count of no dispatcher but the one it acts on. -/
theorem step_count_frame (s : State) (op : Op) (d : Nat) (hd : op.dispatcher s ≠ some d) :
    ((step s op).dispatchers d).handle_count = (s.dispatchers d).handle_count := by
  cases op with
  | make alloc d2 r =>
    cases alloc with
    | none => rfl
    | some addr =>
      have hne : d ≠ d2 := fun e => hd (by rw [e]; rfl)
      show ((MakeHandle s (some addr) d2 r).1.dispatchers d).handle_count = _
      rw [MakeHandle_state]
      simp only [upd_other _ _ _ _ hne]
  | dup alloc src r rep =>
    cases hsrc : s.mem src with
    | raw v => simp [step, DupHandle_raw s alloc src r rep v hsrc]
    | object h =>
      have hne : d ≠ h.dispatcher := fun e => hd (by simp [Op.dispatcher, hsrc, e])
      show ((DupHandle s alloc src r rep).1.dispatchers d).handle_count = _
      rw [DupHandle_state s alloc src r rep h hsrc]
      cases alloc with
      | none => rfl
      | some addr =>
        rw [MakeHandle_state]
        simp only [upd_other _ _ _ _ hne]
  | delete hdl =>
    cases hmem : s.mem hdl with
    | raw v => simp [step, DeleteHandle_raw s hdl v hmem]
    | object h =>
      have hne : d ≠ h.dispatcher := fun e => hd (by simp [Op.dispatcher, hmem, e])
      show ((DeleteHandle s hdl).1.dispatchers d).handle_count = _
      rw [DeleteHandle_state s hdl h hmem]
      simp only [upd_other _ _ _ _ hne]

/-- C6: after every sequence of `MakeHandle`, `DupHandle` and `DeleteHandle`
calls from the initial table, in which every dispatcher has handle count 0,
the handle count of a dispatcher is the number of handles created or duplicated
against it and not deleted yet; and a call that acts on a handle of another
dispatcher leaves the count as it is. -/
theorem C6_handle_count_conservation (s : State) (d : Nat) (hs : Reachable s) :
    (s.dispatchers d).handle_count = liveCount s d ∧
    (∀ op, op.dispatcher s ≠ some d →
      ((step s op).dispatchers d).handle_count = (s.dispatchers d).handle_count) :=
  ⟨(inv_of_reachable s hs).count d, fun op hd => step_count_frame s op d hd⟩

/-- C6 at a concrete table: dispatcher 7 got two handles, one of which was
deleted again, and dispatcher 8 got one. -/
theorem C6_handle_count_conservation_witness :
    Reachable (run demoInit
      [Op.make (some 5) 7 3, Op.dup (some 6) 5 1 false, Op.make (some 9) 8 3, Op.delete 5]) ∧
    ((run demoInit
      [Op.make (some 5) 7 3, Op.dup (some 6) 5 1 false, Op.make (some 9) 8 3,
        Op.delete 5]).dispatchers 7).handle_count = 1 ∧
    liveCount (run demoInit
      [Op.make (some 5) 7 3, Op.dup (some 6) 5 1 false, Op.make (some 9) 8 3, Op.delete 5]) 7
      = 1 :=
  ⟨⟨fun _ => true, fun _ => 0,
      [Op.make (some 5) 7 3, Op.dup (some 6) 5 1 false, Op.make (some 9) 8 3, Op.delete 5],
      by decide, rfl⟩,
    by decide,
    (C6_handle_count_conservation (run demoInit
      [Op.make (some 5) 7 3, Op.dup (some 6) 5 1 false, Op.make (some 9) 8 3, Op.delete 5]) 7
      ⟨fun _ => true, fun _ => 0,
        [Op.make (some 5) 7 3, Op.dup (some 6) 5 1 false, Op.make (some 9) 8 3, Op.delete 5],
        by decide, rfl⟩).1.symm.trans (by decide)⟩

/-! ## Calls made by the operations -/

/-- The handle count `DeleteHandle` leaves in the dispatcher of the handle. -/
theorem DeleteHandle_count (s : State) (handle : Nat) (h : Handle)
    (hobj : s.mem handle = Slot.object h) :
    ((DeleteHandle s handle).1.dispatchers h.dispatcher).handle_count
      = u32 ((s.dispatchers h.dispatcher).handle_count + (2 ^ 32 - 1)) := by
  rw [DeleteHandle_state s handle h hobj]
  simp only [upd_same]

/-- The handle count a successful `MakeHandle` leaves in the dispatcher. -/
theorem MakeHandle_count (s : State) (addr d r : Nat) :
    ((MakeHandle s (some addr) d r).1.dispatchers d).handle_count
      = u32 ((s.dispatchers d).handle_count + 1) := by
  rw [MakeHandle_state]
  simp only [upd_same]

/-- C7: `DeleteHandle` calls `on_zero_handles` exactly once when the deletion
brings the handle count of the dispatcher to zero, and not at all otherwise;
the call is on the dispatcher of the handle; and when the count reaches zero
there is no `UpdateLastHandleSignal` call. -/
theorem C7_on_zero_handles (s : State) (handle : Nat) (h : Handle)
    (hobj : s.mem handle = Slot.object h) :
    (DeleteHandle s handle).2.countP Event.isOnZeroHandles
      = (if ((DeleteHandle s handle).1.dispatchers h.dispatcher).handle_count = 0
          then 1 else 0) ∧
    (DeleteHandle s handle).2.filter Event.isOnZeroHandles
      = (if ((DeleteHandle s handle).1.dispatchers h.dispatcher).handle_count = 0
          then [Event.on_zero_handles h.dispatcher] else []) ∧
    (if ((DeleteHandle s handle).1.dispatchers h.dispatcher).handle_count = 0
      then (DeleteHandle s handle).2.countP Event.isSignal = 0 else True) := by
  rw [DeleteHandle_count s handle h hobj]
  unfold DeleteHandle
  rw [hobj]
  simp only
  simp only [show (2 : Nat) ^ 32 - 1 = 4294967295 by norm_num]
  by_cases hz : u32 ((s.dispatchers h.dispatcher).handle_count + 4294967295) = 0 <;>
    cases htr : (s.dispatchers h.dispatcher).has_state_tracker <;>
    by_cases hty : (s.dispatchers h.dispatcher).type = MX_OBJ_TYPE_IOMAP <;>
    simp [hz, hty, Event.isOnZeroHandles, Event.isSignal, List.countP_cons,
      List.filter_cons]

/-- C7 at a concrete table: deleting the only handle of dispatcher 7. -/
theorem C7_on_zero_handles_witness :
    (run demoInit [Op.make (some 5) 7 3]).mem 5 = Slot.object ⟨7, 3, 262149⟩ ∧
    ((DeleteHandle (run demoInit [Op.make (some 5) 7 3]) 5).1.dispatchers 7).handle_count
      = 0 ∧
    (DeleteHandle (run demoInit [Op.make (some 5) 7 3]) 5).2.countP Event.isOnZeroHandles
      = 1 ∧
    (DeleteHandle (run demoInit [Op.make (some 5) 7 3]) 5).2.countP Event.isSignal = 0 :=
  ⟨by decide, by decide,
    (C7_on_zero_handles (run demoInit [Op.make (some 5) 7 3]) 5 ⟨7, 3, 262149⟩
      (by decide)).1.trans (by decide),
    by decide⟩

/-- C8: for a dispatcher with a state tracker, `MakeHandle`, and `DupHandle`
with `is_replace = false`, call `UpdateLastHandleSignal` with a non-null
handle-count pointer exactly once when the handle count after the increment is
2, and never when it is any other value; the tracker call they make is the
only one, on the dispatcher of the new handle. -/
theorem C8_became_shared (s : State) (addr d r : Nat)
    (ht : (s.dispatchers d).has_state_tracker = true) :
    ((MakeHandle s (some addr) d r).2.2.countP Event.isTransition
        = (if ((MakeHandle s (some addr) d r).1.dispatchers d).handle_count = 2
            then 1 else 0) ∧
      (MakeHandle s (some addr) d r).2.2.filter Event.isSignal
        = [Event.UpdateLastHandleSignal d
            (if ((MakeHandle s (some addr) d r).1.dispatchers d).handle_count = 2
              then some d else none)]) ∧
    (∀ src hsrc, s.mem src = Slot.object hsrc → hsrc.dispatcher = d →
      (DupHandle s (some addr) src r false).2.2.countP Event.isTransition
        = (if ((DupHandle s (some addr) src r false).1.dispatchers d).handle_count = 2
            then 1 else 0) ∧
      (DupHandle s (some addr) src r false).2.2.filter Event.isSignal
        = [Event.UpdateLastHandleSignal d
            (if ((DupHandle s (some addr) src r false).1.dispatchers d).handle_count = 2
              then some d else none)]) := by
  have key : ∀ warn : List Event, (∀ e ∈ warn, ∃ c, e = Event.high_handle_count c) →
      ∀ m : Option Nat,
      (warn ++ [Event.UpdateLastHandleSignal d m]).countP Event.isTransition
        = (if m.isSome then 1 else 0) ∧
      (warn ++ [Event.UpdateLastHandleSignal d m]).filter Event.isSignal
        = [Event.UpdateLastHandleSignal d m] := by
    intro warn hw m
    have h1 : warn.countP Event.isTransition = 0 := by
      rw [List.countP_eq_zero]
      intro e he
      obtain ⟨c, rfl⟩ := hw e he
      simp [Event.isTransition]
    have h2 : warn.filter Event.isSignal = [] := by
      rw [List.filter_eq_nil_iff]
      intro e he
      obtain ⟨c, rfl⟩ := hw e he
      simp [Event.isSignal]
    rw [List.countP_append, List.filter_append, h1, h2]
    cases m <;> simp [Event.isTransition, Event.isSignal, List.countP_cons]
  have hwarn : ∀ n : Nat, ∀ e ∈ (if n > kHighHandleCount then high_handle_count n else []),
      ∃ c, e = Event.high_handle_count c := by
    intro n e he
    split at he
    · simp only [high_handle_count, List.mem_singleton] at he
      exact ⟨n, he⟩
    · cases he
  have hmake : ∀ d2 r2, d2 = d →
      (MakeHandle s (some addr) d2 r2).2.2.countP Event.isTransition
        = (if ((MakeHandle s (some addr) d2 r2).1.dispatchers d).handle_count = 2
            then 1 else 0) ∧
      (MakeHandle s (some addr) d2 r2).2.2.filter Event.isSignal
        = [Event.UpdateLastHandleSignal d
            (if ((MakeHandle s (some addr) d2 r2).1.dispatchers d).handle_count = 2
              then some d else none)] := by
    intro d2 r2 hd
    subst hd
    rw [MakeHandle_count]
    have hev : (MakeHandle s (some addr) d2 r2).2.2
        = (if usize (s.outstanding_handles + 1) > kHighHandleCount
            then high_handle_count (usize (s.outstanding_handles + 1)) else [])
          ++ [Event.UpdateLastHandleSignal d2
            (if u32 ((s.dispatchers d2).handle_count + 1) = 2 then some d2 else none)] := by
      unfold MakeHandle
      simp only [arenaAlloc, ht, if_true]
      by_cases h2 : u32 ((s.dispatchers d2).handle_count + 1) = 2 <;> simp [h2]
    rw [hev]
    obtain ⟨k1, k2⟩ := key _ (hwarn (usize (s.outstanding_handles + 1)))
      (if u32 ((s.dispatchers d2).handle_count + 1) = 2 then some d2 else none)
    rw [k1, k2]
    by_cases h2 : u32 ((s.dispatchers d2).handle_count + 1) = 2 <;> simp [h2]
  refine ⟨hmake d r rfl, ?_⟩
  intro src hsrc hobj hd
  have hst := DupHandle_state s (some addr) src r false hsrc hobj
  have hev : (DupHandle s (some addr) src r false).2.2
      = (MakeHandle s (some addr) hsrc.dispatcher r).2.2 := by
    unfold DupHandle MakeHandle
    rw [hobj]
    simp
  rw [hst, hev]
  exact hmake hsrc.dispatcher r hd

/-- C8 at a concrete table: dispatcher 7 has one handle, and a second one is
created or duplicated for it. -/
theorem C8_became_shared_witness :
    ((run demoInit [Op.make (some 5) 7 3]).dispatchers 7).has_state_tracker = true ∧
    ((MakeHandle (run demoInit [Op.make (some 5) 7 3]) (some 6) 7 3).1.dispatchers 7).handle_count
      = 2 ∧
    (MakeHandle (run demoInit [Op.make (some 5) 7 3]) (some 6) 7 3).2.2.countP
      Event.isTransition = 1 ∧
    (run demoInit [Op.make (some 5) 7 3]).mem 5 = Slot.object ⟨7, 3, 262149⟩ ∧
    (DupHandle (run demoInit [Op.make (some 5) 7 3]) (some 6) 5 1 false).2.2.countP
      Event.isTransition = 1 :=
  ⟨by decide, by decide,
    (C8_became_shared (run demoInit [Op.make (some 5) 7 3]) 6 7 3 (by decide)).1.1.trans
      (by decide),
    by decide,
    ((C8_became_shared (run demoInit [Op.make (some 5) 7 3]) 6 7 1 (by decide)).2 5
      ⟨7, 3, 262149⟩ (by decide) rfl).1.trans (by decide)⟩

/-- C9: for a dispatcher with a state tracker, `DeleteHandle` calls
`UpdateLastHandleSignal` with a non-null handle-count pointer exactly once when
the handle count after the decrement is 1, and never when it is any other
value; the call is on the dispatcher of the deleted handle. -/
theorem C9_became_sole_owner (s : State) (handle : Nat) (h : Handle)
    (hobj : s.mem handle = Slot.object h)
    (ht : (s.dispatchers h.dispatcher).has_state_tracker = true) :
    (DeleteHandle s handle).2.countP Event.isTransition
      = (if ((DeleteHandle s handle).1.dispatchers h.dispatcher).handle_count = 1
          then 1 else 0) ∧
    (DeleteHandle s handle).2.filter Event.isTransition
      = (if ((DeleteHandle s handle).1.dispatchers h.dispatcher).handle_count = 1
          then [Event.UpdateLastHandleSignal h.dispatcher (some h.dispatcher)] else []) := by
  rw [DeleteHandle_count s handle h hobj]
  unfold DeleteHandle
  rw [hobj]
  simp only [show (2 : Nat) ^ 32 - 1 = 4294967295 by norm_num]
  by_cases hz : u32 ((s.dispatchers h.dispatcher).handle_count + 4294967295) = 0
  · simp [hz, ht, Event.isTransition, List.countP_cons, List.filter_cons]
  · by_cases h1 : u32 ((s.dispatchers h.dispatcher).handle_count + 4294967295) = 1 <;>
      simp [hz, h1, ht, Event.isTransition, List.countP_cons, List.filter_cons]

/-- C9 at a concrete table: dispatcher 7 has two handles and one is deleted. -/
theorem C9_became_sole_owner_witness :
    (run demoInit [Op.make (some 5) 7 3, Op.make (some 6) 7 3]).mem 5
      = Slot.object ⟨7, 3, 262149⟩ ∧
    ((run demoInit [Op.make (some 5) 7 3, Op.make (some 6) 7 3]).dispatchers 7).has_state_tracker
      = true ∧
    ((DeleteHandle (run demoInit [Op.make (some 5) 7 3, Op.make (some 6) 7 3]) 5).1.dispatchers
      7).handle_count = 1 ∧
    (DeleteHandle (run demoInit [Op.make (some 5) 7 3, Op.make (some 6) 7 3]) 5).2.countP
      Event.isTransition = 1 :=
  ⟨by decide, by decide, by decide,
    (C9_became_sole_owner (run demoInit [Op.make (some 5) 7 3, Op.make (some 6) 7 3]) 5
      ⟨7, 3, 262149⟩ (by decide) (by decide)).1.trans (by decide)⟩

/-- C10: `DupHandle` with `is_replace = true` makes no `UpdateLastHandleSignal`
call, whatever the handle count was before; in particular a duplication that
succeeds and raises the handle count from 1 to 2 makes none. -/
theorem C10_replace_is_silent (s : State) (alloc : Option Nat) (src r : Nat) :
    (DupHandle s alloc src r true).2.2.countP Event.isSignal = 0 ∧
    (∀ hsrc addr, s.mem src = Slot.object hsrc →
      (s.dispatchers hsrc.dispatcher).handle_count = 1 →
      (DupHandle s (some addr) src r true).2.1 = some addr ∧
      ((DupHandle s (some addr) src r true).1.dispatchers hsrc.dispatcher).handle_count = 2 ∧
      (DupHandle s (some addr) src r true).2.2.countP Event.isSignal = 0) := by
  have hwarn : ∀ n : Nat,
      (if n > kHighHandleCount then high_handle_count n else []).countP Event.isSignal = 0 := by
    intro n
    split <;> simp [high_handle_count, Event.isSignal, List.countP_cons]
  have key : ∀ alloc2, (DupHandle s alloc2 src r true).2.2.countP Event.isSignal = 0 := by
    intro alloc2
    unfold DupHandle
    cases hm : s.mem src with
    | raw v => simp
    | object hsrc =>
      cases alloc2 with
      | none => simp [Event.isSignal, List.countP_cons]
      | some addr =>
        simp only [Bool.not_true, Bool.false_and, Bool.false_eq_true, if_false,
          List.append_nil]
        exact hwarn _
  refine ⟨key alloc, ?_⟩
  intro hsrc addr hobj hcount
  refine ⟨?_, ?_, key (some addr)⟩
  · unfold DupHandle
    rw [hobj]
  · rw [DupHandle_state s (some addr) src r true hsrc hobj, MakeHandle_count, hcount]
    decide

/-- C10 at a concrete table: the only handle of dispatcher 7 is duplicated as a
replacement. -/
theorem C10_replace_is_silent_witness :
    (run demoInit [Op.make (some 5) 7 3]).mem 5 = Slot.object ⟨7, 3, 262149⟩ ∧
    ((run demoInit [Op.make (some 5) 7 3]).dispatchers 7).handle_count = 1 ∧
    (DupHandle (run demoInit [Op.make (some 5) 7 3]) (some 6) 5 1 true).2.1 = some 6 ∧
    ((DupHandle (run demoInit [Op.make (some 5) 7 3]) (some 6) 5 1 true).1.dispatchers
      7).handle_count = 2 ∧
    (DupHandle (run demoInit [Op.make (some 5) 7 3]) (some 6) 5 1 true).2.2.countP
      Event.isSignal = 0 :=
  ⟨by decide, by decide,
    (C10_replace_is_silent (run demoInit [Op.make (some 5) 7 3]) (some 6) 5 1).2
      ⟨7, 3, 262149⟩ 6 (by decide) (by decide)⟩

/-! ## Exhaustion of the arena -/

theorem countBelow_full (p : Nat → Bool) (n : Nat) (h : ∀ i, i < n → p i = true) :
    countBelow p n = n := by
  induction n with
  | zero => rfl
  | succ n ih =>
    simp only [countBelow]
    rw [ih (fun i hi => h i (by omega)), h n (by omega)]
    simp

theorem countBelow_lt (p : Nat → Bool) (n a : Nat) (ha : a < n) (hp : p a = false) :
    countBelow p n < n := by
  have hflip := countBelow_flip p (upd p a true) n a ha hp (upd_same _ _ _)
    (fun i hi => upd_other _ _ _ _ hi)
  have hle := countBelow_le (upd p a true) n
  omega

/-- Filling `n` further slots of a table in which exactly the slots below
`start` are handed out is within the contract of the calls and leaves exactly
the slots below `start + n` handed out. -/
theorem fill_from (d n : Nat) (start : Nat) (s : State)
    (hc : s.capacity = kMaxHandleCount) (hn : start + n ≤ kMaxHandleCount)
    (ha : ∀ i, s.allocated i = decide (i < start)) (ho : s.outstanding_handles = start) :
    Valid s (fillOps d start n) ∧
    (run s (fillOps d start n)).capacity = kMaxHandleCount ∧
    (run s (fillOps d start n)).outstanding_handles = start + n ∧
    ∀ i, (run s (fillOps d start n)).allocated i = decide (i < start + n) := by
  induction n generalizing start s with
  | zero => exact ⟨trivial, hc, ho, ha⟩
  | succ n ih =>
    have hk := kMaxHandleCount_eq
    have hok : Op.ok s (Op.make (some start) d 0) := by
      show _ < _ ∧ _ = false
      rw [hc, ha start]
      exact ⟨by omega, by simp⟩
    have hst := MakeHandle_state s start d 0
    obtain ⟨v, c, o, a⟩ := ih (start + 1) (MakeHandle s (some start) d 0).1
      (by rw [hst]; exact hc) (by omega)
      (by
        intro i
        rw [hst]
        show upd _ start true i = _
        by_cases hi : i = start
        · subst hi; simp [upd_same]
        · rw [upd_other _ _ _ _ hi, ha i]
          have : (i < start) ↔ (i < start + 1) := by omega
          simp [this])
      (by
        rw [hst]
        show usize (_ + 1) = start + 1
        rw [ho]
        unfold usize
        omega)
    have e : start + 1 + n = start + (n + 1) := by omega
    rw [e] at o a
    exact ⟨⟨hok, v⟩, c, o, a⟩

/-- Filling the slots `0`, ..., `n - 1` of a fresh table is within the contract
of the calls and leaves exactly these slots handed out. -/
theorem fill_spec (tracker : Nat → Bool) (type : Nat → Nat) (d n : Nat)
    (hn : n ≤ kMaxHandleCount) :
    Valid (magenta_init tracker type) (fillOps d 0 n) ∧
    (run (magenta_init tracker type) (fillOps d 0 n)).capacity = kMaxHandleCount ∧
    (run (magenta_init tracker type) (fillOps d 0 n)).outstanding_handles = n ∧
    ∀ i, (run (magenta_init tracker type) (fillOps d 0 n)).allocated i = decide (i < n) := by
  have h := fill_from d n 0 (magenta_init tracker type) rfl (by omega)
    (fun i => by simp [magenta_init]) rfl
  simpa using h

/-- Once all slots of the arena are filled, the next call is answered with
exhaustion. -/
theorem fill_then_exhausted (tracker : Nat → Bool) (type : Nat → Nat) (d r n : Nat)
    (hn : n = kMaxHandleCount) :
    Valid (magenta_init tracker type) (fillOps d 0 n ++ [Op.make none d r]) := by
  have h := fill_spec tracker type d n (by omega)
  rw [valid_append]
  refine ⟨h.1, ?_, trivial⟩
  show ∀ i, i < _ → _ = true
  intro i hi
  rw [h.2.1] at hi
  rw [h.2.2.2 i]
  simp only [decide_eq_true_eq]
  omega

/-- In a run without deletions the arena answers with exhaustion exactly from
the call on at which as many slots are handed out as the arena has. -/
theorem exhaustion_index (ops : List Op) (s : State) (k : Nat) (op : Op)
    (hv : Valid s ops) (hnd : ∀ o ∈ ops, ∀ h, o ≠ Op.delete h)
    (hk : ops[k]? = some op) :
    (op.alloc = none ↔ s.capacity ≤ countBelow s.allocated s.capacity + k) := by
  induction ops generalizing s k with
  | nil => simp at hk
  | cons o ops ih =>
    have hle := countBelow_le s.allocated s.capacity
    have hstep : (step s o).capacity = s.capacity ∧
        ((o.alloc = none ∧ countBelow s.allocated s.capacity = s.capacity ∧
            countBelow (step s o).allocated s.capacity = s.capacity) ∨
         (o.alloc ≠ none ∧ countBelow s.allocated s.capacity < s.capacity ∧
            countBelow (step s o).allocated s.capacity
              = countBelow s.allocated s.capacity + 1)) := by
      have hfull : AllocOk s none → countBelow s.allocated s.capacity = s.capacity :=
        fun h => countBelow_full _ _ h
      have hsome : ∀ addr d r, AllocOk s (some addr) →
          countBelow s.allocated s.capacity < s.capacity ∧
          countBelow (MakeHandle s (some addr) d r).1.allocated s.capacity
            = countBelow s.allocated s.capacity + 1 := by
        intro addr d r h
        refine ⟨countBelow_lt _ _ addr h.1 h.2, ?_⟩
        rw [MakeHandle_state]
        exact countBelow_flip _ _ _ addr h.1 h.2 (upd_same _ _ _)
          (fun i hi => upd_other _ _ _ _ hi)
      cases o with
      | make alloc d r =>
        cases alloc with
        | none => exact ⟨rfl, Or.inl ⟨rfl, hfull hv.1, hfull hv.1⟩⟩
        | some addr =>
          exact ⟨rfl, Or.inr ⟨by simp [Op.alloc], hsome addr d r hv.1⟩⟩
      | dup alloc src r rep =>
        obtain ⟨hal, _, _, hobj⟩ := hv.1
        cases hsrc : s.mem src with
        | raw v => rw [hsrc] at hobj; cases hobj
        | object h =>
          have hst := DupHandle_state s alloc src r rep h hsrc
          cases alloc with
          | none =>
            have e : step s (Op.dup none src r rep) = s := by
              show (DupHandle s none src r rep).1 = s
              rw [hst]; rfl
            rw [e]
            exact ⟨rfl, Or.inl ⟨rfl, hfull hal, hfull hal⟩⟩
          | some addr =>
            have e : step s (Op.dup (some addr) src r rep)
                = (MakeHandle s (some addr) h.dispatcher r).1 := hst
            rw [e]
            exact ⟨rfl, Or.inr ⟨by simp [Op.alloc], hsome addr h.dispatcher r hal⟩⟩
      | delete hd => exact absurd rfl (hnd (Op.delete hd) (List.mem_cons_self _ _) hd)
    cases k with
    | zero =>
      simp only [List.getElem?_cons_zero, Option.some.injEq] at hk
      subst hk
      rcases hstep.2 with ⟨h1, h2, _⟩ | ⟨h1, h2, _⟩
      · simp [h1, h2]
      · simp only [h1, false_iff]; omega
    | succ k =>
      simp only [List.getElem?_cons_succ] at hk
      have hih := ih (step s o) k hv.2 (fun x hx => hnd x (List.mem_cons_of_mem _ hx)) hk
      rw [hstep.1] at hih
      rw [hih]
      rcases hstep.2 with ⟨_, h2, h3⟩ | ⟨_, h2, h3⟩
      · rw [h3, h2]; constructor <;> intro <;> omega
      · rw [h3]; constructor <;> intro <;> omega

/-- C11: when `handle_arena.Alloc()` returns `nullptr`, `MakeHandle` and
`DupHandle` return `nullptr`, leave the whole state (the outstanding-handle
counter, every handle count, every arena slot) as it was and make no state
tracker call.  With the arena of `kMaxHandleCount` slots and no deletions, the
calls number `1` to `kMaxHandleCount` are not answered with exhaustion, every
later one is, and a run in which call number `kMaxHandleCount + 1` happens
exists. -/
theorem C11_exhaustion (s : State) (d r src : Nat) (rep : Bool)
    (tracker : Nat → Bool) (type : Nat → Nat) :
    ((MakeHandle s none d r).2.1 = none ∧ (MakeHandle s none d r).1 = s ∧
      (MakeHandle s none d r).2.2.countP Event.isSignal = 0) ∧
    ((DupHandle s none src r rep).2.1 = none ∧ (DupHandle s none src r rep).1 = s ∧
      (DupHandle s none src r rep).2.2.countP Event.isSignal = 0) ∧
    (∀ ops k op, Valid (magenta_init tracker type) ops →
      (∀ o ∈ ops, ∀ h, o ≠ Op.delete h) → ops[k]? = some op →
      (op.alloc = none ↔ kMaxHandleCount ≤ k)) ∧
    Valid (magenta_init tracker type) (fillOps d 0 kMaxHandleCount ++ [Op.make none d r]) := by
  refine ⟨⟨rfl, rfl, by simp [MakeHandle, Event.isSignal, List.countP_cons]⟩, ?_, ?_, ?_⟩
  · cases hsrc : s.mem src with
    | raw v => rw [DupHandle_raw s none src r rep v hsrc]; exact ⟨rfl, rfl, rfl⟩
    | object h =>
      refine ⟨?_, ?_, ?_⟩
      · unfold DupHandle; rw [hsrc]
      · rw [DupHandle_state s none src r rep h hsrc]; rfl
      · unfold DupHandle; rw [hsrc]; simp [Event.isSignal, List.countP_cons]
  · intro ops k op hv hnd hk
    have h := exhaustion_index ops (magenta_init tracker type) k op hv hnd hk
    have h0 : countBelow (magenta_init tracker type).allocated
        (magenta_init tracker type).capacity = 0 :=
      countBelow_eq_zero _ _ (fun _ _ => rfl)
    rw [h0] at h
    simpa [magenta_init] using h
  · exact fill_then_exhausted tracker type d r kMaxHandleCount rfl

/-- C11 at a concrete run: the second of two calls is not answered with
exhaustion. -/
theorem C11_exhaustion_witness :
    Valid demoInit [Op.make (some 5) 7 3, Op.dup (some 6) 5 1 false] ∧
    (∀ o ∈ [Op.make (some 5) 7 3, Op.dup (some 6) 5 1 false], ∀ h, o ≠ Op.delete h) ∧
    [Op.make (some 5) 7 3, Op.dup (some 6) 5 1 false][1]? = some (Op.dup (some 6) 5 1 false) ∧
    ((Op.dup (some 6) 5 1 false).alloc = none ↔ kMaxHandleCount ≤ 1) :=
  ⟨by decide, by simp, rfl,
    (C11_exhaustion demoInit 0 0 0 false (fun _ => true) (fun _ => 0)).2.2.1
      [Op.make (some 5) 7 3, Op.dup (some 6) 5 1 false] 1 (Op.dup (some 6) 5 1 false)
      (by decide) (by simp) rfl⟩

/-! ## Layout of a new base value -/

/-- The new base value is the slot index plus a 12-bit generation shifted
above the 18 index bits. -/
theorem GetNewHandleBaseValue_layout (s : State) (addr : Nat) (h : addr < kMaxHandleCount) :
    ∃ g, g < 4096 ∧ GetNewHandleBaseValue s addr = 262144 * g + addr ∧
      generationOf (GetNewHandleBaseValue s addr) = g := by
  rw [kMaxHandleCount_eq] at h
  refine ⟨(generationOf (s.mem addr).word0 + 1) % 4096, by omega,
    GetNewHandleBaseValue_eq s addr h, ?_⟩
  rw [(GetNewHandleBaseValue_fields s addr h).2]

/-- C16: for every slot index below `kMaxHandleCount` and every stashed value,
`GetNewHandleBaseValue` returns a 32-bit value whose bits under
`kHandleIndexMask` (bits 17..0) are the slot index, whose bits 31 and 30 are
zero, and which is made of the index and a generation number below `2^12`
placed at bits 29..18. -/
theorem C16_base_value_layout (s : State) (addr : Nat) (h : addr < kMaxHandleCount) :
    GetNewHandleBaseValue s addr < 2 ^ 32 ∧
    GetNewHandleBaseValue s addr &&& kHandleIndexMask = addr ∧
    kHandleIndexMask = 2 ^ 18 - 1 ∧
    (GetNewHandleBaseValue s addr).testBit 31 = false ∧
    (GetNewHandleBaseValue s addr).testBit 30 = false ∧
    GetNewHandleBaseValue s addr
      = generationOf (GetNewHandleBaseValue s addr) * 2 ^ 18 + addr ∧
    generationOf (GetNewHandleBaseValue s addr) < 2 ^ 12 ∧
    GetNewHandleBaseValue s addr &&& kHandleGenerationMask
      = generationOf (GetNewHandleBaseValue s addr) <<< 18 ∧
    kHandleGenerationMask = (2 ^ 12 - 1) <<< 18 := by
  obtain ⟨g, hg, hv, hgen⟩ := GetNewHandleBaseValue_layout s addr h
  have hk := kMaxHandleCount_eq
  have hidx := (GetNewHandleBaseValue_fields s addr (by omega)).1
  have hlt : GetNewHandleBaseValue s addr < 2 ^ 30 := by rw [hv]; omega
  refine ⟨by omega, hidx, kHandleIndexMask_eq, ?_, Nat.testBit_lt_two_pow hlt, ?_, ?_, ?_,
    kHandleGenerationMask_eq⟩
  · exact Nat.testBit_lt_two_pow (by omega)
  · rw [hgen, hv]; omega
  · rw [hgen]; omega
  · rw [and_generationMask, hgen, Nat.shiftLeft_eq, hv]
    have e : (262144 * g + addr) / 262144 = g := by omega
    rw [e, Nat.mod_eq_of_lt hg]
    norm_num [Nat.mul_comm]

/-- C16 at a concrete table: the base value for slot 5 after one use. -/
theorem C16_base_value_layout_witness :
    5 < kMaxHandleCount ∧
    GetNewHandleBaseValue (run demoInit [Op.make (some 5) 7 3, Op.delete 5]) 5 = 524293 ∧
    GetNewHandleBaseValue (run demoInit [Op.make (some 5) 7 3, Op.delete 5]) 5
      &&& kHandleIndexMask = 5 :=
  ⟨by decide, by decide,
    (C16_base_value_layout (run demoInit [Op.make (some 5) 7 3, Op.delete 5]) 5
      (by decide)).2.1⟩

/-- Slot 0 of a fresh table is used once, deleted and recreated `n` times, and
deleted: the base value computed for it next has generation `n + 2`. -/
theorem churn_then_delete (n : Nat) :
    Valid demoInit (Op.make (some 0) 0 0 :: (churn 0 0 n ++ [Op.delete 0])) ∧
    GetNewHandleBaseValue
        (run (run demoInit [Op.make (some 0) 0 0]) (churn 0 0 n ++ [Op.delete 0])) 0
      = 262144 * ((generationOf 262144 + n + 1) % 4096) := by
  have hv1 : Valid demoInit [Op.make (some 0) 0 0] := by decide
  have hinv := inv_run _ _ (inv_init (fun _ => true) (fun _ => 0)) hv1
  have hlive : LiveAt (run demoInit [Op.make (some 0) 0 0]) 0 ⟨0, 0, 262144⟩ := by
    decide
  obtain ⟨c1, c2, c3, hnew, c4, c5⟩ := churn_spec 0 0 n
    (run demoInit [Op.make (some 0) 0 0]) ⟨0, 0, 262144⟩ hinv hlive.1 hlive.2 (by decide)
  have hcap : (run (run demoInit [Op.make (some 0) 0 0]) (churn 0 0 n)).capacity
      = kMaxHandleCount := c3
  have hok : Op.ok (run (run demoInit [Op.make (some 0) 0 0]) (churn 0 0 n)) (Op.delete 0) := by
    refine ⟨?_, c2, ?_⟩
    · rw [hcap]; decide
    · rw [c4]; rfl
  constructor
  · refine ⟨hv1.1, ?_⟩
    show Valid (run demoInit [Op.make (some 0) 0 0]) (churn 0 0 n ++ [Op.delete 0])
    rw [valid_append]
    exact ⟨c1, hok, trivial⟩
  · rw [run_append]
    have hst := DeleteHandle_state (run (run demoInit [Op.make (some 0) 0 0]) (churn 0 0 n))
      0 hnew c4
    have hrun : run (run (run demoInit [Op.make (some 0) 0 0]) (churn 0 0 n)) [Op.delete 0]
        = (DeleteHandle (run (run demoInit [Op.make (some 0) 0 0]) (churn 0 0 n)) 0).1 := rfl
    rw [hrun, GetNewHandleBaseValue_eq _ 0 (by omega), hst]
    simp only [upd_same, Slot.word0, c5]
    show 262144 * ((generationOf (262144 * ((generationOf 262144 + n) % 4096) + 0) + 1) % 4096)
      + 0 = _
    rw [generationOf_eq (262144 * _ + 0)]
    omega

/-- C17 fails as stated: slot 0 is used, deleted and recreated 2046 times and
deleted; its stashed value then has generation 2047, and the base value
`GetNewHandleBaseValue` computes next is `2^29`, whose bit 29 is set. -/
theorem C17_bit29_counterexample :
    Valid demoInit (Op.make (some 0) 0 0 :: (churn 0 0 2046 ++ [Op.delete 0])) ∧
    GetNewHandleBaseValue
        (run (run demoInit [Op.make (some 0) 0 0]) (churn 0 0 2046 ++ [Op.delete 0])) 0
      = 2 ^ 29 ∧
    (2 ^ 29).testBit 29 = true := by
  obtain ⟨h1, h2⟩ := churn_then_delete 2046
  refine ⟨h1, ?_, by decide⟩
  rw [h2]
  decide

/-- C17, amended: for every slot index below `kMaxHandleCount` and every
stashed value, the base value returned by `GetNewHandleBaseValue` has its two
highest bits (31 and 30) equal to zero; bit 29 is the top bit of the generation
and is set exactly when the new generation is at least 2048. -/
theorem C17_two_high_bits_zero (s : State) (addr : Nat) (h : addr < kMaxHandleCount) :
    (GetNewHandleBaseValue s addr).testBit 31 = false ∧
    (GetNewHandleBaseValue s addr).testBit 30 = false ∧
    (GetNewHandleBaseValue s addr).testBit 29
      = decide (2048 ≤ generationOf (GetNewHandleBaseValue s addr)) := by
  obtain ⟨g, hg, hv, hgen⟩ := GetNewHandleBaseValue_layout s addr h
  have hk := kMaxHandleCount_eq
  have hlt : GetNewHandleBaseValue s addr < 2 ^ 30 := by rw [hv]; omega
  refine ⟨Nat.testBit_lt_two_pow (by omega), Nat.testBit_lt_two_pow hlt, ?_⟩
  rw [hgen, hv, Nat.testBit_to_div_mod]
  by_cases h2 : 2048 ≤ g
  · have : (262144 * g + addr) / 536870912 % 2 = 1 := by omega
    simp [this, h2]
  · have : (262144 * g + addr) / 536870912 % 2 = 0 := by omega
    simp [this, h2]

/-- C17, amended, at a concrete table: the base value for slot 5 after one
use. -/
theorem C17_two_high_bits_zero_witness :
    5 < kMaxHandleCount ∧
    (GetNewHandleBaseValue (run demoInit [Op.make (some 5) 7 3, Op.delete 5]) 5).testBit 31
      = false ∧
    (GetNewHandleBaseValue (run demoInit [Op.make (some 5) 7 3, Op.delete 5]) 5).testBit 30
      = false :=
  ⟨by decide,
    (C17_two_high_bits_zero (run demoInit [Op.make (some 5) 7 3, Op.delete 5]) 5
      (by decide)).1,
    (C17_two_high_bits_zero (run demoInit [Op.make (some 5) 7 3, Op.delete 5]) 5
      (by decide)).2.1⟩

/-! ## Warnings and tracker calls of a creation -/

/-- The events of a successful `MakeHandle`: the high-count warning if the new
number of outstanding handles is above the mark, then the tracker call if the
dispatcher has a tracker. -/
theorem MakeHandle_events (s : State) (addr d r : Nat) :
    (MakeHandle s (some addr) d r).2.2 =
      (if usize (s.outstanding_handles + 1) > kHighHandleCount
        then high_handle_count (usize (s.outstanding_handles + 1)) else []) ++
      (if (s.dispatchers d).has_state_tracker then
        [Event.UpdateLastHandleSignal d
          (if u32 ((s.dispatchers d).handle_count + 1) ≠ 2 then none else some d)]
       else []) := rfl

/-- The events of a successful `DupHandle` of a live handle. -/
theorem DupHandle_events (s : State) (addr src r : Nat) (rep : Bool) (h : Handle)
    (hsrc : s.mem src = Slot.object h) :
    (DupHandle s (some addr) src r rep).2.2 =
      (if usize (s.outstanding_handles + 1) > kHighHandleCount
        then high_handle_count (usize (s.outstanding_handles + 1)) else []) ++
      (if (!rep && (s.dispatchers h.dispatcher).has_state_tracker) = true then
        [Event.UpdateLastHandleSignal h.dispatcher
          (if u32 ((s.dispatchers h.dispatcher).handle_count + 1) ≠ 2 then none
            else some h.dispatcher)]
       else []) := by
  unfold DupHandle
  rw [hsrc]
  rfl

/-- The warnings among the events of a successful `MakeHandle`. -/
theorem MakeHandle_warnings (s : State) (addr d r : Nat) :
    (MakeHandle s (some addr) d r).2.2.filter Event.isHighWarning =
      (if kHighHandleCount < usize (s.outstanding_handles + 1)
        then [Event.high_handle_count (usize (s.outstanding_handles + 1))] else []) := by
  rw [MakeHandle_events, List.filter_append]
  by_cases h1 : usize (s.outstanding_handles + 1) > kHighHandleCount <;>
    cases (s.dispatchers d).has_state_tracker <;>
    simp [h1, high_handle_count, Event.isHighWarning, List.filter_cons]

/-- The tracker calls among the events of a successful `MakeHandle`. -/
theorem MakeHandle_signals (s : State) (addr d r : Nat) :
    (MakeHandle s (some addr) d r).2.2.filter Event.isSignal =
      (if (s.dispatchers d).has_state_tracker then
        [Event.UpdateLastHandleSignal d
          (if ((MakeHandle s (some addr) d r).1.dispatchers d).handle_count = 2
            then some d else none)]
       else []) := by
  rw [MakeHandle_count, MakeHandle_events, List.filter_append]
  by_cases h1 : usize (s.outstanding_handles + 1) > kHighHandleCount <;>
    cases (s.dispatchers d).has_state_tracker <;>
    by_cases h2 : u32 ((s.dispatchers d).handle_count + 1) = 2 <;>
    simp [h1, h2, high_handle_count, Event.isSignal, List.filter_cons]

/-- A table with one handle more than the warning level. -/
theorem fill_above_mark (tracker : Nat → Bool) (type : Nat → Nat) (d n : Nat)
    (hn : n = kHighHandleCount + 1) :
    Valid (magenta_init tracker type) (fillOps d 0 n) ∧
    (run (magenta_init tracker type) (fillOps d 0 n)).outstanding_handles
      = kHighHandleCount + 1 ∧
    AllocOk (run (magenta_init tracker type) (fillOps d 0 n)) (some n) := by
  have hk : kHighHandleCount + 1 < kMaxHandleCount := by decide
  obtain ⟨v, c, o, a⟩ := fill_spec tracker type d n (by omega)
  refine ⟨v, by rw [o, hn], ?_⟩
  show _ < _ ∧ _ = false
  rw [c, a n]
  exact ⟨by omega, by simp⟩

/-- C18 fails on the code: a successful `MakeHandle` prints the high-count
warning whenever the number of outstanding handles after the increment is
above `kHighHandleCount`, and `DupHandle` of a live handle does the same.  In
the table reached by creating `kHighHandleCount + 1` handles, which is above
the mark already, one more creation prints the warning again. -/
theorem C18_warning_on_every_creation_above_mark (s : State) (addr d r src : Nat)
    (rep : Bool) (tracker : Nat → Bool) (type : Nat → Nat) :
    (MakeHandle s (some addr) d r).2.2.filter Event.isHighWarning =
      (if kHighHandleCount < usize (s.outstanding_handles + 1)
        then [Event.high_handle_count (usize (s.outstanding_handles + 1))] else []) ∧
    (DupHandle s (some addr) src r rep).2.2.filter Event.isHighWarning =
      (if (s.mem src).isObject = true ∧ kHighHandleCount < usize (s.outstanding_handles + 1)
        then [Event.high_handle_count (usize (s.outstanding_handles + 1))] else []) ∧
    Valid (magenta_init tracker type) (fillOps d 0 (kHighHandleCount + 1)) ∧
    (run (magenta_init tracker type) (fillOps d 0 (kHighHandleCount + 1))).outstanding_handles
      = kHighHandleCount + 1 ∧
    AllocOk (run (magenta_init tracker type) (fillOps d 0 (kHighHandleCount + 1)))
      (some (kHighHandleCount + 1)) ∧
    (MakeHandle (run (magenta_init tracker type) (fillOps d 0 (kHighHandleCount + 1)))
        (some (kHighHandleCount + 1)) d r).2.2.filter Event.isHighWarning
      = [Event.high_handle_count (kHighHandleCount + 2)] := by
  obtain ⟨f1, f2, f3⟩ := fill_above_mark tracker type d (kHighHandleCount + 1) rfl
  refine ⟨MakeHandle_warnings s addr d r, ?_, f1, f2, f3, ?_⟩
  · cases hsrc : s.mem src with
    | raw v => rw [DupHandle_raw s (some addr) src r rep v hsrc]; simp [Slot.isObject]
    | object h =>
      rw [DupHandle_events s addr src r rep h hsrc, List.filter_append]
      by_cases h1 : usize (s.outstanding_handles + 1) > kHighHandleCount <;>
        cases (s.dispatchers h.dispatcher).has_state_tracker <;>
        cases rep <;>
        simp [h1, high_handle_count, Event.isHighWarning, List.filter_cons, Slot.isObject]
  · rw [MakeHandle_warnings, f2]
    have e : usize (kHighHandleCount + 1 + 1) = kHighHandleCount + 2 := by decide
    rw [e]
    simp

/-- C19 fails as stated: the first handle of a dispatcher with a state tracker
brings the handle count to 1, and `MakeHandle` calls `UpdateLastHandleSignal`
all the same, with a null pointer. -/
theorem C19_tracker_call_counterexample :
    (demoInit.dispatchers 7).has_state_tracker = true ∧
    ((MakeHandle demoInit (some 5) 7 3).1.dispatchers 7).handle_count = 1 ∧
    (MakeHandle demoInit (some 5) 7 3).2.2 = [Event.UpdateLastHandleSignal 7 none] := by
  decide

/-- C19, amended: a successful `MakeHandle` calls `UpdateLastHandleSignal`
exactly once when the dispatcher exposes a state tracker, whatever the new
handle count is, and not at all when it exposes none; the handle-count pointer
it passes is non-null exactly when the increment made the handle count 2.  A
`MakeHandle` whose allocation fails makes no such call. -/
theorem C19_tracker_called_for_every_count (s : State) (addr d r : Nat) :
    (MakeHandle s (some addr) d r).2.2.filter Event.isSignal =
      (if (s.dispatchers d).has_state_tracker then
        [Event.UpdateLastHandleSignal d
          (if ((MakeHandle s (some addr) d r).1.dispatchers d).handle_count = 2
            then some d else none)]
       else []) ∧
    (MakeHandle s (some addr) d r).2.2.countP Event.isSignal =
      (if (s.dispatchers d).has_state_tracker then 1 else 0) ∧
    (MakeHandle s none d r).2.2.filter Event.isSignal = [] := by
  have h := MakeHandle_signals s addr d r
  refine ⟨h, ?_, rfl⟩
  rw [List.countP_eq_length_filter, h]
  cases (s.dispatchers d).has_state_tracker <;> simp

/-- C20: for a live source handle, `DupHandle(source, rights, false)` and
`MakeHandle(dispatcher of the source, rights)` agree on the state they leave
behind (the slot taken, the handle and base value built there, the outstanding
counter, every handle count), on the handle or `nullptr` they return, on their
state tracker calls and on their high-count warnings; when the arena hands out
a slot they make the very same calls. -/
theorem C20_dup_matches_make (s : State) (alloc : Option Nat) (src r : Nat) (h : Handle)
    (hsrc : s.mem src = Slot.object h) :
    (DupHandle s alloc src r false).1 = (MakeHandle s alloc h.dispatcher r).1 ∧
    (DupHandle s alloc src r false).2.1 = (MakeHandle s alloc h.dispatcher r).2.1 ∧
    (DupHandle s alloc src r false).2.2.filter Event.isSignal
      = (MakeHandle s alloc h.dispatcher r).2.2.filter Event.isSignal ∧
    (DupHandle s alloc src r false).2.2.filter Event.isHighWarning
      = (MakeHandle s alloc h.dispatcher r).2.2.filter Event.isHighWarning ∧
    (alloc.isSome = true →
      (DupHandle s alloc src r false).2.2 = (MakeHandle s alloc h.dispatcher r).2.2) := by
  cases alloc with
  | none =>
    unfold DupHandle MakeHandle
    rw [hsrc]
    simp [Event.isSignal, Event.isHighWarning, List.filter_cons]
  | some addr =>
    have hev : (DupHandle s (some addr) src r false).2.2
        = (MakeHandle s (some addr) h.dispatcher r).2.2 := by
      unfold DupHandle MakeHandle
      rw [hsrc]
      simp
    refine ⟨DupHandle_state s (some addr) src r false h hsrc, ?_, ?_, ?_, fun _ => hev⟩
    · unfold DupHandle MakeHandle
      rw [hsrc]
    · rw [hev]
    · rw [hev]

/-- C20 at a concrete table: the handle of slot 5 is duplicated into slot 6. -/
theorem C20_dup_matches_make_witness :
    (run demoInit [Op.make (some 5) 7 3]).mem 5 = Slot.object ⟨7, 3, 262149⟩ ∧
    (DupHandle (run demoInit [Op.make (some 5) 7 3]) (some 6) 5 1 false).2.1
      = (MakeHandle (run demoInit [Op.make (some 5) 7 3]) (some 6) 7 1).2.1 ∧
    (DupHandle (run demoInit [Op.make (some 5) 7 3]) (some 6) 5 1 false).2.2
      = (MakeHandle (run demoInit [Op.make (some 5) 7 3]) (some 6) 7 1).2.2 :=
  ⟨by decide,
    (C20_dup_matches_make (run demoInit [Op.make (some 5) 7 3]) (some 6) 5 1 ⟨7, 3, 262149⟩
      (by decide)).2.1,
    (C20_dup_matches_make (run demoInit [Op.make (some 5) 7 3]) (some 6) 5 1 ⟨7, 3, 262149⟩
      (by decide)).2.2.2.2 rfl⟩

/-! ## The out-of-memory job selector -/

theorem kills_append (a b : List OomEvent) : kills (a ++ b) = kills a ++ kills b := by
  induction a with
  | nil => rfl
  | cons e es ih => cases e <;> simp [kills, ih]

/-- Enumerating the descendants of a job calls `Kill` on nothing, never stops
early, and adds the number of running processes to the counter. -/
theorem enumerate_spec (ds : List Descendant) (e : OmmJobEnumerator) :
    kills (EnumerateChildren e ds).2.1 = [] ∧
    (e.num_running_processes_ + ds.length < 2 ^ 64 →
      (EnumerateChildren e ds).1.num_running_processes_
        = e.num_running_processes_ + ds.countP Descendant.isRunning) := by
  induction ds generalizing e with
  | nil => exact ⟨rfl, fun _ => rfl⟩
  | cons d ds ih =>
    cases d with
    | job koid =>
      obtain ⟨h1, h2⟩ := ih (e.OnJob koid).1
      constructor
      · simp only [EnumerateChildren, OmmJobEnumerator.OnJob, if_true, kills_append]
        simp only [OmmJobEnumerator.OnJob] at h1
        rw [h1]
        cases e.printing <;> simp [kills]
      · intro hb
        simp only [List.length_cons] at hb
        simp only [EnumerateChildren, OmmJobEnumerator.OnJob, if_true]
        simp only [OmmJobEnumerator.OnJob] at h2
        rw [h2 (by omega)]
        simp [Descendant.isRunning]
    | process koid info =>
      obtain ⟨h1, h2⟩ := ih (e.OnProcess koid info).1
      constructor
      · simp only [EnumerateChildren, OmmJobEnumerator.OnProcess, if_true, kills_append]
        simp only [OmmJobEnumerator.OnProcess] at h1
        rw [h1]
        cases e.printing <;> simp [kills]
      · intro hb
        simp only [List.length_cons] at hb
        simp only [EnumerateChildren, OmmJobEnumerator.OnProcess, if_true]
        simp only [OmmJobEnumerator.OnProcess] at h2
        by_cases hr : (info.started && !info.exited && !info.debugger_attached) = true
        · have hcnt := List.countP_le_length Descendant.isRunning (l := ds)
          have hu : usize (e.num_running_processes_ + 1) = e.num_running_processes_ + 1 := by
            unfold usize; omega
          simp only [hr, if_true] at h2 ⊢
          rw [h2 (by rw [hu]; omega), hu]
          simp [Descendant.isRunning, hr, List.countP_cons]
          omega
        · simp only [hr] at h2 ⊢
          rw [h2 (by simp only [Bool.false_eq_true, if_false]; omega)]
          simp [Descendant.isRunning, hr, List.countP_cons]

/-- The count the callback bases its decision on is the number of running
descendant processes of the job. -/
theorem counted_running (job : Job) (e : OmmJobEnumerator)
    (hb : job.descendants.length < 2 ^ 64) :
    (EnumerateChildren e.reset_counts job.descendants).1.num_running_processes_
      = runningDescendants job := by
  have h := (enumerate_spec job.descendants e.reset_counts).2
    (by simp only [OmmJobEnumerator.reset_counts]; omega)
  rw [h]
  simp [OmmJobEnumerator.reset_counts, runningDescendants]

/-- One call of the callback once a job has been killed: nothing is killed and
the flag stays set. -/
theorem callback_after_kill (st : OomState) (job : Job) (hk : st.killed = true) :
    (oom_callback st job).1.killed = true ∧
    kills (oom_callback st job).1.log = kills st.log := by
  unfold oom_callback
  simp [hk, kills_append, kills]

/-- One call of the callback while no job has been killed: the job is killed
exactly when it has a running descendant process, and the walk goes on. -/
theorem callback_before_kill (st : OomState) (job : Job) (hk : st.killed = false)
    (hb : job.descendants.length < 2 ^ 64) :
    (oom_callback st job).2 = MX_OK ∧
    (oom_callback st job).1.killed = hasRunning job ∧
    kills (oom_callback st job).1.log
      = kills st.log ++ (if hasRunning job then [job.koid] else []) := by
  have hc := counted_running job st.job_counter hb
  have hp := (enumerate_spec job.descendants st.job_printer.reset_counts).1
  have hq := (enumerate_spec job.descendants st.job_counter.reset_counts).1
  unfold oom_callback
  by_cases hr : 0 < runningDescendants job
  · simp [hk, hc, hr, hasRunning, kills_append, kills, hp, hq]
  · simp [hk, hc, hr, hasRunning, kills_append, kills, hp, hq]

theorem walk_after_kill (jobs : List Job) (st : OomState) (hk : st.killed = true) :
    kills (ForEachJobByImportance oom_callback st jobs).log = kills st.log := by
  induction jobs generalizing st with
  | nil => rfl
  | cons job jobs ih =>
    obtain ⟨h1, h2⟩ := callback_after_kill st job hk
    simp only [ForEachJobByImportance]
    split
    · rw [ih _ h1, h2]
    · exact h2

/-- The walk kills the first job with a running descendant process and no
other. -/
theorem walk_before_kill (jobs : List Job) (st : OomState) (hk : st.killed = false)
    (hb : ∀ j ∈ jobs, j.descendants.length < 2 ^ 64) :
    kills (ForEachJobByImportance oom_callback st jobs).log
      = kills st.log ++
        (match jobs.find? hasRunning with
          | some j => [j.koid]
          | none => []) := by
  induction jobs generalizing st with
  | nil => simp [ForEachJobByImportance]
  | cons job jobs ih =>
    obtain ⟨h1, h2, h3⟩ := callback_before_kill st job hk (hb job (List.mem_cons_self _ _))
    simp only [ForEachJobByImportance, h1, if_true]
    by_cases hr : hasRunning job = true
    · rw [walk_after_kill jobs _ (by rw [h2, hr]), h3]
      simp [hr, List.find?_cons]
    · have hr2 : hasRunning job = false := by simpa using hr
      rw [ih _ (by rw [h2, hr2]) (fun j hj => hb j (List.mem_cons_of_mem _ hj)), h3]
      simp [hr2, List.find?_cons]

theorem oom_kills (shortfall_bytes : Nat) (jobs : List Job)
    (hb : ∀ j ∈ jobs, j.descendants.length < 2 ^ 64) :
    kills (oom_lowmem shortfall_bytes jobs).log =
      (match jobs.find? hasRunning with
        | some j => [j.koid]
        | none => []) := by
  unfold oom_lowmem
  rw [walk_before_kill jobs _ rfl hb]
  rfl

/-- C13: for every sequence of jobs that `ForEachJobByImportance` delivers,
`oom_lowmem` calls `Kill` on the first job of the sequence that has at least
one running descendant process and on no other job, so on at most one job. -/
theorem C13_first_running_job_killed (shortfall_bytes : Nat) (jobs : List Job)
    (hb : ∀ j ∈ jobs, j.descendants.length < 2 ^ 64) :
    kills (oom_lowmem shortfall_bytes jobs).log =
      (match jobs.find? hasRunning with
        | some j => [j.koid]
        | none => []) ∧
    (kills (oom_lowmem shortfall_bytes jobs).log).length ≤ 1 := by
  have h := oom_kills shortfall_bytes jobs hb
  refine ⟨h, ?_⟩
  rw [h]
  split <;> simp

/-- C13 at a concrete walk: job 1 has only a debugged process, job 2 and job 4
have a running one, job 3 is empty. -/
theorem C13_first_running_job_killed_witness :
    (∀ j ∈ [(⟨1, [Descendant.process 10 ⟨true, false, true⟩, Descendant.job 11]⟩ : Job),
        ⟨2, [Descendant.process 20 ⟨true, false, false⟩]⟩, ⟨3, []⟩,
        ⟨4, [Descendant.process 40 ⟨true, false, false⟩]⟩],
      j.descendants.length < 2 ^ 64) ∧
    kills (oom_lowmem 4096
      [⟨1, [Descendant.process 10 ⟨true, false, true⟩, Descendant.job 11]⟩,
        ⟨2, [Descendant.process 20 ⟨true, false, false⟩]⟩, ⟨3, []⟩,
        ⟨4, [Descendant.process 40 ⟨true, false, false⟩]⟩]).log = [2] :=
  ⟨by decide,
    (C13_first_running_job_killed 4096
      [⟨1, [Descendant.process 10 ⟨true, false, true⟩, Descendant.job 11]⟩,
        ⟨2, [Descendant.process 20 ⟨true, false, false⟩]⟩, ⟨3, []⟩,
        ⟨4, [Descendant.process 40 ⟨true, false, false⟩]⟩] (by decide)).1.trans (by decide)⟩

/-- A job all of whose processes are attached to a debugger has no running
descendant process. -/
theorem debugged_not_running (job : Job)
    (hdbg : ∀ k info, Descendant.process k info ∈ job.descendants →
      info.debugger_attached = true) :
    hasRunning job = false := by
  have h0 : runningDescendants job = 0 := by
    unfold runningDescendants
    rw [List.countP_eq_zero]
    intro d hd
    cases d with
    | job k => simp [Descendant.isRunning]
    | process k info => simp [Descendant.isRunning, hdbg k info hd]
  simp [hasRunning, h0]

/-- C14: `oom_lowmem` calls `Kill` only on jobs that have a running descendant
process (started, not exited, not attached to a debugger); of a job whose
processes are all attached to a debugger and a job with one running process it
kills the second, whichever comes first; and when no job has a running
descendant process it kills nothing. -/
theorem C14_only_jobs_with_running_processes (shortfall_bytes : Nat) (jobs : List Job)
    (A B : Job) (hb : ∀ j ∈ jobs, j.descendants.length < 2 ^ 64)
    (hA : A.descendants.length < 2 ^ 64) (hB : B.descendants.length < 2 ^ 64)
    (hdbg : ∀ k info, Descendant.process k info ∈ A.descendants →
      info.debugger_attached = true)
    (hrun : runningDescendants B = 1) :
    (∀ k ∈ kills (oom_lowmem shortfall_bytes jobs).log,
      ∃ j ∈ jobs, j.koid = k ∧ 0 < runningDescendants j) ∧
    kills (oom_lowmem shortfall_bytes [A, B]).log = [B.koid] ∧
    kills (oom_lowmem shortfall_bytes [B, A]).log = [B.koid] ∧
    ((∀ j ∈ jobs, runningDescendants j = 0) →
      kills (oom_lowmem shortfall_bytes jobs).log = []) := by
  have hAr := debugged_not_running A hdbg
  have hBr : hasRunning B = true := by simp [hasRunning, hrun]
  refine ⟨?_, ?_, ?_, ?_⟩
  · intro k hk
    rw [oom_kills shortfall_bytes jobs hb] at hk
    split at hk
    · next j hj =>
      simp only [List.mem_singleton] at hk
      have hm := List.mem_of_find?_eq_some hj
      have hp := List.find?_some hj
      refine ⟨j, hm, hk.symm, ?_⟩
      simpa [hasRunning] using hp
    · simp at hk
  · rw [oom_kills shortfall_bytes [A, B] (by
      intro j hj
      simp only [List.mem_cons, List.mem_singleton, List.not_mem_nil, or_false] at hj
      rcases hj with rfl | rfl
      · exact hA
      · exact hB)]
    simp [List.find?_cons, hAr, hBr]
  · rw [oom_kills shortfall_bytes [B, A] (by
      intro j hj
      simp only [List.mem_cons, List.mem_singleton, List.not_mem_nil, or_false] at hj
      rcases hj with rfl | rfl
      · exact hB
      · exact hA)]
    simp [List.find?_cons, hBr]
  · intro hnone
    rw [oom_kills shortfall_bytes jobs hb]
    have hf : jobs.find? hasRunning = none := by
      rw [List.find?_eq_none]
      intro j hj
      simp [hasRunning, hnone j hj]
    rw [hf]

/-- C14 at a concrete walk: job 1 has only a debugged process and job 2 has one
running process. -/
theorem C14_only_jobs_with_running_processes_witness :
    (∀ j ∈ [(⟨3, []⟩ : Job)], j.descendants.length < 2 ^ 64) ∧
    (∀ k info, Descendant.process k info
        ∈ (⟨1, [Descendant.process 10 ⟨true, false, true⟩, Descendant.job 11]⟩ : Job).descendants →
      info.debugger_attached = true) ∧
    runningDescendants ⟨2, [Descendant.process 20 ⟨true, false, false⟩]⟩ = 1 ∧
    kills (oom_lowmem 4096
      [⟨1, [Descendant.process 10 ⟨true, false, true⟩, Descendant.job 11]⟩,
        ⟨2, [Descendant.process 20 ⟨true, false, false⟩]⟩]).log = [2] ∧
    kills (oom_lowmem 4096
      [⟨2, [Descendant.process 20 ⟨true, false, false⟩]⟩,
        ⟨1, [Descendant.process 10 ⟨true, false, true⟩, Descendant.job 11]⟩]).log = [2] ∧
    kills (oom_lowmem 4096 [⟨3, []⟩]).log = [] :=
  ⟨by decide, by simp, by decide,
    (C14_only_jobs_with_running_processes 4096 [⟨3, []⟩]
      ⟨1, [Descendant.process 10 ⟨true, false, true⟩, Descendant.job 11]⟩
      ⟨2, [Descendant.process 20 ⟨true, false, false⟩]⟩
      (by decide) (by decide) (by decide) (by simp) (by decide)).2.1,
    (C14_only_jobs_with_running_processes 4096 [⟨3, []⟩]
      ⟨1, [Descendant.process 10 ⟨true, false, true⟩, Descendant.job 11]⟩
      ⟨2, [Descendant.process 20 ⟨true, false, false⟩]⟩
      (by decide) (by decide) (by decide) (by simp) (by decide)).2.2.1,
    (C14_only_jobs_with_running_processes 4096 [⟨3, []⟩]
      ⟨1, [Descendant.process 10 ⟨true, false, true⟩, Descendant.job 11]⟩
      ⟨2, [Descendant.process 20 ⟨true, false, false⟩]⟩
      (by decide) (by decide) (by decide) (by simp) (by decide)).2.2.2 (by decide)⟩

/-! ## Exhaustion seen by the system calls -/

/-- C15 fails on the code: with every step before `MakeHandle` succeeding and
`MakeHandle` returning `nullptr`, `sys_vmo_create_contiguous` and
`sys_vmo_create_physical` return `MX_ERR_NO_MEMORY` and add nothing to the
process, while `sys_interrupt_create`, `sys_iommu_create` (on both of its
paths) and `sys_bti_create` go on without a check: they hand the null handle
to `MapHandleToValue` and `AddHandle` and return that value or `MX_OK`. -/
theorem C15_null_handle_not_checked (s : State) (d r : Nat) (map_value : Option Nat → Int) :
    ((sys_vmo_create_contiguous s 12 id 4096 0 MX_OK MX_OK MX_OK 4096 MX_OK d r none
        map_value MX_OK).status = MX_ERR_NO_MEMORY ∧
      addedHandles (sys_vmo_create_contiguous s 12 id 4096 0 MX_OK MX_OK MX_OK 4096 MX_OK d r
        none map_value MX_OK).trace = []) ∧
    ((sys_vmo_create_physical s MX_OK MX_OK MX_OK d r none map_value MX_OK).status
        = MX_ERR_NO_MEMORY ∧
      addedHandles (sys_vmo_create_physical s MX_OK MX_OK MX_OK d r none map_value
        MX_OK).trace = []) ∧
    ((sys_interrupt_create s MX_OK MX_OK d r none map_value).status = map_value none ∧
      addedHandles (sys_interrupt_create s MX_OK MX_OK d r none map_value).trace = [none]) ∧
    ((sys_iommu_create s none MX_OK MX_IOMMU_TYPE_DUMMY 0 true MX_OK MX_OK d r none map_value
        MX_OK).1.status = MX_OK ∧
      addedHandles (sys_iommu_create s none MX_OK MX_IOMMU_TYPE_DUMMY 0 true MX_OK MX_OK d r
        none map_value MX_OK).1.trace = [none]) ∧
    ((sys_iommu_create s (some (d, r)) MX_OK MX_IOMMU_TYPE_DUMMY 0 true MX_OK MX_OK d r none
        map_value MX_OK).1.status = MX_OK ∧
      addedHandles (sys_iommu_create s (some (d, r)) MX_OK MX_IOMMU_TYPE_DUMMY 0 true MX_OK
        MX_OK d r none map_value MX_OK).1.trace = [none]) ∧
    ((sys_bti_create s MX_OK MX_OK d r none map_value MX_OK).status = MX_OK ∧
      addedHandles (sys_bti_create s MX_OK MX_OK d r none map_value MX_OK).trace = [none]) := by
  refine ⟨⟨?_, ?_⟩, ⟨?_, ?_⟩, ⟨?_, ?_⟩, ⟨?_, ?_⟩, ⟨?_, ?_⟩, ⟨?_, ?_⟩⟩ <;>
    simp [sys_vmo_create_contiguous, sys_vmo_create_physical, sys_interrupt_create,
      sys_iommu_create, sys_bti_create, MakeHandle, MX_OK, MX_ERR_NO_MEMORY,
      MX_IOMMU_TYPE_DUMMY, MX_IOMMU_MAX_DESC_LEN, addedHandles]

/-! ## The value stashed in a free slot -/

theorem allocCount_append (i : Nat) (a b : List Op) :
    allocCount i (a ++ b) = allocCount i a + allocCount i b := by
  induction a with
  | nil => simp [allocCount]
  | cons op ops ih =>
    show (if op.alloc = some i then 1 else 0) + allocCount i (ops ++ b) =
      (if op.alloc = some i then 1 else 0) + allocCount i ops + allocCount i b
    rw [ih]
    omega

theorem allocCount_churn (i d n : Nat) : allocCount i (churn i d n) = n := by
  induction n with
  | zero => rfl
  | succ n ih => simp only [churn, allocCount, Op.alloc, ih]; simp; omega

/-- Slot 0 of a fresh table is used once, deleted and recreated `n` times, and
deleted: the value stashed in it is the base value of generation `n + 1`
modulo the number of generations, and the slot was handed out `n + 1` times. -/
theorem churn_delete_stash (n : Nat) :
    Valid demoInit (Op.make (some 0) 0 0 :: (churn 0 0 n ++ [Op.delete 0])) ∧
    (run (run demoInit [Op.make (some 0) 0 0]) (churn 0 0 n ++ [Op.delete 0])).mem 0
      = Slot.raw (262144 * ((generationOf 262144 + n) % 4096)) ∧
    (run (run demoInit [Op.make (some 0) 0 0]) (churn 0 0 n ++ [Op.delete 0])).allocated 0
      = false ∧
    allocCount 0 (Op.make (some 0) 0 0 :: (churn 0 0 n ++ [Op.delete 0])) = n + 1 := by
  have hv1 : Valid demoInit [Op.make (some 0) 0 0] := by decide
  have hinv := inv_run _ _ (inv_init (fun _ => true) (fun _ => 0)) hv1
  have hlive : LiveAt (run demoInit [Op.make (some 0) 0 0]) 0 ⟨0, 0, 262144⟩ := by
    decide
  obtain ⟨c1, c2, c3, hnew, c4, c5⟩ := churn_spec 0 0 n
    (run demoInit [Op.make (some 0) 0 0]) ⟨0, 0, 262144⟩ hinv hlive.1 hlive.2 (by decide)
  have hcap : (run (run demoInit [Op.make (some 0) 0 0]) (churn 0 0 n)).capacity
      = kMaxHandleCount := c3
  have hok : Op.ok (run (run demoInit [Op.make (some 0) 0 0]) (churn 0 0 n)) (Op.delete 0) := by
    refine ⟨?_, c2, ?_⟩
    · rw [hcap]; decide
    · rw [c4]; rfl
  have hst := DeleteHandle_state (run (run demoInit [Op.make (some 0) 0 0]) (churn 0 0 n))
    0 hnew c4
  have hrun : run (run demoInit [Op.make (some 0) 0 0]) (churn 0 0 n ++ [Op.delete 0])
      = (DeleteHandle (run (run demoInit [Op.make (some 0) 0 0]) (churn 0 0 n)) 0).1 := by
    rw [run_append]; rfl
  refine ⟨⟨hv1.1, ?_⟩, ?_, ?_, ?_⟩
  · show Valid (run demoInit [Op.make (some 0) 0 0]) (churn 0 0 n ++ [Op.delete 0])
    rw [valid_append]
    exact ⟨c1, hok, trivial⟩
  · rw [hrun, hst]
    simp only [upd_same, c5, Nat.add_zero]
  · rw [hrun, hst]
    simp only [upd_same]
  · simp only [allocCount, allocCount_append, allocCount_churn, Op.alloc]
    simp
    omega

/-- C21 fails on the code: slot 0 of a fresh table is handed out 4096 times and
its last handle, of generation 0 and hence with base value 0, is deleted.  The
value stashed in the free slot is then zero although the slot has been used,
and `GetNewHandleBaseValue` takes its branch "first time this slot has been
allocated" and issues the very first base value of the slot again. -/
theorem C21_zero_stash_in_used_slot :
    Valid demoInit (Op.make (some 0) 0 0 :: (churn 0 0 4095 ++ [Op.delete 0])) ∧
    allocCount 0 (Op.make (some 0) 0 0 :: (churn 0 0 4095 ++ [Op.delete 0])) = 4096 ∧
    (run (run demoInit [Op.make (some 0) 0 0]) (churn 0 0 4095 ++ [Op.delete 0])).allocated 0
      = false ∧
    (run (run demoInit [Op.make (some 0) 0 0]) (churn 0 0 4095 ++ [Op.delete 0])).mem 0
      = Slot.raw 0 ∧
    GetNewHandleBaseValue
      (run (run demoInit [Op.make (some 0) 0 0]) (churn 0 0 4095 ++ [Op.delete 0])) 0
      = GetNewHandleBaseValue demoInit 0 := by
  obtain ⟨h1, h2, h3, h4⟩ := churn_delete_stash 4095
  have h5 := (churn_then_delete 4095).2
  have e1 : Slot.raw (262144 * ((generationOf 262144 + 4095) % 4096)) = Slot.raw 0 := by
    decide
  have e2 : 262144 * ((generationOf 262144 + 4095 + 1) % 4096)
      = GetNewHandleBaseValue demoInit 0 := by
    decide
  exact ⟨h1, h4, h3, h2.trans e1, h5.trans e2⟩

/-- In every state reached from the zeroed arena, the value stashed in a free
slot is zero when the slot has never been handed out; when it has been handed
out `n` times the value is made of the generation `n mod 4096` and the index of
the slot, so it is zero exactly for slot 0 after a multiple of 4096 uses. -/
theorem stash_of_used_slot (tracker : Nat → Bool) (type : Nat → Nat) (ops : List Op)
    (i v : Nat) (hv : Valid (magenta_init tracker type) ops)
    (hraw : (run (magenta_init tracker type) ops).mem i = Slot.raw v) :
    (allocCount i ops = 0 → v = 0) ∧
    (0 < allocCount i ops → v = 262144 * (allocCount i ops % 4096) + i) := by
  have hinv := inv_init tracker type
  constructor
  · intro h0
    have hfr := run_raw_frame ops (magenta_init tracker type) i 0 rfl (allocCount_zero i ops h0)
    rw [hfr] at hraw
    exact (Slot.raw.inj hraw).symm
  · intro hpos
    have hidx : indexOf v = i :=
      run_stash_index ops _ i hinv hv (Or.inr hpos) v hraw
    have hgen := (generation_run ops _ i hinv hv).1
    rw [hraw, lastIssued_raw] at hgen
    have hg0 : generationOf (lastIssued ((magenta_init tracker type).mem i)) = 0 := by
      show generationOf 0 = 0
      decide
    rw [hg0, Nat.zero_add] at hgen
    have hb := issued_lt_of_reachable _ ⟨tracker, type, ops, hv, rfl⟩ i
    rw [hraw, lastIssued_raw] at hb
    have hsplit := base_value_split v hb
    rw [hidx, hgen] at hsplit
    exact hsplit

/-- C22: in every state reached from the zeroed arena by `MakeHandle`,
`DupHandle` and `DeleteHandle`, a slot the arena can hand out holds unformed
memory whose stashed value is 0 or has the index of the slot in its bits under
`kHandleIndexMask`; so both assertions of `GetNewHandleBaseValue` hold when
`MakeHandle` or `DupHandle` computes the base value for it. -/
theorem C22_stash_index_matches (s : State) (addr : Nat) (hs : Reachable s)
    (hfree : AllocOk s (some addr)) :
    (∃ v, s.mem addr = Slot.raw v ∧ (v = 0 ∨ v &&& kHandleIndexMask = addr)) ∧
    GetNewHandleBaseValue_asserts (arenaAlloc s addr) addr = true := by
  have hinv := inv_of_reachable s hs
  have hobj : (s.mem addr).isObject = false := by rw [← hinv.live addr]; exact hfree.2
  have hlt : addr < 262144 := by
    have := hfree.1
    rw [hinv.cap, kMaxHandleCount_eq] at this
    exact this
  cases hm : s.mem addr with
  | object h => rw [hm] at hobj; cases hobj
  | raw v =>
    have hst := hinv.stash addr v hm
    unfold indexOf at hst
    refine ⟨⟨v, rfl, hst⟩, ?_⟩
    have hu : u32 addr = addr := by unfold u32; omega
    have h1 : addr &&& not32 kHandleIndexMask = 0 := by
      have e : not32 kHandleIndexMask = (2 ^ 14 - 1) <<< 18 := by decide
      rw [e]
      apply Nat.eq_of_testBit_eq
      intro j
      simp only [Nat.testBit_and, Nat.testBit_shiftLeft, Nat.zero_testBit]
      by_cases hj : 18 ≤ j
      · have : addr < 2 ^ j :=
          Nat.lt_of_lt_of_le (by omega : addr < 2 ^ 18) (Nat.pow_le_pow_right (by omega) hj)
        simp [Nat.testBit_lt_two_pow this]
      · simp [hj]
    unfold GetNewHandleBaseValue_asserts
    show (decide (u32 addr &&& not32 kHandleIndexMask = 0) &&
      (decide ((s.mem addr).word0 = 0) ||
        decide ((s.mem addr).word0 &&& kHandleIndexMask = u32 addr))) = true
    rw [hu, hm, h1]
    simp only [Slot.word0, decide_True, Bool.true_and, Bool.or_eq_true, decide_eq_true_eq]
    exact hst

/-- C22 at a concrete table: slot 5 after one use. -/
theorem C22_stash_index_matches_witness :
    Reachable (run demoInit [Op.make (some 5) 7 3, Op.delete 5]) ∧
    AllocOk (run demoInit [Op.make (some 5) 7 3, Op.delete 5]) (some 5) ∧
    (run demoInit [Op.make (some 5) 7 3, Op.delete 5]).mem 5 = Slot.raw 262149 ∧
    GetNewHandleBaseValue_asserts
      (arenaAlloc (run demoInit [Op.make (some 5) 7 3, Op.delete 5]) 5) 5 = true :=
  ⟨⟨fun _ => true, fun _ => 0, [Op.make (some 5) 7 3, Op.delete 5], by decide, rfl⟩,
    by decide, by decide,
    (C22_stash_index_matches (run demoInit [Op.make (some 5) 7 3, Op.delete 5]) 5
      ⟨fun _ => true, fun _ => 0, [Op.make (some 5) 7 3, Op.delete 5], by decide, rfl⟩
      (by decide)).2⟩

/-! ## Closing on deletion -/

/-- C23: `DeleteHandle` calls `Cancel(handle)` of the state tracker exactly
once and `Close` not at all when the dispatcher has a state tracker; without a
state tracker it calls `Close` once when the type of the dispatcher is
`MX_OBJ_TYPE_IOMAP` and makes neither call for any other type. -/
theorem C23_cancel_or_close (s : State) (handle : Nat) (h : Handle)
    (hobj : s.mem handle = Slot.object h) :
    (DeleteHandle s handle).2.filter (fun e => e.isCancel || e.isClose) =
      (if (s.dispatchers h.dispatcher).has_state_tracker then
        [Event.Cancel h.dispatcher handle]
       else if (s.dispatchers h.dispatcher).type = MX_OBJ_TYPE_IOMAP then
        [Event.Close h.dispatcher]
       else []) := by
  unfold DeleteHandle
  rw [hobj]
  simp only [show (2 : Nat) ^ 32 - 1 = 4294967295 by norm_num]
  by_cases hz : u32 ((s.dispatchers h.dispatcher).handle_count + 4294967295) = 0 <;>
    cases htr : (s.dispatchers h.dispatcher).has_state_tracker <;>
    by_cases hty : (s.dispatchers h.dispatcher).type = MX_OBJ_TYPE_IOMAP <;>
    simp [hz, hty, Event.isCancel, Event.isClose, List.filter_cons]

/-- C23 at a concrete table: a handle of a dispatcher with a state tracker. -/
theorem C23_cancel_or_close_witness :
    (run demoInit [Op.make (some 5) 7 3]).mem 5 = Slot.object ⟨7, 3, 262149⟩ ∧
    (DeleteHandle (run demoInit [Op.make (some 5) 7 3]) 5).2.filter
      (fun e => e.isCancel || e.isClose) = [Event.Cancel 7 5] :=
  ⟨by decide,
    (C23_cancel_or_close (run demoInit [Op.make (some 5) 7 3]) 5 ⟨7, 3, 262149⟩
      (by decide)).trans (by decide)⟩

/-! ## The outstanding-handle counter -/

theorem countBelow_pos (p : Nat → Bool) (n a : Nat) (ha : a < n) (hp : p a = true) :
    0 < countBelow p n := by
  have hflip := countBelow_flip (upd p a false) p n a ha (upd_same _ _ _) hp
    (fun i hi => (upd_other _ _ _ _ hi).symm)
  omega

theorem MakeHandle_outstanding (s : State) (addr d r : Nat) :
    (MakeHandle s (some addr) d r).1.outstanding_handles
      = usize (s.outstanding_handles + 1) :=
  rfl

theorem DeleteHandle_outstanding (s : State) (hd : Nat) (h : Handle)
    (hmem : s.mem hd = Slot.object h) :
    (DeleteHandle s hd).1.outstanding_handles
      = usize (s.outstanding_handles + (2 ^ 64 - 1)) := by
  rw [DeleteHandle_state s hd h hmem]

/-- C25: in every reachable state `OutstandingHandles()` is the number of live
handles; a successful `MakeHandle` or `DupHandle` raises it by exactly 1, a
`DeleteHandle` lowers it by exactly 1 (it is positive before), and a failed
allocation leaves it as it is. -/
theorem C25_outstanding_is_live_count (s : State) (hs : Reachable s) :
    OutstandingHandles s = liveHandles s ∧
    (∀ addr d r, AllocOk s (some addr) →
      OutstandingHandles (MakeHandle s (some addr) d r).1 = OutstandingHandles s + 1) ∧
    (∀ addr src r rep, Op.ok s (Op.dup (some addr) src r rep) →
      OutstandingHandles (DupHandle s (some addr) src r rep).1 = OutstandingHandles s + 1) ∧
    (∀ handle, Op.ok s (Op.delete handle) →
      0 < OutstandingHandles s ∧
      OutstandingHandles (DeleteHandle s handle).1 = OutstandingHandles s - 1) ∧
    (∀ d r, OutstandingHandles (MakeHandle s none d r).1 = OutstandingHandles s) ∧
    (∀ src r rep, OutstandingHandles (DupHandle s none src r rep).1 = OutstandingHandles s) := by
  have hinv := inv_of_reachable s hs
  have hcap := hinv.cap
  rw [kMaxHandleCount_eq] at hcap
  have hle := countBelow_le s.allocated s.capacity
  have ho := hinv.outstanding
  have hmake : ∀ addr d r,
      OutstandingHandles (MakeHandle s (some addr) d r).1 = OutstandingHandles s + 1 := by
    intro addr d r
    have e : OutstandingHandles (MakeHandle s (some addr) d r).1
        = usize (s.outstanding_handles + 1) := MakeHandle_outstanding s addr d r
    have e2 : usize (s.outstanding_handles + 1) = s.outstanding_handles + 1 := by
      unfold usize
      omega
    exact e.trans e2
  refine ⟨?_, fun addr d r _ => hmake addr d r, ?_, ?_, fun _ _ => rfl, ?_⟩
  · show s.outstanding_handles = countBelow _ s.capacity
    rw [ho]
    symm
    apply countBelow_congr
    intro i _
    rw [← hinv.live i]
    simp
  · intro addr src r rep hok
    obtain ⟨_, _, _, hobj⟩ := hok
    cases hsrc : s.mem src with
    | raw v => rw [hsrc] at hobj; cases hobj
    | object h =>
      exact (congrArg OutstandingHandles (DupHandle_state s (some addr) src r rep h hsrc)).trans
        (hmake addr h.dispatcher r)
  · intro handle hok
    obtain ⟨hlt, halloc, hobj⟩ := hok
    have hpos := countBelow_pos s.allocated s.capacity handle hlt halloc
    cases hm : s.mem handle with
    | raw v => rw [hm] at hobj; cases hobj
    | object h =>
      have hp : 0 < s.outstanding_handles := by omega
      have e : OutstandingHandles (DeleteHandle s handle).1
          = usize (s.outstanding_handles + (2 ^ 64 - 1)) :=
        DeleteHandle_outstanding s handle h hm
      have e2 : usize (s.outstanding_handles + (2 ^ 64 - 1)) = s.outstanding_handles - 1 := by
        unfold usize
        omega
      exact ⟨hp, e.trans e2⟩
  · intro src r rep
    cases hsrc : s.mem src with
    | raw v => exact congrArg (fun x => OutstandingHandles x.1) (DupHandle_raw s none src r rep v hsrc)
    | object h => exact congrArg OutstandingHandles (DupHandle_state s none src r rep h hsrc)

/-- C25 at a concrete table with two live handles, one of which is deleted. -/
theorem C25_outstanding_is_live_count_witness :
    Reachable (run demoInit [Op.make (some 5) 7 3, Op.dup (some 6) 5 1 false]) ∧
    OutstandingHandles (run demoInit [Op.make (some 5) 7 3, Op.dup (some 6) 5 1 false]) = 2 ∧
    liveHandles (run demoInit [Op.make (some 5) 7 3, Op.dup (some 6) 5 1 false]) = 2 ∧
    Op.ok (run demoInit [Op.make (some 5) 7 3, Op.dup (some 6) 5 1 false]) (Op.delete 5) ∧
    OutstandingHandles
      (DeleteHandle (run demoInit [Op.make (some 5) 7 3, Op.dup (some 6) 5 1 false]) 5).1
      = 2 - 1 :=
  ⟨⟨fun _ => true, fun _ => 0, [Op.make (some 5) 7 3, Op.dup (some 6) 5 1 false],
      by decide, rfl⟩,
    by decide,
    (C25_outstanding_is_live_count
      (run demoInit [Op.make (some 5) 7 3, Op.dup (some 6) 5 1 false])
      ⟨fun _ => true, fun _ => 0, [Op.make (some 5) 7 3, Op.dup (some 6) 5 1 false],
        by decide, rfl⟩).1.symm.trans (by decide),
    by decide,
    ((C25_outstanding_is_live_count
      (run demoInit [Op.make (some 5) 7 3, Op.dup (some 6) 5 1 false])
      ⟨fun _ => true, fun _ => 0, [Op.make (some 5) 7 3, Op.dup (some 6) 5 1 false],
        by decide, rfl⟩).2.2.2.1 5 (by decide)).2⟩

/-! ## The walk after a kill -/

/-- One call of the callback once a job has been killed: it prints the job with
the tag "(next)" and nothing else, and counts `next` down. -/
theorem callback_next (st : OomState) (job : Job) (hk : st.killed = true) :
    oom_callback st job =
      ({ job_counter := st.job_counter
         job_printer := st.job_printer
         killed := true
         next := st.next - 1
         log := st.log ++ [OomEvent.job_line JobTag.tag_next job.koid] },
        if st.next - 1 = 0 then MX_ERR_STOP else MX_OK) := by
  unfold oom_callback
  simp [hk]

/-- Once a job has been killed and `next` is `n + 1`, the walk prints the next
`n + 1` jobs with the tag "(next)" and does nothing else. -/
theorem walk_tail (post : List Job) (st : OomState) (n : Nat) (hk : st.killed = true)
    (hn : st.next = (n : Int) + 1) :
    (ForEachJobByImportance oom_callback st post).log =
      st.log ++ (post.take (n + 1)).map (fun p => OomEvent.job_line JobTag.tag_next p.koid) := by
  induction post generalizing st n with
  | nil => simp [ForEachJobByImportance]
  | cons p ps ih =>
    simp only [ForEachJobByImportance, callback_next st p hk]
    cases n with
    | zero =>
      have h0 : st.next - 1 = 0 := by rw [hn]; simp
      simp [h0, MX_ERR_STOP, MX_OK]
    | succ m =>
      have h1 : st.next - 1 = (m : Int) + 1 := by rw [hn]; push_cast; ring
      have h0 : ¬ (st.next - 1 = 0) := by rw [h1]; omega
      simp only [h0, if_false, if_true]
      rw [ih _ m rfl h1]
      simp [List.take_succ_cons]

/-- One call of the callback while no job has been killed leaves `next` as it
is, and when the job has a running descendant process the last thing it does is
the call of `Kill` on that job. -/
theorem callback_kill_last (st : OomState) (job : Job) (hk : st.killed = false)
    (hb : job.descendants.length < 2 ^ 64) :
    (oom_callback st job).1.next = st.next ∧
    (hasRunning job = true →
      (oom_callback st job).1.log.getLast? = some (OomEvent.Kill job.koid)) := by
  have hc := counted_running job st.job_counter hb
  unfold oom_callback
  by_cases hr : 0 < runningDescendants job
  · simp only [hk, hc, hr, hasRunning, Bool.not_false, if_true, decide_True, gt_iff_lt,
      true_and, forall_const]
    rw [List.getLast?_append]
    rfl
  · simp [hk, hc, hr, hasRunning]

/-- The walk up to and including the first job with a running descendant
process: the rest of the walk starts from the state it leaves, in which a job
has been killed, `next` is untouched and the last event is the call of `Kill`. -/
theorem walk_until_kill (pre : List Job) (j : Job) (post : List Job) (st : OomState)
    (hk : st.killed = false) (hpre : ∀ p ∈ pre, hasRunning p = false)
    (hj : hasRunning j = true)
    (hb : ∀ p ∈ pre ++ [j], p.descendants.length < 2 ^ 64) :
    ForEachJobByImportance oom_callback st (pre ++ j :: post)
      = ForEachJobByImportance oom_callback
          (ForEachJobByImportance oom_callback st (pre ++ [j])) post ∧
    (ForEachJobByImportance oom_callback st (pre ++ [j])).killed = true ∧
    (ForEachJobByImportance oom_callback st (pre ++ [j])).next = st.next ∧
    (ForEachJobByImportance oom_callback st (pre ++ [j])).log.getLast?
      = some (OomEvent.Kill j.koid) := by
  induction pre generalizing st with
  | nil =>
    have hbj : j.descendants.length < 2 ^ 64 := hb j (by simp)
    obtain ⟨h1, h2, _⟩ := callback_before_kill st j hk hbj
    obtain ⟨h4, h5⟩ := callback_kill_last st j hk hbj
    simp only [List.nil_append, ForEachJobByImportance, h1, if_true]
    exact ⟨trivial, by rw [h2, hj], h4, h5 hj⟩
  | cons p ps ih =>
    have hbp : p.descendants.length < 2 ^ 64 := hb p (by simp)
    obtain ⟨h1, h2, _⟩ := callback_before_kill st p hk hbp
    obtain ⟨h4, _⟩ := callback_kill_last st p hk hbp
    have hp : hasRunning p = false := hpre p (List.mem_cons_self _ _)
    obtain ⟨i1, i2, i3, i4⟩ := ih (oom_callback st p).1 (by rw [h2, hp])
      (fun q hq => hpre q (List.mem_cons_of_mem _ hq))
      (fun q hq => hb q (by simp only [List.cons_append, List.mem_cons]; exact Or.inr hq))
    simp only [List.cons_append, ForEachJobByImportance, h1, if_true]
    exact ⟨i1, i2, i3.trans h4, i4⟩

/-- C24: when `oom_lowmem` has killed a job (the first one with a running
descendant process), all it does afterwards is to print the jobs that follow
with the tag "(next)", for at most 3 of them, after which the walk stops: for
none of them are the descendants enumerated or is `Kill` called. -/
theorem C24_bounded_walk_after_kill (shortfall_bytes : Nat) (pre : List Job) (j : Job)
    (post : List Job) (hpre : ∀ p ∈ pre, hasRunning p = false) (hj : hasRunning j = true)
    (hb : ∀ p ∈ pre ++ [j], p.descendants.length < 2 ^ 64) :
    (oom_lowmem shortfall_bytes (pre ++ [j])).log.getLast? = some (OomEvent.Kill j.koid) ∧
    (oom_lowmem shortfall_bytes (pre ++ j :: post)).log
      = (oom_lowmem shortfall_bytes (pre ++ [j])).log ++
        (post.take 3).map (fun p => OomEvent.job_line JobTag.tag_next p.koid) ∧
    kills (oom_lowmem shortfall_bytes (pre ++ j :: post)).log = [j.koid] := by
  obtain ⟨h1, h2, h3, h4⟩ := walk_until_kill pre j post
    { job_counter := ⟨false, 0, 0, 0⟩
      job_printer := ⟨true, 0, 0, 0⟩
      killed := false
      next := 3
      log := [OomEvent.called shortfall_bytes] } rfl hpre hj hb
  have hlog : (oom_lowmem shortfall_bytes (pre ++ j :: post)).log
      = (oom_lowmem shortfall_bytes (pre ++ [j])).log ++
        (post.take 3).map (fun p => OomEvent.job_line JobTag.tag_next p.koid) := by
    unfold oom_lowmem
    rw [h1]
    exact walk_tail post _ 2 h2 h3
  refine ⟨h4, hlog, ?_⟩
  have hpk : kills (oom_lowmem shortfall_bytes (pre ++ [j])).log = [j.koid] := by
    rw [oom_kills shortfall_bytes (pre ++ [j]) hb, List.find?_append,
      List.find?_eq_none.mpr (fun p hp => by simp [hpre p hp])]
    simp [List.find?_cons, hj]
  rw [hlog, kills_append, hpk]
  have hnone : ∀ l : List Job,
      kills (l.map (fun p => OomEvent.job_line JobTag.tag_next p.koid)) = [] := by
    intro l
    induction l with
    | nil => rfl
    | cons a l ih => simpa [kills] using ih
  rw [hnone]
  rfl

/-- C24 at a concrete walk: job 1 is skipped, job 2 is killed, jobs 3, 4 and 5
are printed as next, and job 6 is not reached. -/
theorem C24_bounded_walk_after_kill_witness :
    (∀ p ∈ [(⟨1, []⟩ : Job)], hasRunning p = false) ∧
    hasRunning ⟨2, [Descendant.process 20 ⟨true, false, false⟩]⟩ = true ∧
    (∀ p ∈ [(⟨1, []⟩ : Job)] ++ [⟨2, [Descendant.process 20 ⟨true, false, false⟩]⟩],
      p.descendants.length < 2 ^ 64) ∧
    (oom_lowmem 4096 ([(⟨1, []⟩ : Job)] ++
      ⟨2, [Descendant.process 20 ⟨true, false, false⟩]⟩ ::
        [⟨3, []⟩, ⟨4, [Descendant.process 40 ⟨true, false, false⟩]⟩, ⟨5, []⟩, ⟨6, []⟩])).log
      = (oom_lowmem 4096 ([(⟨1, []⟩ : Job)] ++
          [⟨2, [Descendant.process 20 ⟨true, false, false⟩]⟩])).log ++
        [OomEvent.job_line JobTag.tag_next 3, OomEvent.job_line JobTag.tag_next 4,
          OomEvent.job_line JobTag.tag_next 5] :=
  ⟨by decide, by decide, by decide,
    (C24_bounded_walk_after_kill 4096 [⟨1, []⟩]
      ⟨2, [Descendant.process 20 ⟨true, false, false⟩]⟩
      [⟨3, []⟩, ⟨4, [Descendant.process 40 ⟨true, false, false⟩]⟩, ⟨5, []⟩, ⟨6, []⟩]
      (by decide) (by decide) (by decide)).2.1⟩

/-! ## Intel IOMMU context tables -/

/-- C26: `includes_bdf(bus, dev_func)` is true exactly when `bus` is the bus of
the table and, for an extended table, the device number `dev_func >> 3` is
below 16 exactly when the table is the lower half; so of the lower and the
upper extended table of a bus exactly one includes a given `dev_func`, no
table of another bus does, and a table that is not extended includes every
`dev_func` of its bus. -/
theorem C26_includes_bdf (t : ContextTableState) (bus dev_func : Nat) (upper : Bool) :
    t.includes_bdf bus dev_func
      = (decide (bus = t.bus_) &&
          (!t.extended_ || (decide (dev_func >>> 3 < 16) == !t.upper_))) ∧
    xor ((⟨bus, true, false⟩ : ContextTableState).includes_bdf bus dev_func)
      ((⟨bus, true, true⟩ : ContextTableState).includes_bdf bus dev_func) = true ∧
    (⟨bus, false, upper⟩ : ContextTableState).includes_bdf bus dev_func = true ∧
    (decide (bus = t.bus_) = false → t.includes_bdf bus dev_func = false) := by
  have hdev : dev_func >>> 3 < 16 ↔ ¬ dev_func ≥ 128 := by
    rw [Nat.shiftRight_eq_div_pow]
    omega
  refine ⟨?_, ?_, ?_, ?_⟩
  · unfold ContextTableState.includes_bdf
    by_cases hb : bus = t.bus_ <;> cases he : t.extended_ <;> cases hu : t.upper_ <;>
      by_cases hd : dev_func ≥ 128 <;> simp [hb, hdev, hd]
  · unfold ContextTableState.includes_bdf
    by_cases hd : dev_func ≥ 128 <;> simp [hd]
  · unfold ContextTableState.includes_bdf
    simp
  · intro hb
    unfold ContextTableState.includes_bdf
    have hb2 : bus ≠ t.bus_ := by simpa using hb
    simp [hb2]

/-- C26 at concrete tables: dev_func 0x7f (device 15) and 0x80 (device 16) on
the lower extended table of bus 3, and a table of another bus. -/
theorem C26_includes_bdf_witness :
    (⟨3, true, false⟩ : ContextTableState).includes_bdf 3 0x7f = true ∧
    (⟨3, true, false⟩ : ContextTableState).includes_bdf 3 0x80 = false ∧
    (⟨4, true, false⟩ : ContextTableState).includes_bdf 3 0x7f = false :=
  ⟨by decide, by decide,
    (C26_includes_bdf ⟨4, true, false⟩ 3 0x7f false).2.2.2 (by decide)⟩

/-! ## Resource validation -/

/-- C27: when the lookup of the handle fails, `validate_ranged_resource`
returns the status of the lookup; when it yields a resource, the result is
`MX_OK` if the kind of the resource is `MX_RSRC_KIND_ROOT`, or if it is the
kind asked for and the range of the resource contains the range asked for
(`low >= rsrc_low` and `high <= rsrc_high`), and `MX_ERR_ACCESS_DENIED` in
every other case; the two statuses differ, so `MX_OK` is returned exactly in
the first case. -/
theorem C27_validate_ranged_resource (root : Nat) (status : Int)
    (resource : ResourceDispatcher) (kind low high : Nat) :
    validate_ranged_resource root status resource kind low high =
      (if status ≠ MX_OK then status
       else if resource.kind = root ∨
          (resource.kind = kind ∧ low ≥ resource.low ∧ high ≤ resource.high) then MX_OK
       else MX_ERR_ACCESS_DENIED) ∧
    (validate_ranged_resource root MX_OK resource kind low high = MX_OK ↔
      resource.kind = root ∨
        (resource.kind = kind ∧ low ≥ resource.low ∧ high ≤ resource.high)) ∧
    MX_ERR_ACCESS_DENIED ≠ MX_OK := by
  have hne : MX_ERR_ACCESS_DENIED ≠ MX_OK := by decide
  have h1 : validate_ranged_resource root status resource kind low high =
      (if status ≠ MX_OK then status
       else if resource.kind = root ∨
          (resource.kind = kind ∧ low ≥ resource.low ∧ high ≤ resource.high) then MX_OK
       else MX_ERR_ACCESS_DENIED) := by
    unfold validate_ranged_resource
    by_cases hs : status = MX_OK <;> by_cases hr : resource.kind = root <;>
      by_cases hk : resource.kind = kind <;>
      by_cases hrange : low ≥ resource.low ∧ high ≤ resource.high <;>
      simp [hs, hr, hk, hrange]
  refine ⟨h1, ?_, hne⟩
  unfold validate_ranged_resource
  by_cases hr : resource.kind = root <;> by_cases hk : resource.kind = kind <;>
    by_cases hrange : low ≥ resource.low ∧ high ≤ resource.high <;>
    simp [hr, hk, hrange, hne]

/-! ## The rights check -/

/-- C29: `magenta_rights_check(handle, desired)` is true exactly when
`(rights & desired) == desired`, that is when every bit of `desired` is set in
the rights of the handle; so it is true for `desired == 0`, and when it is true
for `desired` it is true for every `sub` with `sub & desired == sub`. -/
theorem C29_rights_check (handle : Handle) (desired sub : Nat) :
    (magenta_rights_check handle desired = true ↔ handle.rights &&& desired = desired) ∧
    (magenta_rights_check handle desired = true ↔
      ∀ j, desired.testBit j = true → handle.rights.testBit j = true) ∧
    magenta_rights_check handle 0 = true ∧
    (magenta_rights_check handle desired = true → sub &&& desired = sub →
      magenta_rights_check handle sub = true) := by
  have h1 : magenta_rights_check handle desired = true ↔ handle.rights &&& desired = desired := by
    unfold magenta_rights_check
    by_cases h : handle.rights &&& desired = desired <;> simp [h]
  have hbits : ∀ a d : Nat, a &&& d = d ↔ ∀ j, d.testBit j = true → a.testBit j = true := by
    intro a d
    constructor
    · intro h j hj
      have := congrArg (fun x => x.testBit j) h
      simp only [Nat.testBit_and, hj, Bool.and_true] at this
      exact this
    · intro h
      apply Nat.eq_of_testBit_eq
      intro j
      rw [Nat.testBit_and]
      cases hd : d.testBit j with
      | false => simp
      | true => simp [h j hd]
  refine ⟨h1, h1.trans (hbits _ _), ?_, ?_⟩
  · unfold magenta_rights_check
    simp
  · intro hd hsub
    have h2 : magenta_rights_check handle sub = true ↔ handle.rights &&& sub = sub := by
      unfold magenta_rights_check
      by_cases h : handle.rights &&& sub = sub <;> simp [h]
    rw [h2, hbits]
    intro j hj
    have hdj : desired.testBit j = true := by
      have := congrArg (fun x => x.testBit j) hsub
      simp only [Nat.testBit_and, hj, Bool.true_and] at this
      exact this
    exact (hbits _ _).mp (h1.mp hd) j hdj

/-- C29 at a concrete handle with rights 0b1110: the check for 0b0110 succeeds,
hence the one for its subset 0b0100. -/
theorem C29_rights_check_witness :
    magenta_rights_check ⟨7, 14, 262149⟩ 6 = true ∧ 4 &&& 6 = 4 ∧
    magenta_rights_check ⟨7, 14, 262149⟩ 4 = true ∧
    magenta_rights_check ⟨7, 14, 262149⟩ 1 = false :=
  ⟨by decide, by decide,
    (C29_rights_check ⟨7, 14, 262149⟩ 6 4).2.2.2 (by decide) (by decide), by decide⟩

/-! ## The alignment of a contiguous VMO -/

theorem commitAlignments_append (a b : List SysEvent) :
    commitAlignments (a ++ b) = commitAlignments a ++ commitAlignments b := by
  induction a with
  | nil => rfl
  | cons e es ih => cases e <;> simp [commitAlignments, ih]

theorem commitAlignments_table (es : List Event) :
    commitAlignments (es.map SysEvent.table) = [] := by
  induction es with
  | nil => rfl
  | cons e es ih => simpa [commitAlignments] using ih

theorem commitAlignments_drop (s : State) (handle : Option Nat) :
    commitAlignments (HandleOwner_drop s handle).2 = [] := by
  cases handle with
  | none => rfl
  | some h => exact commitAlignments_table _

/-- C30: `sys_vmo_create_contiguous` returns `MX_ERR_INVALID_ARGS` without
having validated the resource or allocated anything, whatever the later calls
would yield, exactly when `size == 0` or the effective alignment
(`alignment_log2`, with 0 replaced by `PAGE_SIZE_SHIFT`) is below
`PAGE_SIZE_SHIFT` or at least 64; with accepted arguments a failing resource
validation is what it returns, and the value narrowed to `uint8_t` that
`CommitRangeContiguous` receives is the effective alignment. -/
theorem C30_alignment_check (s : State) (PAGE_SIZE_SHIFT : Nat)
    (ROUNDUP_PAGE_SIZE : Nat → Nat) (size alignment_log2 : Nat) :
    ((size = 0 ∨
        (if alignment_log2 = 0 then PAGE_SIZE_SHIFT else alignment_log2) < PAGE_SIZE_SHIFT ∨
        (if alignment_log2 = 0 then PAGE_SIZE_SHIFT else alignment_log2) ≥ 64) ↔
      ∀ (validate_status vmo_status commit_status : Int) (committed : Nat)
        (create_result : Int) (dispatcher rights : Nat) (alloc : Option Nat)
        (map_value : Option Nat → Int) (copy_status : Int),
        sys_vmo_create_contiguous s PAGE_SIZE_SHIFT ROUNDUP_PAGE_SIZE size alignment_log2
          validate_status vmo_status commit_status committed create_result dispatcher rights
          alloc map_value copy_status = ⟨MX_ERR_INVALID_ARGS, s, []⟩) ∧
    (∀ (validate_status vmo_status commit_status : Int) (committed : Nat)
        (create_result : Int) (dispatcher rights : Nat) (alloc : Option Nat)
        (map_value : Option Nat → Int) (copy_status : Int),
      ¬ (size = 0 ∨
        (if alignment_log2 = 0 then PAGE_SIZE_SHIFT else alignment_log2) < PAGE_SIZE_SHIFT ∨
        (if alignment_log2 = 0 then PAGE_SIZE_SHIFT else alignment_log2) ≥ 64) →
      (validate_status < 0 →
        sys_vmo_create_contiguous s PAGE_SIZE_SHIFT ROUNDUP_PAGE_SIZE size alignment_log2
          validate_status vmo_status commit_status committed create_result dispatcher rights
          alloc map_value copy_status = ⟨validate_status, s, []⟩) ∧
      (¬ validate_status < 0 → vmo_status = MX_OK →
        commitAlignments (sys_vmo_create_contiguous s PAGE_SIZE_SHIFT ROUNDUP_PAGE_SIZE size
          alignment_log2 validate_status vmo_status commit_status committed create_result
          dispatcher rights alloc map_value copy_status).trace
          = [if alignment_log2 = 0 then PAGE_SIZE_SHIFT else alignment_log2])) := by
  have hgood : ∀ (validate_status vmo_status commit_status : Int) (committed : Nat)
      (create_result : Int) (dispatcher rights : Nat) (alloc : Option Nat)
      (map_value : Option Nat → Int) (copy_status : Int),
      ¬ (size = 0 ∨
        (if alignment_log2 = 0 then PAGE_SIZE_SHIFT else alignment_log2) < PAGE_SIZE_SHIFT ∨
        (if alignment_log2 = 0 then PAGE_SIZE_SHIFT else alignment_log2) ≥ 64) →
      (validate_status < 0 →
        sys_vmo_create_contiguous s PAGE_SIZE_SHIFT ROUNDUP_PAGE_SIZE size alignment_log2
          validate_status vmo_status commit_status committed create_result dispatcher rights
          alloc map_value copy_status = ⟨validate_status, s, []⟩) ∧
      (¬ validate_status < 0 → vmo_status = MX_OK →
        commitAlignments (sys_vmo_create_contiguous s PAGE_SIZE_SHIFT ROUNDUP_PAGE_SIZE size
          alignment_log2 validate_status vmo_status commit_status committed create_result
          dispatcher rights alloc map_value copy_status).trace
          = [if alignment_log2 = 0 then PAGE_SIZE_SHIFT else alignment_log2]) := by
    intro validate_status vmo_status commit_status committed create_result dispatcher rights
      alloc map_value copy_status hbad
    generalize heff : (if alignment_log2 = 0 then PAGE_SIZE_SHIFT else alignment_log2) = eff
      at hbad
    have hsz : ¬ size = 0 := fun h => hbad (Or.inl h)
    have hal : ¬ (eff < PAGE_SIZE_SHIFT ∨ eff ≥ 8 * 8) := fun h => hbad (Or.inr h)
    have hmod : eff % 2 ^ 8 = eff := by
      apply Nat.mod_eq_of_lt
      omega
    constructor
    · intro hv
      unfold sys_vmo_create_contiguous
      simp only [hsz, if_false, heff, hal, hv, if_true]
    · intro hv hvmo
      unfold sys_vmo_create_contiguous
      simp only [hsz, if_false, heff, hal, hv, hvmo, ne_eq, not_true_eq_false, hmod]
      split_ifs <;>
        simp [commitAlignments_append, commitAlignments_table, commitAlignments_drop,
          commitAlignments]
  refine ⟨⟨?_, ?_⟩, hgood⟩
  · intro hbad validate_status vmo_status commit_status committed create_result dispatcher
      rights alloc map_value copy_status
    unfold sys_vmo_create_contiguous
    by_cases hsz : size = 0
    · simp only [hsz, if_true]
    · have hal : (if alignment_log2 = 0 then PAGE_SIZE_SHIFT else alignment_log2)
          < PAGE_SIZE_SHIFT ∨
          (if alignment_log2 = 0 then PAGE_SIZE_SHIFT else alignment_log2) ≥ 8 * 8 := by
        rcases hbad with h | h
        · exact absurd h hsz
        · exact h
      simp only [hsz, if_false, hal, if_true]
  · intro hall
    by_contra hbad
    have h1 := (hgood MX_ERR_ACCESS_DENIED MX_OK MX_OK 0 MX_OK 0 0 none (fun _ => 0) MX_OK
      hbad).1 (by decide)
    rw [hall] at h1
    have h2 : MX_ERR_INVALID_ARGS = MX_ERR_ACCESS_DENIED := congrArg SysResult.status h1
    exact absurd h2 (by decide)

/-- C30 at concrete arguments on a 4 KiB page machine: alignment 0 stands for
12, and 11 and 64 are refused before the resource is validated. -/
theorem C30_alignment_check_witness :
    commitAlignments (sys_vmo_create_contiguous demoInit 12 (fun n => (n + 4095) / 4096 * 4096)
      100 0 MX_OK MX_OK MX_OK 4096 MX_OK 7 3 (some 5) (fun _ => 9) MX_OK).trace = [12] ∧
    sys_vmo_create_contiguous demoInit 12 (fun n => (n + 4095) / 4096 * 4096)
      100 16 MX_ERR_ACCESS_DENIED MX_OK MX_OK 4096 MX_OK 7 3 (some 5) (fun _ => 9) MX_OK
      = ⟨MX_ERR_ACCESS_DENIED, demoInit, []⟩ ∧
    (sys_vmo_create_contiguous demoInit 12 (fun n => (n + 4095) / 4096 * 4096)
      100 11 MX_ERR_ACCESS_DENIED MX_OK MX_OK 4096 MX_OK 7 3 (some 5) (fun _ => 9) MX_OK).status
      = MX_ERR_INVALID_ARGS :=
  ⟨((C30_alignment_check demoInit 12 (fun n => (n + 4095) / 4096 * 4096) 100 0).2
      MX_OK MX_OK MX_OK 4096 MX_OK 7 3 (some 5) (fun _ => 9) MX_OK (by decide)).2
      (by decide) rfl,
    ((C30_alignment_check demoInit 12 (fun n => (n + 4095) / 4096 * 4096) 100 16).2
      MX_ERR_ACCESS_DENIED MX_OK MX_OK 4096 MX_OK 7 3 (some 5) (fun _ => 9) MX_OK
      (by decide)).1 (by decide),
    congrArg SysResult.status
      (((C30_alignment_check demoInit 12 (fun n => (n + 4095) / 4096 * 4096) 100 11).1.mp
        (by decide)) MX_ERR_ACCESS_DENIED MX_OK MX_OK 4096 MX_OK 7 3 (some 5) (fun _ => 9)
        MX_OK)⟩

/-! ## The permissions of a pinned VMO -/

theorem testBit_not32 (a j : Nat) : (not32 a).testBit j = (decide (j < 32) && !a.testBit j) := by
  unfold not32 u32
  rw [Nat.testBit_xor, Nat.testBit_two_pow_sub_one, Nat.testBit_mod_two_pow]
  by_cases h : j < 32 <;> simp [h]

theorem testBit_of_lt32 (p j : Nat) (hp : p < 2 ^ 32) (h : p.testBit j = true) : j < 32 := by
  by_contra hj
  have hlt : p < 2 ^ j :=
    Nat.lt_of_lt_of_le hp (Nat.pow_le_pow_right (by omega) (by omega))
  rw [Nat.testBit_lt_two_pow hlt] at h
  cases h

/-- Clearing a flag in a 32-bit word that does not have it changes nothing. -/
theorem and_not32_of_disjoint (p a : Nat) (hp : p < 2 ^ 32) (h : p &&& a = 0) :
    p &&& not32 a = p := by
  apply Nat.eq_of_testBit_eq
  intro j
  rw [Nat.testBit_and, testBit_not32]
  have hz := congrArg (fun x => x.testBit j) h
  simp only [Nat.testBit_and, Nat.zero_testBit] at hz
  cases hpj : p.testBit j with
  | false => simp
  | true =>
    have hj := testBit_of_lt32 p j hp hpj
    rw [hpj] at hz
    simp only [Bool.true_and] at hz
    simp [hj, hz]

/-- Clearing a flag leaves the test for a disjoint flag as it is. -/
theorem and_not32_and (p a b : Nat) (hp : p < 2 ^ 32) (h : a &&& b = 0) :
    (p &&& not32 a) &&& b = p &&& b := by
  apply Nat.eq_of_testBit_eq
  intro j
  simp only [Nat.testBit_and, testBit_not32]
  have hz := congrArg (fun x => x.testBit j) h
  simp only [Nat.testBit_and, Nat.zero_testBit] at hz
  cases hpj : p.testBit j with
  | false => simp
  | true =>
    have hj := testBit_of_lt32 p j hp hpj
    cases hbj : b.testBit j with
    | false => simp
    | true =>
      rw [hbj] at hz
      simp only [Bool.and_true] at hz
      simp [hj, hz]

theorem and_not32_lt (p a : Nat) (hp : p < 2 ^ 32) : p &&& not32 a < 2 ^ 32 :=
  Nat.lt_of_le_of_lt Nat.and_le_left hp

/-- The word `sys_bti_pin` tests after the three permission checks: the
requested permissions with the three flags cleared. -/
theorem cleared_eq (p a : Nat) (hp : p < 2 ^ 32) :
    (if p &&& a ≠ 0 then p &&& not32 a else p) = p &&& not32 a := by
  by_cases h : p &&& a = 0
  · simp only [h, ne_eq, not_true_eq_false, if_false]
    exact (and_not32_of_disjoint p a hp h).symm
  · simp only [h, ne_eq, not_false_eq_true, if_true]

theorem and_not32_or (p a b c : Nat) :
    p &&& not32 a &&& not32 b &&& not32 c = p &&& not32 (a ||| b ||| c) := by
  apply Nat.eq_of_testBit_eq
  intro j
  simp only [Nat.testBit_and, testBit_not32, Nat.testBit_or]
  cases p.testBit j <;> cases a.testBit j <;> cases b.testBit j <;> cases c.testBit j <;>
    by_cases hj : j < 32 <;> simp [hj]

theorem iommu_perms_eq (c : PinFlags) (r w x : Prop) [Decidable r] [Decidable w]
    [Decidable x] :
    (if x then (if w then (if r then 0 ||| c.IOMMU_FLAG_PERM_READ else 0) |||
        c.IOMMU_FLAG_PERM_WRITE else (if r then 0 ||| c.IOMMU_FLAG_PERM_READ else 0)) |||
        c.IOMMU_FLAG_PERM_EXECUTE
      else (if w then (if r then 0 ||| c.IOMMU_FLAG_PERM_READ else 0) |||
        c.IOMMU_FLAG_PERM_WRITE else (if r then 0 ||| c.IOMMU_FLAG_PERM_READ else 0))) =
    (if r then c.IOMMU_FLAG_PERM_READ else 0) ||| (if w then c.IOMMU_FLAG_PERM_WRITE else 0) |||
      (if x then c.IOMMU_FLAG_PERM_EXECUTE else 0) := by
  by_cases hr : r <;> by_cases hw : w <;> by_cases hx : x <;> simp [hr, hw, hx]

/-- The checks of `sys_bti_pin` after the two lookups, with the tests moved back
to the permissions as they were requested (the three flags do not overlap). -/
theorem sys_bti_pin_checked (c : PinFlags) (aligned : Nat → Bool)
    (offset size perms extents_len vmo_rights : Nat) (ac_check : Bool) (pin_status : Int)
    (actual_len : Nat) (copy_extents_status copy_len_status : Int)
    (hRW : c.MX_VM_FLAG_PERM_READ &&& c.MX_VM_FLAG_PERM_WRITE = 0)
    (hRX : c.MX_VM_FLAG_PERM_READ &&& c.MX_VM_FLAG_PERM_EXECUTE = 0)
    (hWX : c.MX_VM_FLAG_PERM_WRITE &&& c.MX_VM_FLAG_PERM_EXECUTE = 0)
    (hperms : perms < 2 ^ 32) (hal : aligned offset = true)
    (hmap : vmo_rights &&& c.MX_RIGHT_MAP ≠ 0) :
    sys_bti_pin c aligned offset size perms extents_len MX_OK MX_OK vmo_rights ac_check
        pin_status actual_len copy_extents_status copy_len_status =
      (if perms &&& c.MX_VM_FLAG_PERM_READ ≠ 0 ∧ vmo_rights &&& c.MX_RIGHT_READ = 0 then
        ⟨MX_ERR_ACCESS_DENIED, [PinEvent.GetDispatcherWithRights, PinEvent.GetDispatcherAndRights]⟩
      else if perms &&& c.MX_VM_FLAG_PERM_WRITE ≠ 0 ∧ vmo_rights &&& c.MX_RIGHT_WRITE = 0 then
        ⟨MX_ERR_ACCESS_DENIED, [PinEvent.GetDispatcherWithRights, PinEvent.GetDispatcherAndRights]⟩
      else if perms &&& c.MX_VM_FLAG_PERM_EXECUTE ≠ 0 ∧
          vmo_rights &&& c.MX_RIGHT_EXECUTE = 0 then
        ⟨MX_ERR_ACCESS_DENIED, [PinEvent.GetDispatcherWithRights, PinEvent.GetDispatcherAndRights]⟩
      else if perms &&& not32 (c.MX_VM_FLAG_PERM_READ ||| c.MX_VM_FLAG_PERM_WRITE |||
          c.MX_VM_FLAG_PERM_EXECUTE) ≠ 0 then
        ⟨MX_ERR_INVALID_ARGS, [PinEvent.GetDispatcherWithRights, PinEvent.GetDispatcherAndRights]⟩
      else if !ac_check then
        ⟨MX_ERR_NO_MEMORY, [PinEvent.GetDispatcherWithRights, PinEvent.GetDispatcherAndRights]⟩
      else if pin_status ≠ MX_OK then
        ⟨pin_status, [PinEvent.GetDispatcherWithRights, PinEvent.GetDispatcherAndRights] ++
          [PinEvent.Pin offset size
            ((if perms &&& c.MX_VM_FLAG_PERM_READ ≠ 0 then c.IOMMU_FLAG_PERM_READ else 0) |||
              (if perms &&& c.MX_VM_FLAG_PERM_WRITE ≠ 0 then c.IOMMU_FLAG_PERM_WRITE else 0) |||
              (if perms &&& c.MX_VM_FLAG_PERM_EXECUTE ≠ 0 then c.IOMMU_FLAG_PERM_EXECUTE
                else 0))
            extents_len]⟩
      else if copy_extents_status ≠ MX_OK then
        ⟨copy_extents_status, [PinEvent.GetDispatcherWithRights, PinEvent.GetDispatcherAndRights] ++
          [PinEvent.Pin offset size
            ((if perms &&& c.MX_VM_FLAG_PERM_READ ≠ 0 then c.IOMMU_FLAG_PERM_READ else 0) |||
              (if perms &&& c.MX_VM_FLAG_PERM_WRITE ≠ 0 then c.IOMMU_FLAG_PERM_WRITE else 0) |||
              (if perms &&& c.MX_VM_FLAG_PERM_EXECUTE ≠ 0 then c.IOMMU_FLAG_PERM_EXECUTE
                else 0))
            extents_len] ++
          [PinEvent.copy_array_to_user actual_len] ++ [PinEvent.Unpin actual_len]⟩
      else if copy_len_status ≠ MX_OK then
        ⟨copy_len_status, [PinEvent.GetDispatcherWithRights, PinEvent.GetDispatcherAndRights] ++
          [PinEvent.Pin offset size
            ((if perms &&& c.MX_VM_FLAG_PERM_READ ≠ 0 then c.IOMMU_FLAG_PERM_READ else 0) |||
              (if perms &&& c.MX_VM_FLAG_PERM_WRITE ≠ 0 then c.IOMMU_FLAG_PERM_WRITE else 0) |||
              (if perms &&& c.MX_VM_FLAG_PERM_EXECUTE ≠ 0 then c.IOMMU_FLAG_PERM_EXECUTE
                else 0))
            extents_len] ++
          [PinEvent.copy_array_to_user actual_len] ++
          [PinEvent.copy_to_user (u32 actual_len)] ++ [PinEvent.Unpin actual_len]⟩
      else
        ⟨MX_OK, [PinEvent.GetDispatcherWithRights, PinEvent.GetDispatcherAndRights] ++
          [PinEvent.Pin offset size
            ((if perms &&& c.MX_VM_FLAG_PERM_READ ≠ 0 then c.IOMMU_FLAG_PERM_READ else 0) |||
              (if perms &&& c.MX_VM_FLAG_PERM_WRITE ≠ 0 then c.IOMMU_FLAG_PERM_WRITE else 0) |||
              (if perms &&& c.MX_VM_FLAG_PERM_EXECUTE ≠ 0 then c.IOMMU_FLAG_PERM_EXECUTE
                else 0))
            extents_len] ++
          [PinEvent.copy_array_to_user actual_len] ++
          [PinEvent.copy_to_user (u32 actual_len)]⟩) := by
  have h1 := and_not32_lt perms c.MX_VM_FLAG_PERM_READ hperms
  have h2 := and_not32_lt _ c.MX_VM_FLAG_PERM_WRITE h1
  have e1 : (if ¬ perms &&& c.MX_VM_FLAG_PERM_READ = 0 then
      perms &&& not32 c.MX_VM_FLAG_PERM_READ else perms)
      = perms &&& not32 c.MX_VM_FLAG_PERM_READ :=
    cleared_eq perms c.MX_VM_FLAG_PERM_READ hperms
  have t2 := and_not32_and perms c.MX_VM_FLAG_PERM_READ c.MX_VM_FLAG_PERM_WRITE hperms hRW
  have e2 : (if ¬ perms &&& c.MX_VM_FLAG_PERM_WRITE = 0 then
      perms &&& not32 c.MX_VM_FLAG_PERM_READ &&& not32 c.MX_VM_FLAG_PERM_WRITE
      else perms &&& not32 c.MX_VM_FLAG_PERM_READ)
      = perms &&& not32 c.MX_VM_FLAG_PERM_READ &&& not32 c.MX_VM_FLAG_PERM_WRITE := by
    rw [← t2]
    exact cleared_eq _ c.MX_VM_FLAG_PERM_WRITE h1
  have t3 : perms &&& not32 c.MX_VM_FLAG_PERM_READ &&& not32 c.MX_VM_FLAG_PERM_WRITE &&&
      c.MX_VM_FLAG_PERM_EXECUTE = perms &&& c.MX_VM_FLAG_PERM_EXECUTE := by
    rw [and_not32_and _ c.MX_VM_FLAG_PERM_WRITE c.MX_VM_FLAG_PERM_EXECUTE h1 hWX,
      and_not32_and perms c.MX_VM_FLAG_PERM_READ c.MX_VM_FLAG_PERM_EXECUTE hperms hRX]
  have t4 := and_not32_or perms c.MX_VM_FLAG_PERM_READ c.MX_VM_FLAG_PERM_WRITE
    c.MX_VM_FLAG_PERM_EXECUTE
  have e3 : (if ¬ perms &&& c.MX_VM_FLAG_PERM_EXECUTE = 0 then
      perms &&& not32 (c.MX_VM_FLAG_PERM_READ ||| c.MX_VM_FLAG_PERM_WRITE |||
          c.MX_VM_FLAG_PERM_EXECUTE)
      else perms &&& not32 c.MX_VM_FLAG_PERM_READ &&& not32 c.MX_VM_FLAG_PERM_WRITE)
      = perms &&& not32 (c.MX_VM_FLAG_PERM_READ ||| c.MX_VM_FLAG_PERM_WRITE |||
          c.MX_VM_FLAG_PERM_EXECUTE) := by
    rw [← t4, ← t3]
    exact cleared_eq _ c.MX_VM_FLAG_PERM_EXECUTE h2
  unfold sys_bti_pin
  simp only [hal, Bool.not_true, Bool.false_eq_true, if_false, ne_eq, not_true_eq_false,
    hmap, e1, t2, e2, t3, t4, e3, iommu_perms_eq]

/-- C28: in `sys_bti_pin` with a page-aligned offset, successful lookups and a
VMO handle that has `MX_RIGHT_MAP` (the three permission flags being distinct
bits): when a requested READ, WRITE or EXECUTE permission lacks the right of
that name the call returns `MX_ERR_ACCESS_DENIED`; otherwise, when `perms` has
a bit other than the three flags, it returns `MX_ERR_INVALID_ARGS`; otherwise
`Pin` is called once (if the array of extents can be allocated) with exactly
the `IOMMU_FLAG_PERM_*` bits of the requested `MX_VM_FLAG_PERM_*` bits.  An
offset that is not page-aligned gives `MX_ERR_INVALID_ARGS` before any lookup. -/
theorem C28_pin_permissions (c : PinFlags) (aligned : Nat → Bool)
    (offset size perms extents_len vmo_rights : Nat) (ac_check : Bool) (pin_status : Int)
    (actual_len : Nat) (copy_extents_status copy_len_status : Int)
    (hRW : c.MX_VM_FLAG_PERM_READ &&& c.MX_VM_FLAG_PERM_WRITE = 0)
    (hRX : c.MX_VM_FLAG_PERM_READ &&& c.MX_VM_FLAG_PERM_EXECUTE = 0)
    (hWX : c.MX_VM_FLAG_PERM_WRITE &&& c.MX_VM_FLAG_PERM_EXECUTE = 0)
    (hperms : perms < 2 ^ 32) (hal : aligned offset = true)
    (hmap : vmo_rights &&& c.MX_RIGHT_MAP ≠ 0) :
    (((perms &&& c.MX_VM_FLAG_PERM_READ ≠ 0 ∧ vmo_rights &&& c.MX_RIGHT_READ = 0) ∨
        (perms &&& c.MX_VM_FLAG_PERM_WRITE ≠ 0 ∧ vmo_rights &&& c.MX_RIGHT_WRITE = 0) ∨
        (perms &&& c.MX_VM_FLAG_PERM_EXECUTE ≠ 0 ∧ vmo_rights &&& c.MX_RIGHT_EXECUTE = 0)) →
      sys_bti_pin c aligned offset size perms extents_len MX_OK MX_OK vmo_rights ac_check
        pin_status actual_len copy_extents_status copy_len_status
        = ⟨MX_ERR_ACCESS_DENIED, [PinEvent.GetDispatcherWithRights, PinEvent.GetDispatcherAndRights]⟩) ∧
    (¬ ((perms &&& c.MX_VM_FLAG_PERM_READ ≠ 0 ∧ vmo_rights &&& c.MX_RIGHT_READ = 0) ∨
        (perms &&& c.MX_VM_FLAG_PERM_WRITE ≠ 0 ∧ vmo_rights &&& c.MX_RIGHT_WRITE = 0) ∨
        (perms &&& c.MX_VM_FLAG_PERM_EXECUTE ≠ 0 ∧ vmo_rights &&& c.MX_RIGHT_EXECUTE = 0)) →
      perms &&& not32 (c.MX_VM_FLAG_PERM_READ ||| c.MX_VM_FLAG_PERM_WRITE |||
          c.MX_VM_FLAG_PERM_EXECUTE) ≠ 0 →
      sys_bti_pin c aligned offset size perms extents_len MX_OK MX_OK vmo_rights ac_check
        pin_status actual_len copy_extents_status copy_len_status
        = ⟨MX_ERR_INVALID_ARGS, [PinEvent.GetDispatcherWithRights, PinEvent.GetDispatcherAndRights]⟩) ∧
    (¬ ((perms &&& c.MX_VM_FLAG_PERM_READ ≠ 0 ∧ vmo_rights &&& c.MX_RIGHT_READ = 0) ∨
        (perms &&& c.MX_VM_FLAG_PERM_WRITE ≠ 0 ∧ vmo_rights &&& c.MX_RIGHT_WRITE = 0) ∨
        (perms &&& c.MX_VM_FLAG_PERM_EXECUTE ≠ 0 ∧ vmo_rights &&& c.MX_RIGHT_EXECUTE = 0)) →
      perms &&& not32 (c.MX_VM_FLAG_PERM_READ ||| c.MX_VM_FLAG_PERM_WRITE |||
          c.MX_VM_FLAG_PERM_EXECUTE) = 0 →
      ac_check = true →
      pinnedPerms (sys_bti_pin c aligned offset size perms extents_len MX_OK MX_OK vmo_rights ac_check
        pin_status actual_len copy_extents_status copy_len_status).trace =
          [((if perms &&& c.MX_VM_FLAG_PERM_READ ≠ 0 then c.IOMMU_FLAG_PERM_READ else 0) |||
              (if perms &&& c.MX_VM_FLAG_PERM_WRITE ≠ 0 then c.IOMMU_FLAG_PERM_WRITE else 0) |||
              (if perms &&& c.MX_VM_FLAG_PERM_EXECUTE ≠ 0 then c.IOMMU_FLAG_PERM_EXECUTE
                else 0))]) ∧
    (∀ (unaligned : Nat) (bti_status vmo_status : Int), aligned unaligned = false →
      sys_bti_pin c aligned unaligned size perms extents_len bti_status vmo_status vmo_rights
        ac_check pin_status actual_len copy_extents_status copy_len_status
        = ⟨MX_ERR_INVALID_ARGS, []⟩) := by
  have hform := sys_bti_pin_checked c aligned offset size perms extents_len vmo_rights ac_check
    pin_status actual_len copy_extents_status copy_len_status hRW hRX hWX hperms hal hmap
  refine ⟨?_, ?_, ?_, ?_⟩
  · intro hl
    rw [hform]
    by_cases c1 : perms &&& c.MX_VM_FLAG_PERM_READ ≠ 0 ∧ vmo_rights &&& c.MX_RIGHT_READ = 0
    · rw [if_pos c1]
    · rw [if_neg c1]
      by_cases c2 : perms &&& c.MX_VM_FLAG_PERM_WRITE ≠ 0 ∧ vmo_rights &&& c.MX_RIGHT_WRITE = 0
      · rw [if_pos c2]
      · rw [if_neg c2, if_pos ((hl.resolve_left c1).resolve_left c2)]
  · intro hl ho
    rw [not_or, not_or] at hl
    rw [hform, if_neg hl.1, if_neg hl.2.1, if_neg hl.2.2, if_pos ho]
  · intro hl ho hac
    rw [not_or, not_or] at hl
    rw [hform, if_neg hl.1, if_neg hl.2.1, if_neg hl.2.2, if_neg (not_not.mpr ho)]
    subst hac
    rw [if_neg (by decide : ¬ ((!true) = true))]
    by_cases p1 : pin_status ≠ MX_OK
    · rw [if_pos p1]; rfl
    · rw [if_neg p1]
      by_cases p2 : copy_extents_status ≠ MX_OK
      · rw [if_pos p2]; rfl
      · rw [if_neg p2]
        by_cases p3 : copy_len_status ≠ MX_OK
        · rw [if_pos p3]; rfl
        · rw [if_neg p3]; rfl
  · intro unaligned bti_status vmo_status hun
    unfold sys_bti_pin
    simp only [hun, Bool.not_false, if_true]

/-- C28 at the flag values of Magenta: a request for READ and WRITE on a VMO
handle with the rights READ, WRITE and MAP pins with the IOMMU permissions READ
and WRITE. -/
theorem C28_pin_permissions_witness :
    pinnedPerms (sys_bti_pin demoFlags (fun a => a % 4096 == 0) 8192 4096 3 4 MX_OK MX_OK 44
      true MX_OK 1 MX_OK MX_OK).trace = [3] :=
  (C28_pin_permissions demoFlags (fun a => a % 4096 == 0) 8192 4096 3 4 44 true MX_OK 1
    MX_OK MX_OK (by decide) (by decide) (by decide) (by decide) (by decide)
    (by decide)).2.2.1 (by decide) (by decide) rfl

end Magenta
